import Mathlib

/-!
# Timetable-Codex2: schedule resolution, window aggregation, arc clipping, task progress

A shallow embedding of

* `JsonManager::upcomingPeriods`, `JsonManager::parseSchoolPeriods`,
  `JsonManager::subtaskFromJson` (src/src/jsonmanager.cpp)
* `TimetablePage::buildDay`        (src/src/timetablepage.cpp)
* `DonutChartWidget::rebuildArcs`, `updateClock`, `drawArcs`, `minutesToAngle`
  (src/src/homepage.cpp)
* `computeProgress`                (src/src/taskspage.cpp)

together with the records of src/include/models.h.

Modelling conventions for the Qt value types:

* `QString` is `String`; `toUpper` and the case-insensitive `contains` act on the ASCII
  letters (Qt's case tables beyond ASCII are not modelled).
* `QDateTime` is a naive local instant, an `Int` count of milliseconds; only valid instants
  are modelled.  `QDate` is an `Int` day number (day 0 is Thursday 1970-01-01).
* `QTime` keeps Qt's representation: milliseconds since midnight, valid in `[0, 86400000)`;
  an invalid time combined with a date gives midnight, as `QDateTime(QDate, QTime)` does.
* `QMap<QString, T>` is a list of bindings read front to back, `insert` shadowing older
  bindings of the same key; `value` falls back to the default-constructed `T`.
* `double` is `Double`, IEEE 754 binary64: the finite values as the rationals they denote,
  the two infinities and NaN, every operation rounded to nearest with ties to even and
  overflowing to an infinity (the sign of zero is not modelled).  A stored weighting and a
  JSON number are kept as the number they denote and read through `Double.round`.
* `operator<` on `QString` compares character codes lexicographically.
* A `QJsonObject` is the list of its members in iteration order; drawing is modelled by the
  list of `painter.drawArc` calls it makes.
-/

namespace Timetable

/-! ## Qt value types -/

/-- ASCII model of `QString::toUpper`. -/
def toUpper (s : String) : String := String.mk (s.data.map Char.toUpper)

/-- ASCII model of `QString::toLower`, used for case folding. -/
def toLower (s : String) : String := String.mk (s.data.map Char.toLower)

/-- Model of `QString::contains(needle, Qt::CaseInsensitive)`: `needle` occurs as a contiguous
run of `s` once both are case-folded. -/
def containsCaseInsensitive (s needle : String) : Bool :=
  decide ((toLower needle).data <:+: (toLower s).data)

/-- Model of `QColor`: default-constructed colours are invalid. -/
inductive QColor where
  | invalid : QColor
  | rgb (r g b : Nat) : QColor
  deriving DecidableEq, Repr

instance : Inhabited QColor := ⟨QColor.invalid⟩

/-- Model of `QColor::isValid`. -/
def QColor.isValid : QColor → Bool
  | QColor.invalid => false
  | QColor.rgb _ _ _ => true

/-- Milliseconds in a day. -/
def MSECS_PER_DAY : Int := 86400000

/-- Model of `QTime`: milliseconds since midnight; a null time holds `-1`. -/
structure QTime where
  mds : Int
  deriving DecidableEq, Repr

instance : Inhabited QTime := ⟨⟨-1⟩⟩

/-- Model of `QTime::isValid`. -/
def QTime.isValid (t : QTime) : Bool := decide (0 ≤ t.mds ∧ t.mds < MSECS_PER_DAY)

/-- Model of `QTime(h, m)`. -/
def QTime.hm (h m : Int) : QTime := ⟨(h * 60 + m) * 60000⟩

/-! Calendar dates (`QDate`) are day numbers of type `Int`, day 0 being Thursday 1970-01-01;
instants (`QDateTime`) are milliseconds of type `Int`, instant 0 being midnight of day 0.  The
functions on them live in the namespaces `QDate` and `QDateTime`. -/

/-- Model of `QDateTime::date`. -/
def QDateTime.date (dt : Int) : Int := dt / MSECS_PER_DAY

/-- Model of the constructor `QDateTime(date, time)`; an invalid time reads as midnight. -/
def QDateTime.ofDateTime (d : Int) (t : QTime) : Int :=
  d * MSECS_PER_DAY + (if t.isValid then t.mds else 0)

/-- Model of `QDateTime::addDays`. -/
def QDateTime.addDays (dt : Int) (n : Int) : Int := dt + n * MSECS_PER_DAY

/-- Model of `QDateTime::setTime`. -/
def QDateTime.setTime (dt : Int) (t : QTime) : Int :=
  QDateTime.ofDateTime (QDateTime.date dt) t

/-- Model of `QDateTime::addSecs`. -/
def QDateTime.addSecs (dt : Int) (s : Int) : Int := dt + s * 1000

/-- Model of `QDate::dayOfWeek`: 1 is Monday, 7 is Sunday. -/
def QDate.dayOfWeek (d : Int) : Int := (d + 3) % 7 + 1

/-- Model of `QDate::toString("dddd")`: the long English day name. -/
def QDate.longDayName (d : Int) : String :=
  match QDate.dayOfWeek d with
  | 1 => "Monday"
  | 2 => "Tuesday"
  | 3 => "Wednesday"
  | 4 => "Thursday"
  | 5 => "Friday"
  | 6 => "Saturday"
  | _ => "Sunday"

/-- Model of `QMap<QString, T>`: bindings read front to back. -/
structure QMap (β : Type) where
  entries : List (String × β)
  deriving DecidableEq, Repr

namespace QMap

/-- The empty map. -/
def empty {β : Type} : QMap β := ⟨[]⟩

/-- Model of `QMap::insert`: the new binding replaces any older one of the key. -/
def insert {β : Type} (m : QMap β) (k : String) (v : β) : QMap β := ⟨(k, v) :: m.entries⟩

/-- The binding of `k`, if any. -/
def find {β : Type} (m : QMap β) (k : String) : Option β := m.entries.lookup k

/-- Model of `QMap::contains`. -/
def contains {β : Type} (m : QMap β) (k : String) : Bool := (m.find k).isSome

/-- Model of `QMap::value`: a default-constructed value when the key is absent. -/
def value {β : Type} [Inhabited β] (m : QMap β) (k : String) : β := (m.find k).getD default

end QMap

instance {β : Type} : Inhabited (QMap β) := ⟨QMap.empty⟩

/-! ## Records of models.h -/

structure Activity where
  id : String := ""
  title : String := ""
  description : String := ""
  startTime : Int
  endTime : Int
  color : QColor := QColor.invalid
  deriving DecidableEq, Repr

structure Subtask where
  id : String := ""
  title : String := ""
  description : String := ""
  dueTime : Int := 0
  weighting : ℚ := 1
  completed : Bool := false
  deriving DecidableEq

structure Task where
  id : String := ""
  title : String := ""
  description : String := ""
  startTime : Int := 0
  endTime : Int := 0
  subtasks : List Subtask := []
  deriving DecidableEq

structure SettingsData where
  currentWeek : String := "A"
  yearLevel : Int := 10
  deriving DecidableEq, Repr

structure SubjectDefinition where
  name : String := ""
  teacher : String := ""
  color : QColor := QColor.invalid
  deriving DecidableEq, Repr, Inhabited

structure PeriodTime where
  label : String := ""
  start : QTime := default
  «end» : QTime := default
  deriving DecidableEq, Repr, Inhabited

structure TimetableSubjectSlot where
  periodKey : String := ""
  subjectName : String := ""
  room : String := ""
  deriving DecidableEq, Repr, Inhabited

structure TimetablePeriod where
  subjectName : String := ""
  room : String := ""
  teacher : String := ""
  color : QColor := QColor.invalid
  startTime : Int := 0
  endTime : Int := 0
  periodKey : String := ""
  isSpecial : Bool := false
  deriving DecidableEq, Repr

structure TimetableTemplate where
  name : String := ""
  periods : List PeriodTime := []
  deriving DecidableEq, Repr, Inhabited

structure DaySchedule where
  name : String := ""
  templateName : String := ""
  slots : List TimetableSubjectSlot := []
  deriving DecidableEq, Repr, Inhabited

structure WeekSchedule where
  name : String := ""
  days : QMap DaySchedule := QMap.empty
  deriving DecidableEq, Repr, Inhabited

structure SchoolPeriodsData where
  subjects : QMap SubjectDefinition := QMap.empty
  templates : QMap TimetableTemplate := QMap.empty
  weeks : QMap WeekSchedule := QMap.empty
  deriving DecidableEq, Repr, Inhabited

structure DonutArc where
  startTime : Int
  endTime : Int
  color : QColor
  label : String
  category : String
  deriving DecidableEq, Repr

/-- The state of `DonutChartWidget` that `rebuildArcs` reads and writes; `mNow` is `none`
while the stored instant is invalid. -/
structure DonutChartWidget where
  mActivities : List Activity := []
  mPeriods : List TimetablePeriod := []
  mActivityArcs : List DonutArc := []
  mPeriodArcs : List DonutArc := []
  mNow : Option Int := none
  deriving DecidableEq, Repr

/-! ## TimetablePage::buildDay (timetablepage.cpp, lines 224-290) -/

/-- The `slotLookup` map: every slot of the day inserted under its period key, in order. -/
def slotLookup (slots : List TimetableSubjectSlot) : QMap TimetableSubjectSlot :=
  slots.foldl (fun m slot => m.insert slot.periodKey slot) QMap.empty

/-- Body of the loop over `templ.periods` in `buildDay` (lines 260-286). -/
def buildDayPeriod (mData : SchoolPeriodsData) (lookup : QMap TimetableSubjectSlot)
    (referenceDate : Int) (periodTime : PeriodTime) : TimetablePeriod :=
  let period : TimetablePeriod :=
    { periodKey := periodTime.label
      startTime := QDateTime.ofDateTime referenceDate periodTime.start
      endTime := QDateTime.ofDateTime referenceDate periodTime.«end» }
  if lookup.contains periodTime.label then
    let slot := lookup.value periodTime.label
    let period := { period with subjectName := slot.subjectName, room := slot.room }
    if mData.subjects.contains slot.subjectName then
      let subject := mData.subjects.value slot.subjectName
      { period with teacher := subject.teacher, color := subject.color }
    else period
  else
    { period with
      isSpecial := true
      subjectName := periodTime.label
      room := ""
      teacher := ""
      color := QColor.rgb 239 239 239 }

/-- The template name `buildDay` looks up (lines 239-243): the Wednesday substitution. -/
def buildDayTemplateName (mSettings : SettingsData) (day : DaySchedule) : String :=
  if containsCaseInsensitive day.templateName "wednesday" then
    (if mSettings.yearLevel ≥ 11 then "wednesday_year11" else "wednesday_year10")
  else day.templateName

/-- `TimetablePage::buildDay`, with the members `mData`, `mSettings` and the value of
`QDate::currentDate()` passed in. -/
def buildDay (mData : SchoolPeriodsData) (mSettings : SettingsData) (referenceDate : Int)
    (weekKey dayName : String) : List TimetablePeriod :=
  if !mData.weeks.contains weekKey then []
  else
    let week := mData.weeks.value weekKey
    if !week.days.contains dayName then []
    else
      let day := week.days.value dayName
      let templateName := buildDayTemplateName mSettings day
      if !mData.templates.contains templateName then []
      else
        let templ := mData.templates.value templateName
        let lookup := slotLookup day.slots
        templ.periods.foldl
          (fun result periodTime =>
            result ++ [buildDayPeriod mData lookup referenceDate periodTime]) []

/-! ## JsonManager::upcomingPeriods (jsonmanager.cpp, lines 222-301) -/

/-- The skip test of line 262: the period `[start, end)` misses the window `[from, to)`. -/
def outsideWindow (from_ to_ start «end» : Int) : Bool :=
  decide («end» ≤ from_) || decide (start ≥ to_)

/-- Lines 267-288: the period built from one template entry on the cursor's date. -/
def upcomingPeriod (data : SchoolPeriodsData) (lookup : QMap TimetableSubjectSlot)
    (start «end» : Int) (period : PeriodTime) : TimetablePeriod :=
  let ttPeriod : TimetablePeriod :=
    { startTime := start
      endTime := «end»
      periodKey := period.label
      isSpecial := !lookup.contains period.label }
  if lookup.contains period.label then
    let slot := lookup.value period.label
    let subject := data.subjects.value slot.subjectName
    { ttPeriod with
      subjectName := slot.subjectName
      room := slot.room
      teacher := subject.teacher
      color := subject.color }
  else
    { ttPeriod with
      subjectName := toUpper period.label
      room := ""
      teacher := ""
      color := QColor.rgb 224 224 224 }

/-- The loop over `templ.periods` (lines 258-291), appending to `result`. -/
def appendDayPeriods (data : SchoolPeriodsData) (from_ to_ : Int) (cursor : Int)
    (day : DaySchedule) (templ : TimetableTemplate) (result : List TimetablePeriod) :
    List TimetablePeriod :=
  let lookup := slotLookup day.slots
  templ.periods.foldl
    (fun result period =>
      let start := QDateTime.ofDateTime (QDateTime.date cursor) period.start
      let «end» := QDateTime.ofDateTime (QDateTime.date cursor) period.«end»
      if outsideWindow from_ to_ start «end» then result
      else result ++ [upcomingPeriod data lookup start «end» period])
    result

/-- The cursor update `cursor.addDays(1).setTime(QTime(0, 0))`. -/
def nextDay (cursor : Int) : Int :=
  QDateTime.setTime (QDateTime.addDays cursor 1) (QTime.hm 0 0)

/-- The `while (cursor < to)` loop (lines 228-294); each unit of fuel pays for one evaluation
of the loop condition, and `none` means the fuel ran out before the loop ended. -/
def upcomingLoop (data : SchoolPeriodsData) (settings : SettingsData) (from_ to_ : Int) :
    Nat → Int → List TimetablePeriod → Option (List TimetablePeriod)
  | 0, _, _ => none
  | fuel + 1, cursor, result =>
    if cursor < to_ then
      let weekKey := toUpper settings.currentWeek
      if !data.weeks.contains weekKey then some result
      else
        let week := data.weeks.value weekKey
        let dayName := QDate.longDayName (QDateTime.date cursor)
        if !week.days.contains dayName then
          upcomingLoop data settings from_ to_ fuel (nextDay cursor) result
        else
          let day := week.days.value dayName
          if !data.templates.contains day.templateName then
            upcomingLoop data settings from_ to_ fuel (nextDay cursor) result
          else
            let templ := data.templates.value day.templateName
            upcomingLoop data settings from_ to_ fuel (nextDay cursor)
              (appendDayPeriods data from_ to_ cursor day templ result)
    else some result

/-- The comparator handed to `std::sort` (line 297). -/
def startsBefore (a b : TimetablePeriod) : Prop := a.startTime < b.startTime

instance (a b : TimetablePeriod) : Decidable (startsBefore a b) := by
  unfold startsBefore; infer_instance

/-- Model of the `std::sort` call of lines 296-298.  `std::sort` leaves the relative order of
periods with equal start unspecified; this model keeps their order, and the statements about
the sorted list are made up to permutation. -/
def sortByStart (result : List TimetablePeriod) : List TimetablePeriod :=
  result.insertionSort (fun a b => ¬ startsBefore b a)

/-- `JsonManager::upcomingPeriods`, with the catalog that `loadSchoolPeriods()` returns
passed in as `data`. -/
def upcomingPeriods (fuel : Nat) (data : SchoolPeriodsData) (settings : SettingsData)
    (from_ to_ : Int) : Option (List TimetablePeriod) :=
  (upcomingLoop data settings from_ to_ fuel from_ []).map sortByStart

/-- Fuel that pays for the whole day walk of a window. -/
def walkFuel (from_ to_ : Int) : Nat :=
  (QDateTime.date to_ - QDateTime.date from_).toNat + 2

/-! ## DonutChartWidget::rebuildArcs (homepage.cpp, lines 771-814) -/

/-- `std::max` on instants: the second argument only when the first is smaller. -/
def stdMax (a b : Int) : Int := if a < b then b else a

/-- `std::min` on instants: the second argument only when it is smaller. -/
def stdMin (a b : Int) : Int := if b < a then b else a

/-- The loop of lines 780-795 over the activities. -/
def activityArcs (mNow windowEnd : Int) (mActivities : List Activity) : List DonutArc :=
  mActivities.foldl
    (fun arcs activity =>
      let start := stdMax activity.startTime mNow
      let «end» := stdMin activity.endTime windowEnd
      if «end» ≤ start then arcs
      else arcs ++ [{ startTime := start, endTime := «end», color := activity.color,
                      label := activity.title, category := "Activity" }])
    []

/-- The loop of lines 798-813 over the periods. -/
def periodArcs (mNow windowEnd : Int) (mPeriods : List TimetablePeriod) : List DonutArc :=
  mPeriods.foldl
    (fun arcs period =>
      let start := stdMax period.startTime mNow
      let «end» := stdMin period.endTime windowEnd
      if «end» ≤ start then arcs
      else arcs ++ [{ startTime := start, endTime := «end»,
                      color := if period.color.isValid then period.color
                               else QColor.rgb 224 224 224,
                      label := period.subjectName, category := "Timetable" }])
    []

/-- `DonutChartWidget::rebuildArcs`; `currentDateTime` is the reading of the clock that
replaces an invalid `mNow`. -/
def rebuildArcs (currentDateTime : Int) (w : DonutChartWidget) : DonutChartWidget :=
  let mNow := match w.mNow with
    | some t => t
    | none => currentDateTime
  let windowEnd := QDateTime.addSecs mNow (12 * 3600)
  { w with
    mNow := some mNow
    mActivityArcs := activityArcs mNow windowEnd w.mActivities
    mPeriodArcs := periodArcs mNow windowEnd w.mPeriods }

/-! ## The type double (IEEE 754 binary64, round to nearest, ties to even) -/

/-- Model of the C++ type `double`: a finite value, held as the rational number it denotes,
one of the two infinities, or NaN.  The sign of zero is not modelled: none of the embedded
functions divides by zero or tells -0.0 from 0.0 in another way. -/
inductive Double where
  | nan : Double
  | negInf : Double
  | finite (value : ℚ) : Double
  | posInf : Double
  deriving DecidableEq

namespace Double

/-- The integer nearest to `x`, the even one of the two when `x` lies half way. -/
def roundHalfEven (x : ℚ) : Int :=
  if x - ⌊x⌋ < 1 / 2 then ⌊x⌋
  else if 1 / 2 < x - ⌊x⌋ then ⌊x⌋ + 1
  else if ⌊x⌋ % 2 = 0 then ⌊x⌋ else ⌊x⌋ + 1

/-- The number of halvings that bring `n` below 2, in at most `fuel` steps. -/
def log2Fuel : Nat → Nat → Nat
  | 0, _ => 0
  | fuel + 1, n => if 2 ≤ n then log2Fuel fuel (n / 2) + 1 else 0

/-- The binary logarithm of a natural number, rounded down (0 for 0). -/
def log2 (n : Nat) : Nat := log2Fuel n n

/-- The rational `2 ^ e`. -/
def twoPow (e : Int) : ℚ :=
  if 0 ≤ e then ((2 ^ e.toNat : Nat) : ℚ) else 1 / ((2 ^ (-e).toNat : Nat) : ℚ)

/-- The binary exponent of a positive rational `q`: the `e` with `2 ^ e ≤ q < 2 ^ (e + 1)`. -/
def exponent (q : ℚ) : Int :=
  if twoPow ((log2 q.num.natAbs : Int) - (log2 q.den : Int)) ≤ q
  then (log2 q.num.natAbs : Int) - (log2 q.den : Int)
  else (log2 q.num.natAbs : Int) - (log2 q.den : Int) - 1

/-- The distance between neighbouring doubles around a positive rational `q`: 53 significant
bits in the binade of `q`, and the spacing `2 ^ (-1074)` of the subnormal numbers below
`2 ^ (-1022)`. -/
def quantum (q : ℚ) : ℚ := twoPow (max (exponent q) (-1022) - 52)

/-- The multiple of `quantum q` nearest to a rational `q ≥ 0`, ties to the even multiple. -/
def roundMagnitude (q : ℚ) : ℚ := (roundHalfEven (q / quantum q) : ℚ) * quantum q

/-- Rounding to nearest, ties to even, with an unbounded exponent range above. -/
def roundValue (q : ℚ) : ℚ := if 0 ≤ q then roundMagnitude q else -roundMagnitude (-q)

/-- The double nearest to the rational `q`: overflow, which begins where the rounded value
reaches `2 ^ 1024`, gives an infinity. -/
def round (q : ℚ) : Double :=
  if twoPow 1024 ≤ roundValue q then posInf
  else if roundValue q ≤ -twoPow 1024 then negInf
  else finite (roundValue q)

/-- Unary minus. -/
def neg : Double → Double
  | nan => nan
  | negInf => posInf
  | finite a => finite (-a)
  | posInf => negInf

/-- Addition: the exact sum, rounded. -/
def add : Double → Double → Double
  | finite a, finite b => round (a + b)
  | finite _, posInf => posInf
  | finite _, negInf => negInf
  | posInf, finite _ => posInf
  | negInf, finite _ => negInf
  | posInf, posInf => posInf
  | negInf, negInf => negInf
  | _, _ => nan

/-- Multiplication: the exact product, rounded. -/
def mul : Double → Double → Double
  | finite a, finite b => round (a * b)
  | finite a, posInf => if 0 < a then posInf else if a < 0 then negInf else nan
  | finite a, negInf => if 0 < a then negInf else if a < 0 then posInf else nan
  | posInf, finite b => if 0 < b then posInf else if b < 0 then negInf else nan
  | negInf, finite b => if 0 < b then negInf else if b < 0 then posInf else nan
  | posInf, posInf => posInf
  | negInf, negInf => posInf
  | posInf, negInf => negInf
  | negInf, posInf => negInf
  | _, _ => nan

/-- Division: the exact quotient, rounded; a zero divisor counts as +0.0. -/
def div : Double → Double → Double
  | finite a, finite b =>
    if b = 0 then (if 0 < a then posInf else if a < 0 then negInf else nan)
    else round (a / b)
  | finite _, posInf => finite 0
  | finite _, negInf => finite 0
  | posInf, finite b => if 0 ≤ b then posInf else negInf
  | negInf, finite b => if 0 ≤ b then negInf else posInf
  | _, _ => nan

/-- The comparison `<`: false whenever an operand is NaN. -/
def lt : Double → Double → Bool
  | finite a, finite b => decide (a < b)
  | negInf, finite _ => true
  | negInf, posInf => true
  | finite _, posInf => true
  | _, _ => false

/-- The comparison `<=`: false whenever an operand is NaN. -/
def le : Double → Double → Bool
  | finite a, finite b => decide (a ≤ b)
  | negInf, finite _ => true
  | negInf, posInf => true
  | finite _, posInf => true
  | negInf, negInf => true
  | posInf, posInf => true
  | _, _ => false

instance : Neg Double := ⟨neg⟩
instance : Add Double := ⟨add⟩
instance : Sub Double := ⟨fun a b => add a (neg b)⟩
instance : Mul Double := ⟨mul⟩
instance : Div Double := ⟨div⟩
instance : LT Double := ⟨fun a b => lt a b = true⟩
instance : LE Double := ⟨fun a b => le a b = true⟩
instance (a b : Double) : Decidable (a < b) := inferInstanceAs (Decidable (lt a b = true))
instance (a b : Double) : Decidable (a ≤ b) := inferInstanceAs (Decidable (le a b = true))

/-- A literal such as `100.0` or `720.0`: the double nearest to the number written. -/
instance (n : Nat) : OfNat Double n := ⟨round n⟩

/-- The conversion of an integer (here the `qint64` of `secsTo`) to `double`. -/
def ofInt (n : Int) : Double := round n

/-- Model of `std::max` on doubles: `(a < b) ? b : a`. -/
def stdMax (a b : Double) : Double := if a < b then b else a

end Double

/-! ## computeProgress (taskspage.cpp, lines 30-47) -/

/-- The loop of lines 34-41: the pair `(completedWeight, totalWeight)` after all subtasks.
The field `weighting` holds the number the double denotes; `Double.round` reads it as a
double and is the identity on a number that is one. -/
def progressWeights (task : Task) : Double × Double :=
  task.subtasks.foldl
    (fun acc subtask =>
      let totalWeight := acc.2 + Double.stdMax 0 (Double.round subtask.weighting)
      let completedWeight :=
        if subtask.completed then acc.1 + Double.stdMax 0 (Double.round subtask.weighting)
        else acc.1
      (completedWeight, totalWeight))
    (0, 0)

/-- `computeProgress`. -/
def computeProgress (task : Task) : Double :=
  let completedWeight := (progressWeights task).1
  let totalWeight := (progressWeights task).2
  if totalWeight ≤ 0 then 0
  else (completedWeight / totalWeight) * 100

/-! ## JSON values (QJsonValue, QJsonObject, QJsonDocument) -/

/-- Model of `QJsonValue`; a number is held as the number written. -/
inductive QJsonValue where
  | undefined : QJsonValue
  | null : QJsonValue
  | bool (b : Bool) : QJsonValue
  | double (d : ℚ) : QJsonValue
  | string (s : String) : QJsonValue
  | array (items : List QJsonValue) : QJsonValue
  | object (members : List (String × QJsonValue)) : QJsonValue

/-- Model of `QJsonObject`: the members in iteration order.  Qt iterates an object in the
order of its keys and keeps one member per key; the model admits every list. -/
abbrev QJsonObject := List (String × QJsonValue)

/-- Model of `QJsonValue::toObject`: the empty object for a value that is not an object. -/
def QJsonValue.toObject : QJsonValue → QJsonObject
  | QJsonValue.object members => members
  | _ => []

/-- Model of `QJsonValue::toString(defaultValue)`. -/
def QJsonValue.toString (v : QJsonValue) (defaultValue : String) : String :=
  match v with
  | QJsonValue.string s => s
  | _ => defaultValue

/-- Model of `QJsonObject::value`: `Undefined` for a missing key. -/
def QJsonObject.value (o : QJsonObject) (key : String) : QJsonValue :=
  (o.lookup key).getD QJsonValue.undefined

/-- Model of `QJsonDocument`. -/
structure QJsonDocument where
  root : QJsonValue

/-- Model of `QJsonDocument::object`: empty when the document is not an object. -/
def QJsonDocument.object (doc : QJsonDocument) : QJsonObject := doc.root.toObject

/-! ## Parsing of times, colours and the order of strings -/

/-- Model of `QTime::fromString(s, "hh:mm")`: two digits, a colon, two digits, with the hour
below 24 and the minute below 60; every other string gives a null time. -/
def QTime.fromString (s : String) : QTime :=
  match s.data with
  | [h1, h2, sep, m1, m2] =>
    if sep = ':' ∧ h1.isDigit ∧ h2.isDigit ∧ m1.isDigit ∧ m2.isDigit then
      let h : Nat := (h1.toNat - 48) * 10 + (h2.toNat - 48)
      let m : Nat := (m1.toNat - 48) * 10 + (m2.toNat - 48)
      if h < 24 ∧ m < 60 then QTime.hm h m else ⟨-1⟩
    else ⟨-1⟩
  | _ => ⟨-1⟩

/-- The value of a hexadecimal digit. -/
def hexDigit (c : Char) : Option Nat :=
  if c.isDigit then some (c.toNat - 48)
  else if 'a'.toNat ≤ c.toNat ∧ c.toNat ≤ 'f'.toNat then some (c.toNat - 87)
  else if 'A'.toNat ≤ c.toNat ∧ c.toNat ≤ 'F'.toNat then some (c.toNat - 55)
  else none

/-- Model of `QColor(const QString &name)` for the spelling `#RRGGBB`; the other spellings Qt
accepts (`#RGB`, colour names) are not modelled and read as invalid. -/
def QColor.ofName (name : String) : QColor :=
  match name.data with
  | [hash, r1, r2, g1, g2, b1, b2] =>
    match hexDigit r1, hexDigit r2, hexDigit g1, hexDigit g2, hexDigit b1, hexDigit b2 with
    | some x1, some x2, some y1, some y2, some z1, some z2 =>
      if hash = '#' then QColor.rgb (x1 * 16 + x2) (y1 * 16 + y2) (z1 * 16 + z2)
      else QColor.invalid
    | _, _, _, _, _, _ => QColor.invalid
  | _ => QColor.invalid

/-- Lexicographic comparison of two character sequences by character code. -/
def codesLess : List Char → List Char → Bool
  | [], [] => false
  | [], _ :: _ => true
  | _ :: _, [] => false
  | a :: as, b :: bs =>
    if a.toNat < b.toNat then true
    else if b.toNat < a.toNat then false
    else codesLess as bs

/-- Model of `operator<` on `QString`: lexicographic by character code. -/
def stringLess (a b : String) : Bool := codesLess a.data b.data

/-! ## JsonManager::parseSchoolPeriods (jsonmanager.cpp, lines 386-459) -/

/-- The loop over `subjectsObj` (lines 391-400). -/
def parseSubjects (subjectsObj : QJsonObject) : QMap SubjectDefinition :=
  subjectsObj.foldl
    (fun subjects it =>
      let subjectObj := it.2.toObject
      let definition : SubjectDefinition :=
        { name := it.1
          teacher := (QJsonObject.value subjectObj "teacher").toString ""
          color := QColor.ofName ((QJsonObject.value subjectObj "color").toString "#E0E0E0") }
      subjects.insert definition.name definition)
    QMap.empty

/-- The loop over `templObj` (lines 408-417): the entries in the order of the object. -/
def parsePeriodTimes (templObj : QJsonObject) : List PeriodTime :=
  templObj.foldl
    (fun periods pit =>
      let times := pit.2.toObject
      periods ++ [{ label := pit.1
                    start := QTime.fromString ((QJsonObject.value times "start_time").toString "")
                    «end» := QTime.fromString ((QJsonObject.value times "end_time").toString "") }])
    []

/-- The comparator handed to `std::sort` (lines 419-425). -/
def periodTimeLess (a b : PeriodTime) : Bool :=
  if a.start = b.start then stringLess a.label b.label
  else decide (a.start.mds < b.start.mds)

/-- Model of the `std::sort` call of lines 419-425. -/
def sortPeriodTimes (periods : List PeriodTime) : List PeriodTime :=
  periods.insertionSort (fun a b => periodTimeLess b a = false)

/-- The loop over `templatesObj` (lines 402-429). -/
def parseTemplates (templatesObj : QJsonObject) : QMap TimetableTemplate :=
  templatesObj.foldl
    (fun templates it =>
      let templ : TimetableTemplate :=
        { name := it.1
          periods := sortPeriodTimes (parsePeriodTimes it.2.toObject) }
      templates.insert templ.name templ)
    QMap.empty

/-- The loop over the `subjects` object of a day (lines 443-452). -/
def parseSlots (subjects : QJsonObject) : List TimetableSubjectSlot :=
  subjects.foldl
    (fun slots sit =>
      let slotObj := sit.2.toObject
      slots ++ [{ periodKey := sit.1
                  subjectName := (QJsonObject.value slotObj "subject").toString ""
                  room := (QJsonObject.value slotObj "room").toString "" }])
    []

/-- The loop over `weekObj` (lines 437-454). -/
def parseDays (weekObj : QJsonObject) : QMap DaySchedule :=
  weekObj.foldl
    (fun days dit =>
      let dayObj := dit.2.toObject
      let day : DaySchedule :=
        { name := dit.1
          templateName := (QJsonObject.value dayObj "period_template").toString ""
          slots := parseSlots (QJsonObject.value dayObj "subjects").toObject }
      days.insert day.name day)
    QMap.empty

/-- The loop over `weeksObj` (lines 431-456). -/
def parseWeeks (weeksObj : QJsonObject) : QMap WeekSchedule :=
  weeksObj.foldl
    (fun weeks wit =>
      let week : WeekSchedule :=
        { name := wit.1
          days := parseDays wit.2.toObject }
      weeks.insert (toUpper week.name) week)
    QMap.empty

/-- `JsonManager::parseSchoolPeriods`. -/
def parseSchoolPeriods (doc : QJsonDocument) : SchoolPeriodsData :=
  let root := doc.object
  { subjects := parseSubjects (QJsonObject.value root "subjects").toObject
    templates := parseTemplates (QJsonObject.value root "period_times").toObject
    weeks := parseWeeks (QJsonObject.value root "schedule").toObject }

/-! ## DonutChartWidget: updateClock, minutesToAngle, drawArcs (homepage.cpp) -/

/-- `DonutChartWidget::updateClock` (lines 764-769): store the clock reading, rebuild. -/
def updateClock (currentDateTime : Int) (w : DonutChartWidget) : DonutChartWidget :=
  rebuildArcs currentDateTime { w with mNow := some currentDateTime }

/-- `DonutChartWidget::minutesToAngle` (lines 931-934). -/
def minutesToAngle (minutes : Double) : Double := -90 + (minutes / 720) * 360

/-- The enumeration `DonutChartWidget::Mode` (homepage.h, lines 124-129). -/
inductive Mode where
  | Activities : Mode
  | Timetable : Mode
  | Combined : Mode
  deriving DecidableEq, Repr

/-- Model of `QRectF`. -/
structure QRectF where
  x : Double
  y : Double
  width : Double
  height : Double
  deriving DecidableEq

/-- Model of `QRectF::adjusted`. -/
def QRectF.adjusted (r : QRectF) (dx1 dy1 dx2 dy2 : Double) : QRectF :=
  { x := r.x + dx1, y := r.y + dy1, width := r.width + dx2 - dx1, height := r.height + dy2 - dy1 }

/-- Model of `QDateTime::secsTo`: whole seconds, rounded towards zero. -/
def QDateTime.secsTo (dt other : Int) : Int := Int.tdiv (other - dt) 1000

/-- Model of `static_cast<int>` on a `double`: rounding towards zero.  C++ leaves the
conversion undefined for NaN, for the infinities and outside the range of `int`; the model
gives 0 for NaN and the infinities and does not model the range. -/
def castToInt : Double → Int
  | Double.finite q => if 0 ≤ q then ⌊q⌋ else ⌈q⌉
  | _ => 0

/-- One call of `painter.drawArc`, with the pen in force at the call. -/
structure DrawArcCall where
  penColor : QColor
  penWidth : Double
  rect : QRectF
  startAngle : Int
  spanAngle : Int
  deriving DecidableEq

/-- The lambda `drawArcList` of `drawArcs` (lines 830-845): the calls of `painter.drawArc` it
makes, in order. -/
def drawArcList (mNow : Int) (bandThickness : Double) (outerRect : QRectF)
    (arcs : List DonutArc) (widthFactor inset : Double) : List DrawArcCall :=
  arcs.foldl
    (fun calls arc =>
      let arcRect := outerRect.adjusted inset inset (-inset) (-inset)
      let startMinutes := Double.ofInt (QDateTime.secsTo mNow arc.startTime) / 60
      let spanMinutes := Double.ofInt (QDateTime.secsTo arc.startTime arc.endTime) / 60
      let startAngle := minutesToAngle startMinutes
      let spanAngle := spanMinutes / 720 * 360
      calls ++ [{ penColor := arc.color
                  penWidth := bandThickness * widthFactor
                  rect := arcRect
                  startAngle := castToInt (startAngle * 16)
                  spanAngle := castToInt (-spanAngle * 16) }])
    []

/-- `DonutChartWidget::drawArcs` (lines 826-860): the calls of `painter.drawArc` it makes, with
the members `mMode`, `mNow`, `mActivityArcs` and `mPeriodArcs` passed in.  A literal such as
`0.85` is the double nearest to 85/100, which the rounded quotient `85 / 100` is. -/
def drawArcs (mMode : Mode) (mNow : Int) (mActivityArcs mPeriodArcs : List DonutArc)
    (outerRect innerRect : QRectF) : List DrawArcCall :=
  let bandThickness := (outerRect.width - innerRect.width) / 2
  if mMode = Mode.Activities then
    drawArcList mNow bandThickness outerRect mActivityArcs (85 / 100) (bandThickness * (3 / 10))
  else if mMode = Mode.Timetable then
    drawArcList mNow bandThickness outerRect mPeriodArcs (85 / 100) (bandThickness * (3 / 10))
  else
    drawArcList mNow bandThickness outerRect mPeriodArcs (5 / 10) (bandThickness * (75 / 100))
      ++ drawArcList mNow bandThickness outerRect mActivityArcs (5 / 10)
          (bandThickness * (25 / 100))

/-! ## JsonManager::subtaskFromJson (jsonmanager.cpp, lines 327-337) -/

/-- The value `startMinutes` of line 839. -/
def arcStartMinutes (mNow : Int) (arc : DonutArc) : Double :=
  Double.ofInt (QDateTime.secsTo mNow arc.startTime) / 60

/-- The value `spanMinutes` of line 840. -/
def arcSpanMinutes (arc : DonutArc) : Double :=
  Double.ofInt (QDateTime.secsTo arc.startTime arc.endTime) / 60

/-- The value `spanAngle` of line 842. -/
def arcSpanAngle (arc : DonutArc) : Double := arcSpanMinutes arc / 720 * 360

/-! ## Declarative descriptions the code is compared with -/

/-- Midnight at the start of date `d`, the instant `QDateTime(d, QTime(0, 0))`. -/
def midnight (d : Int) : Int := QDateTime.ofDateTime d (QTime.hm 0 0)

/-- The `n` consecutive calendar dates starting at `d`. -/
def datesFrom : Nat → Int → List Int
  | 0, _ => []
  | n + 1, d => d :: datesFrom n (d + 1)

/-- The calendar dates of the day walk as the specification words them: the date of `from`,
and every later date (up to the date of `to`) whose midnight is before `to`. -/
def walkedDates (from_ to_ : Int) : List Int :=
  (datesFrom ((QDateTime.date to_ - QDateTime.date from_).toNat + 1) (QDateTime.date from_)).filter
    (fun d => decide (d = QDateTime.date from_ ∨ midnight d < to_))

/-- The periods of date `d` that the specification expects in the window `[from, to)`: none
when the week has no schedule for the weekday of `d` or the catalog lacks that day's template,
otherwise one period per template entry whose interval on `d` ends after `from` and starts
before `to`, built with the entry's own start and end on `d`. -/
def windowPeriodsOn (data : SchoolPeriodsData) (week : WeekSchedule) (from_ to_ : Int)
    (d : Int) : List TimetablePeriod :=
  match week.days.find (QDate.longDayName d) with
  | none => []
  | some day =>
    match data.templates.find day.templateName with
    | none => []
    | some templ =>
      (templ.periods.filter (fun e =>
        decide (QDateTime.ofDateTime d e.«end» > from_ ∧ QDateTime.ofDateTime d e.start < to_))).map
        (fun e => upcomingPeriod data (slotLookup day.slots)
          (QDateTime.ofDateTime d e.start) (QDateTime.ofDateTime d e.«end») e)

/-- The periods `buildDay` makes of a day once the template lookup has answered: none without
a template, otherwise one period per entry of the template, in the order of its list. -/
def dayPeriodsOf (mData : SchoolPeriodsData) (day : DaySchedule) (referenceDate : Int) :
    Option TimetableTemplate → List TimetablePeriod
  | none => []
  | some templ => templ.periods.map (buildDayPeriod mData (slotLookup day.slots) referenceDate)

/-- The raw label/time entry of one member of a template object, before sorting. -/
def rawPeriodTime (member : String × QJsonValue) : PeriodTime :=
  { label := member.1
    start := QTime.fromString ((QJsonObject.value member.2.toObject "start_time").toString "")
    «end» := QTime.fromString ((QJsonObject.value member.2.toObject "end_time").toString "") }

/-- The order the specification gives a template's period list: start time-of-day ascending,
entries of equal start by ascending label. -/
def periodTimeOrdered (a b : PeriodTime) : Prop :=
  a.start.mds < b.start.mds ∨ (a.start.mds = b.start.mds ∧ stringLess b.label a.label = false)

/-- The doubles that a sum of clamped weightings can be: +inf, or a finite double that is not
negative. -/
def Double.IsWeight (d : Double) : Prop :=
  d = Double.posInf ∨ ∃ q : ℚ, d = Double.finite q ∧ 0 ≤ q ∧ Double.round q = Double.finite q

/-- The double `x` is finite and its value lies in `[lo, hi]`. -/
def Double.Between (x : Double) (lo hi : ℚ) : Prop :=
  ∃ a : ℚ, x = Double.finite a ∧ lo ≤ a ∧ a ≤ hi

/-- The term `std::max(0.0, subtask.weighting)` of `computeProgress`. -/
def clampedWeight (s : Subtask) : Double := Double.stdMax 0 (Double.round s.weighting)

/-- The sum of a list of doubles, added from the left starting from 0.0. -/
def Double.sum (l : List Double) : Double := l.foldl (fun acc w => acc + w) 0

/-! ## Sample data -/

/-- The subject of the sample catalogs. -/
def sampleSubject : SubjectDefinition :=
  { name := "Maths", teacher := "Ms A", color := QColor.rgb 1 2 3 }

/-- A slot binding the label "p1" to the sample subject. -/
def sampleSlot : TimetableSubjectSlot :=
  { periodKey := "p1", subjectName := "Maths", room := "R1" }

/-- A template with the entries "p1" (09:00-10:00) and "p2" (10:00-11:00). -/
def sampleTemplate : TimetableTemplate :=
  { name := "normal"
    periods := [{ label := "p1", start := QTime.hm 9 0, «end» := QTime.hm 10 0 },
                { label := "p2", start := QTime.hm 10 0, «end» := QTime.hm 11 0 }] }

/-- A Monday on the template "normal" that binds "p1" only. -/
def sampleMonday : DaySchedule :=
  { name := "Monday", templateName := "normal", slots := [sampleSlot] }

/-- A week "A" holding `sampleMonday`. -/
def sampleWeek : WeekSchedule :=
  { name := "A", days := QMap.mk [("Monday", sampleMonday)] }

/-- A catalog with one subject, the template "normal" and the week "A". -/
def sampleCatalog : SchoolPeriodsData :=
  { subjects := QMap.mk [("Maths", sampleSubject)]
    templates := QMap.mk [("normal", sampleTemplate)]
    weeks := QMap.mk [("A", sampleWeek)] }

/-- The year-10 Wednesday template: one entry "p1" (09:00-10:00). -/
def wednesdayYear10 : TimetableTemplate :=
  { name := "wednesday_year10"
    periods := [{ label := "p1", start := QTime.hm 9 0, «end» := QTime.hm 10 0 }] }

/-- A Wednesday on the template name "wednesday_base". -/
def sampleWednesday : DaySchedule :=
  { name := "Wednesday", templateName := "wednesday_base", slots := [sampleSlot] }

/-- A week "A" holding `sampleWednesday`. -/
def wednesdayWeek : WeekSchedule :=
  { name := "A", days := QMap.mk [("Wednesday", sampleWednesday)] }

/-- The catalog of the end-to-end example of the specification: week "A" has a Wednesday on
the template name "wednesday_base", and the catalog holds "wednesday_year10" only. -/
def wednesdayCatalog : SchoolPeriodsData :=
  { subjects := QMap.mk [("Maths", sampleSubject)]
    templates := QMap.mk [("wednesday_year10", wednesdayYear10)]
    weeks := QMap.mk [("A", wednesdayWeek)] }

/-- The settings used with the sample catalogs: week "A", year level 10. -/
def sampleSettings : SettingsData := { currentWeek := "A", yearLevel := 10 }

/-- The instant `rebuildArcs` works with: the stored `mNow`, or the clock reading when the
stored instant is invalid. -/
def effectiveNow (currentDateTime : Int) (w : DonutChartWidget) : Int :=
  w.mNow.getD currentDateTime

/-- Twelve hours in milliseconds, the span of the donut window. -/
def SPAN_MSECS : Int := 12 * 3600 * 1000

/-- The arc the specification expects of an activity: its interval clipped to
`[now, now + 12 h]`, with the colour and the title of the activity. -/
def clippedActivityArc (now : Int) (a : Activity) : DonutArc :=
  { startTime := max a.startTime now
    endTime := min a.endTime (now + SPAN_MSECS)
    color := a.color
    label := a.title
    category := "Activity" }

/-- The arc of a period, clipped in the same way; it carries the subject name, and the colour
of the period or the neutral (224, 224, 224) when that colour is invalid. -/
def clippedPeriodArc (now : Int) (p : TimetablePeriod) : DonutArc :=
  { startTime := max p.startTime now
    endTime := min p.endTime (now + SPAN_MSECS)
    color := if p.color.isValid then p.color else QColor.rgb 224 224 224
    label := p.subjectName
    category := "Timetable" }

/-- The sum of `max(0, weighting)` over all subtasks of a task, in exact arithmetic. -/
def clampedTotal (task : Task) : ℚ :=
  (task.subtasks.map (fun s => max 0 s.weighting)).sum

/-- The sum of `max(0, weighting)` over the completed subtasks of a task, in exact
arithmetic. -/
def clampedCompleted (task : Task) : ℚ :=
  ((task.subtasks.filter (fun s => s.completed)).map (fun s => max 0 s.weighting)).sum

/-- A raw template object whose members are not in time order: "late" 13:00-14:00 before
"early" 09:00-10:00 and "assembly" 09:00-09:30. -/
def sampleTemplateObject : QJsonObject :=
  [("late", QJsonValue.object [("start_time", QJsonValue.string "13:00"),
                               ("end_time", QJsonValue.string "14:00")]),
   ("early", QJsonValue.object [("start_time", QJsonValue.string "09:00"),
                                ("end_time", QJsonValue.string "10:00")]),
   ("assembly", QJsonValue.object [("start_time", QJsonValue.string "09:00"),
                                   ("end_time", QJsonValue.string "09:30")])]

/-- A raw document with one subject, the template "normal" of `sampleTemplateObject` and a
schedule whose only week is written "a", with a Monday that binds "early". -/
def sampleDocument : QJsonDocument :=
  { root := QJsonValue.object
      [("subjects", QJsonValue.object
          [("Maths", QJsonValue.object [("teacher", QJsonValue.string "Ms A"),
                                        ("color", QJsonValue.string "#010203")])]),
       ("period_times", QJsonValue.object [("normal", QJsonValue.object sampleTemplateObject)]),
       ("schedule", QJsonValue.object
          [("a", QJsonValue.object
              [("Monday", QJsonValue.object
                  [("period_template", QJsonValue.string "normal"),
                   ("subjects", QJsonValue.object
                      [("early", QJsonValue.object [("subject", QJsonValue.string "Maths"),
                                                    ("room", QJsonValue.string "R1")])])])])])] }

/-- A template whose entries are held out of time order: "late" (13:00-14:00) before
"early" (09:00-10:00). -/
def unorderedTemplate : TimetableTemplate :=
  { name := "mixed"
    periods := [{ label := "late", start := QTime.hm 13 0, «end» := QTime.hm 14 0 },
                { label := "early", start := QTime.hm 9 0, «end» := QTime.hm 10 0 }] }

/-- A week "A" whose Monday and Tuesday both use the template "mixed". -/
def unorderedWeek : WeekSchedule :=
  { name := "A"
    days := QMap.mk [("Monday", { name := "Monday", templateName := "mixed" }),
                     ("Tuesday", { name := "Tuesday", templateName := "mixed" })] }

/-- A catalog holding `unorderedTemplate` and `unorderedWeek`. -/
def unorderedCatalog : SchoolPeriodsData :=
  { templates := QMap.mk [("mixed", unorderedTemplate)]
    weeks := QMap.mk [("A", unorderedWeek)] }

/-- The base Wednesday template: one entry "old" (08:00-09:00). -/
def wednesdayBase : TimetableTemplate :=
  { name := "wednesday_base"
    periods := [{ label := "old", start := QTime.hm 8 0, «end» := QTime.hm 9 0 }] }

/-- A catalog that holds "wednesday_base" and "wednesday_year10" but not "wednesday_year11",
with the Wednesday of `wednesdayWeek`. -/
def wednesdayBaseCatalog : SchoolPeriodsData :=
  { subjects := QMap.mk [("Maths", sampleSubject)]
    templates := QMap.mk [("wednesday_base", wednesdayBase),
                          ("wednesday_year10", wednesdayYear10)]
    weeks := QMap.mk [("A", wednesdayWeek)] }

/-- Settings with week "A" and year level 12. -/
def year12Settings : SettingsData := { currentWeek := "A", yearLevel := 12 }

/-- A raw document whose template "normal" has an entry "back" written with its end before
its start (10:00 to 09:00) and an entry "void" whose times do not parse. -/
def reversedDocument : QJsonDocument :=
  { root := QJsonValue.object
      [("period_times", QJsonValue.object
          [("normal", QJsonValue.object
              [("back", QJsonValue.object [("start_time", QJsonValue.string "10:00"),
                                           ("end_time", QJsonValue.string "09:00")]),
               ("void", QJsonValue.object [("start_time", QJsonValue.string "soon"),
                                           ("end_time", QJsonValue.string "later")])])]),
       ("schedule", QJsonValue.object
          [("A", QJsonValue.object
              [("Monday", QJsonValue.object
                  [("period_template", QJsonValue.string "normal")])])])] }

/-- A slot binding "p2" to a subject the sample catalog does not hold. -/
def orphanSlot : TimetableSubjectSlot :=
  { periodKey := "p2", subjectName := "Ghost", room := "R9" }

/-- A Monday on the template "normal" that binds "p1" to Maths and "p2" to "Ghost". -/
def orphanMonday : DaySchedule :=
  { name := "Monday", templateName := "normal", slots := [sampleSlot, orphanSlot] }

/-- A catalog like `sampleCatalog` whose Monday is `orphanMonday`. -/
def orphanCatalog : SchoolPeriodsData :=
  { subjects := QMap.mk [("Maths", sampleSubject)]
    templates := QMap.mk [("normal", sampleTemplate)]
    weeks := QMap.mk [("A", { name := "A", days := QMap.mk [("Monday", orphanMonday)] })] }

/-- What the loader makes of one member of the `subjects` object (lines 394-398). -/
def subjectOfMember (member : String × QJsonValue) : SubjectDefinition :=
  { name := member.1
    teacher := (QJsonObject.value member.2.toObject "teacher").toString ""
    color := QColor.ofName ((QJsonObject.value member.2.toObject "color").toString "#E0E0E0") }

/-- What the loader makes of one member of the `subjects` object of a day (lines 446-450). -/
def slotOfMember (member : String × QJsonValue) : TimetableSubjectSlot :=
  { periodKey := member.1
    subjectName := (QJsonObject.value member.2.toObject "subject").toString ""
    room := (QJsonObject.value member.2.toObject "room").toString "" }

/-- What the loader makes of one member of a week object (lines 439-452). -/
def dayOfMember (member : String × QJsonValue) : DaySchedule :=
  { name := member.1
    templateName := (QJsonObject.value member.2.toObject "period_template").toString ""
    slots := (QJsonObject.value member.2.toObject "subjects").toObject.map slotOfMember }

/-- What the loader makes of one member of the `period_times` object (lines 405-427). -/
def templateOfMember (member : String × QJsonValue) : TimetableTemplate :=
  { name := member.1
    periods := sortPeriodTimes (member.2.toObject.map rawPeriodTime) }

/-- The map a list of members is loaded into when every member is loaded on its own: `key`
gives the key and `load` the record of a member; the last member of a key is the one found. -/
def loadedEach {β : Type} (key : String × QJsonValue → String)
    (load : String × QJsonValue → β) (members : QJsonObject) : QMap β :=
  QMap.mk (members.reverse.map (fun member => (key member, load member)))

/-- What the loader makes of one member of the `schedule` object (lines 434-454). -/
def weekOfMember (member : String × QJsonValue) : WeekSchedule :=
  { name := member.1
    days := loadedEach (fun m => m.1) dayOfMember member.2.toObject }

/-- A widget at instant 0 holding one activity that ends half a second later. -/
def briefActivityWidget : DonutChartWidget :=
  { mActivities := [{ title := "bell", startTime := 0, endTime := 500 }], mNow := some 0 }

/-- The arc `rebuildArcs` makes of the activity of `briefActivityWidget`. -/
def briefArc : DonutArc :=
  { startTime := 0, endTime := 500, color := QColor.invalid, label := "bell",
    category := "Activity" }

/-- A task with a completed subtask of weight 1 and an open subtask of weight 2. -/
def thirdDoneTask : Task :=
  { subtasks := [{ weighting := 1, completed := true }, { weighting := 2 }] }

/-- A task with a completed and an open subtask, both of weight 1e308. -/
def hugeHalfDoneTask : Task :=
  { subtasks := [{ weighting := 10 ^ 308, completed := true }, { weighting := 10 ^ 308 }] }

/-- The task `hugeHalfDoneTask` with its second subtask marked completed. -/
def hugeDoneTask : Task :=
  { subtasks := [{ weighting := 10 ^ 308, completed := true },
                 { weighting := 10 ^ 308, completed := true }] }

/-- A task with a completed subtask of weight 1e20 and an open subtask of weight 1. -/
def absorbedTask : Task :=
  { subtasks := [{ weighting := 10 ^ 20, completed := true }, { weighting := 1 }] }

/-- A widget at instant 0 holding one activity that runs from 01:32:41 to the end of the
twelve-hour window. -/
def lateActivityWidget : DonutChartWidget :=
  { mActivities := [{ title := "late", startTime := 5561000, endTime := 43200000 }]
    mNow := some 0 }

/-- The arc `rebuildArcs` makes of the activity of `lateActivityWidget`. -/
def lateArc : DonutArc :=
  { startTime := 5561000, endTime := 43200000, color := QColor.invalid, label := "late",
    category := "Activity" }

/-- An arc that starts 5580 s after instant 0 and lasts 195 s. -/
def roundedArc : DonutArc :=
  { startTime := 5580000, endTime := 5775000, color := QColor.invalid, label := "rounded",
    category := "Activity" }

/-! ## Lemmas on the Qt models -/

theorem QMap.contains_of_find {β : Type} {m : QMap β} {k : String} {v : β}
    (h : m.find k = some v) : m.contains k = true := by
  simp [QMap.contains, h]

theorem QMap.value_of_find {β : Type} [Inhabited β] {m : QMap β} {k : String} {v : β}
    (h : m.find k = some v) : m.value k = v := by
  simp [QMap.value, h]

theorem QMap.contains_of_find_none {β : Type} {m : QMap β} {k : String}
    (h : m.find k = none) : m.contains k = false := by
  simp [QMap.contains, h]

theorem QMap.find_of_contains {β : Type} [Inhabited β] {m : QMap β} {k : String}
    (h : m.contains k = true) : m.find k = some (m.value k) := by
  unfold QMap.contains at h
  unfold QMap.value
  cases hf : m.find k with
  | none => simp [hf] at h
  | some v => simp

theorem midnight_eq (d : Int) : midnight d = d * MSECS_PER_DAY := by
  simp [midnight, QDateTime.ofDateTime, QTime.hm, QTime.isValid, MSECS_PER_DAY]

theorem ofDateTime_bounds (d : Int) (t : QTime) :
    d * MSECS_PER_DAY ≤ QDateTime.ofDateTime d t ∧
      QDateTime.ofDateTime d t < d * MSECS_PER_DAY + MSECS_PER_DAY := by
  unfold QDateTime.ofDateTime
  by_cases h : t.isValid = true
  · have h2 := h
    simp only [QTime.isValid, decide_eq_true_eq] at h2
    rw [if_pos h]; omega
  · rw [if_neg h]; simp [MSECS_PER_DAY]

theorem date_ofDateTime (d : Int) (t : QTime) :
    QDateTime.date (QDateTime.ofDateTime d t) = d := by
  have h := ofDateTime_bounds d t
  unfold QDateTime.date
  unfold MSECS_PER_DAY at *
  omega

theorem date_midnight (d : Int) : QDateTime.date (midnight d) = d := by
  unfold midnight; exact date_ofDateTime d _

theorem nextDay_eq (cursor : Int) : nextDay cursor = midnight (QDateTime.date cursor + 1) := by
  unfold nextDay QDateTime.setTime midnight
  congr 1
  unfold QDateTime.addDays QDateTime.date MSECS_PER_DAY
  omega

theorem date_mul_le (t : Int) :
    QDateTime.date t * MSECS_PER_DAY ≤ t ∧ t < QDateTime.date t * MSECS_PER_DAY + MSECS_PER_DAY := by
  unfold QDateTime.date MSECS_PER_DAY
  omega

/-! ## Lemmas on the loops -/

theorem foldl_append_singleton {α β : Type} (f : α → β) (l : List α) (acc : List β) :
    l.foldl (fun r x => r ++ [f x]) acc = acc ++ l.map f := by
  induction l generalizing acc with
  | nil => simp
  | cons x xs ih => simp [ih]

theorem foldl_skip_append {α β : Type} (skip : α → Bool) (f : α → β) (l : List α)
    (acc : List β) :
    l.foldl (fun r x => if skip x then r else r ++ [f x]) acc
      = acc ++ (l.filter (fun x => !skip x)).map f := by
  induction l generalizing acc with
  | nil => simp
  | cons x xs ih =>
    by_cases h : skip x = true
    · simp [ih, h]
    · simp [ih, h]

theorem outsideWindow_eq_false (from_ to_ start «end» : Int) :
    (!outsideWindow from_ to_ start «end») = decide («end» > from_ ∧ start < to_) := by
  unfold outsideWindow
  by_cases h1 : «end» ≤ from_ <;> by_cases h2 : start ≥ to_ <;> simp [h1, h2]
  omega

theorem appendDayPeriods_eq (data : SchoolPeriodsData) (from_ to_ cursor : Int)
    (day : DaySchedule) (templ : TimetableTemplate) (result : List TimetablePeriod) :
    appendDayPeriods data from_ to_ cursor day templ result
      = result ++ (templ.periods.filter (fun e =>
          decide (QDateTime.ofDateTime (QDateTime.date cursor) e.«end» > from_ ∧
            QDateTime.ofDateTime (QDateTime.date cursor) e.start < to_))).map
          (fun e => upcomingPeriod data (slotLookup day.slots)
            (QDateTime.ofDateTime (QDateTime.date cursor) e.start)
            (QDateTime.ofDateTime (QDateTime.date cursor) e.«end») e) := by
  unfold appendDayPeriods
  have h := foldl_skip_append
    (fun e : PeriodTime => outsideWindow from_ to_
      (QDateTime.ofDateTime (QDateTime.date cursor) e.start)
      (QDateTime.ofDateTime (QDateTime.date cursor) e.«end»))
    (fun e => upcomingPeriod data (slotLookup day.slots)
            (QDateTime.ofDateTime (QDateTime.date cursor) e.start)
            (QDateTime.ofDateTime (QDateTime.date cursor) e.«end») e) templ.periods result
  simp only [outsideWindow_eq_false] at h
  exact h

theorem upcomingLoop_stop (data : SchoolPeriodsData) (settings : SettingsData)
    (from_ to_ cursor : Int) (fuel : Nat) (result : List TimetablePeriod)
    (h : ¬ cursor < to_) :
    upcomingLoop data settings from_ to_ (fuel + 1) cursor result = some result := by
  simp [upcomingLoop, h]

theorem upcomingLoop_step (data : SchoolPeriodsData) (settings : SettingsData)
    (week : WeekSchedule) (from_ to_ cursor : Int) (fuel : Nat)
    (result : List TimetablePeriod)
    (hweek : data.weeks.find (toUpper settings.currentWeek) = some week)
    (h : cursor < to_) :
    upcomingLoop data settings from_ to_ (fuel + 1) cursor result
      = upcomingLoop data settings from_ to_ fuel (nextDay cursor)
          (result ++ windowPeriodsOn data week from_ to_ (QDateTime.date cursor)) := by
  rw [upcomingLoop]
  simp only [h, if_true, QMap.contains_of_find hweek, QMap.value_of_find hweek, Bool.not_true,
    Bool.false_eq_true, if_false]
  unfold windowPeriodsOn
  cases hd : week.days.find (QDate.longDayName (QDateTime.date cursor)) with
  | none => simp [QMap.contains_of_find_none hd]
  | some day =>
    simp only [QMap.contains_of_find hd, QMap.value_of_find hd, Bool.not_true,
      Bool.false_eq_true, if_false]
    cases ht : data.templates.find day.templateName with
    | none => simp [QMap.contains_of_find_none ht]
    | some templ =>
      simp only [QMap.contains_of_find ht, QMap.value_of_find ht, Bool.not_true,
        Bool.false_eq_true, if_false]
      rw [appendDayPeriods_eq]

theorem datesFrom_filter_nil (to_ : Int) (n : Nat) (d : Int) (h : to_ ≤ midnight d) :
    (datesFrom n d).filter (fun d' => decide (midnight d' < to_)) = [] := by
  induction n generalizing d with
  | zero => simp [datesFrom]
  | succ n ih =>
    have h1 : to_ ≤ midnight (d + 1) := by
      rw [midnight_eq] at *; unfold MSECS_PER_DAY at *; omega
    have h2 : ¬ midnight d < to_ := by omega
    simp [datesFrom, h2, ih (d + 1) h1]

theorem mem_datesFrom (n : Nat) (d x : Int) :
    x ∈ datesFrom n d ↔ d ≤ x ∧ x < d + n := by
  induction n generalizing d with
  | zero => simp [datesFrom]
  | succ n ih =>
    simp only [datesFrom, List.mem_cons, ih]
    push_cast
    omega

theorem upcomingLoop_midnight (data : SchoolPeriodsData) (settings : SettingsData)
    (week : WeekSchedule) (from_ to_ : Int)
    (hweek : data.weeks.find (toUpper settings.currentWeek) = some week) :
    ∀ (n : Nat) (d : Int) (fuel : Nat) (result : List TimetablePeriod),
      n < fuel → to_ ≤ midnight (d + n) →
      upcomingLoop data settings from_ to_ fuel (midnight d) result
        = some (result ++ List.flatMap
            ((datesFrom n d).filter (fun d' => decide (midnight d' < to_)))
            (windowPeriodsOn data week from_ to_)) := by
  intro n
  induction n with
  | zero =>
    intro d fuel result hf hto
    obtain ⟨f, rfl⟩ : ∃ f, fuel = f + 1 := ⟨fuel - 1, by omega⟩
    have hto2 : ¬ midnight d < to_ := by simpa using hto
    rw [upcomingLoop_stop _ _ _ _ _ _ _ hto2]
    simp [datesFrom]
  | succ n ih =>
    intro d fuel result hf hto
    obtain ⟨f, rfl⟩ : ∃ f, fuel = f + 1 := ⟨fuel - 1, by omega⟩
    by_cases hc : midnight d < to_
    · rw [upcomingLoop_step data settings week from_ to_ _ f result hweek hc, nextDay_eq,
        date_midnight]
      have hto2 : to_ ≤ midnight (d + 1 + n) := by
        have : d + 1 + (n : Int) = d + ((n + 1 : Nat) : Int) := by push_cast; ring
        rw [this]; exact hto
      rw [ih (d + 1) f _ (by omega) hto2]
      simp [datesFrom, hc, List.flatMap_cons]
    · rw [upcomingLoop_stop _ _ _ _ _ _ _ hc]
      rw [datesFrom_filter_nil to_ (n + 1) d (by omega)]
      simp

theorem upcomingLoop_from (data : SchoolPeriodsData) (settings : SettingsData)
    (week : WeekSchedule) (from_ to_ : Int) (fuel : Nat)
    (hweek : data.weeks.find (toUpper settings.currentWeek) = some week)
    (hlt : from_ < to_) (hfuel : walkFuel from_ to_ ≤ fuel) :
    upcomingLoop data settings from_ to_ fuel from_ []
      = some (List.flatMap (walkedDates from_ to_) (windowPeriodsOn data week from_ to_)) := by
  obtain ⟨f, rfl⟩ : ∃ f, fuel = f + 1 := ⟨fuel - 1, by unfold walkFuel at hfuel; omega⟩
  rw [upcomingLoop_step data settings week from_ to_ from_ f [] hweek hlt, nextDay_eq]
  have hto : to_ ≤ midnight (QDateTime.date from_ + 1 +
      ((QDateTime.date to_ - QDateTime.date from_).toNat : Int)) := by
    have h1 := date_mul_le from_
    have h2 := date_mul_le to_
    rw [midnight_eq]
    unfold MSECS_PER_DAY at *
    omega
  rw [upcomingLoop_midnight data settings week from_ to_ hweek _ _ f _
    (by unfold walkFuel at hfuel; omega) hto]
  unfold walkedDates
  simp only [datesFrom, List.filter_cons, true_or, decide_True, if_true, List.flatMap_cons,
    List.nil_append]
  congr 3
  apply List.filter_congr
  intro x hx
  have hx2 := (mem_datesFrom _ _ _).1 hx
  have hne : x ≠ QDateTime.date from_ := by omega
  simp [hne]

theorem upcomingPeriod_startTime (data : SchoolPeriodsData) (lookup : QMap TimetableSubjectSlot)
    (start «end» : Int) (period : PeriodTime) :
    (upcomingPeriod data lookup start «end» period).startTime = start := by
  unfold upcomingPeriod; split <;> rfl

theorem upcomingPeriod_endTime (data : SchoolPeriodsData) (lookup : QMap TimetableSubjectSlot)
    (start «end» : Int) (period : PeriodTime) :
    (upcomingPeriod data lookup start «end» period).endTime = «end» := by
  unfold upcomingPeriod; split <;> rfl

theorem upcomingPeriod_periodKey (data : SchoolPeriodsData) (lookup : QMap TimetableSubjectSlot)
    (start «end» : Int) (period : PeriodTime) :
    (upcomingPeriod data lookup start «end» period).periodKey = period.label := by
  unfold upcomingPeriod; split <;> rfl

theorem mem_walkedDates {from_ to_ d : Int} :
    d ∈ walkedDates from_ to_ ↔
      (d = QDateTime.date from_ ∨ (QDateTime.date from_ < d ∧ midnight d < to_)) := by
  unfold walkedDates
  simp only [List.mem_filter, mem_datesFrom, decide_eq_true_eq]
  have h2 := date_mul_le to_
  have h1 := date_mul_le from_
  rw [midnight_eq]
  unfold MSECS_PER_DAY at *
  constructor
  · rintro ⟨⟨ha, hb⟩, hc | hc⟩
    · exact Or.inl hc
    · by_cases he : d = QDateTime.date from_
      · exact Or.inl he
      · exact Or.inr ⟨by omega, hc⟩
  · rintro (h | ⟨ha, hb⟩)
    · subst h
      exact ⟨⟨le_refl _, by omega⟩, Or.inl rfl⟩
    · refine ⟨⟨by omega, by omega⟩, Or.inr hb⟩

theorem mem_windowPeriodsOn {data : SchoolPeriodsData} {week : WeekSchedule} {from_ to_ d : Int}
    {p : TimetablePeriod} :
    p ∈ windowPeriodsOn data week from_ to_ d ↔
      ∃ day templ e, week.days.find (QDate.longDayName d) = some day ∧
        data.templates.find day.templateName = some templ ∧ e ∈ templ.periods ∧
        from_ < QDateTime.ofDateTime d e.«end» ∧ QDateTime.ofDateTime d e.start < to_ ∧
        p = upcomingPeriod data (slotLookup day.slots)
          (QDateTime.ofDateTime d e.start) (QDateTime.ofDateTime d e.«end») e := by
  unfold windowPeriodsOn
  constructor
  · intro h
    cases hd : week.days.find (QDate.longDayName d) with
    | none => rw [hd] at h; simp at h
    | some day =>
      rw [hd] at h
      dsimp only at h
      cases ht : data.templates.find day.templateName with
      | none => rw [ht] at h; simp at h
      | some templ =>
        rw [ht] at h
        simp only [List.mem_map, List.mem_filter, decide_eq_true_eq] at h
        obtain ⟨e, ⟨he, h1, h2⟩, rfl⟩ := h
        exact ⟨day, templ, e, rfl, ht, he, h1, h2, rfl⟩
  · rintro ⟨day, templ, e, hd, ht, he, h1, h2, rfl⟩
    rw [hd]
    dsimp only
    rw [ht]
    simp only [List.mem_map, List.mem_filter, decide_eq_true_eq]
    exact ⟨e, ⟨he, h1, h2⟩, rfl⟩

theorem sortByStart_perm (l : List TimetablePeriod) : List.Perm (sortByStart l) l := by
  unfold sortByStart
  exact List.perm_insertionSort _ l

theorem buildDay_eq (mData : SchoolPeriodsData) (mSettings : SettingsData) (referenceDate : Int)
    (weekKey dayName : String) (week : WeekSchedule) (day : DaySchedule)
    (hweek : mData.weeks.find weekKey = some week) (hday : week.days.find dayName = some day) :
    buildDay mData mSettings referenceDate weekKey dayName
      = dayPeriodsOf mData day referenceDate
          (mData.templates.find (buildDayTemplateName mSettings day)) := by
  unfold buildDay
  simp only [QMap.contains_of_find hweek, QMap.value_of_find hweek, QMap.contains_of_find hday,
    QMap.value_of_find hday, Bool.not_true, Bool.false_eq_true, if_false]
  cases ht : mData.templates.find (buildDayTemplateName mSettings day) with
  | none => simp [QMap.contains_of_find_none ht, dayPeriodsOf]
  | some templ =>
    simp only [QMap.contains_of_find ht, QMap.value_of_find ht, Bool.not_true,
      Bool.false_eq_true, if_false, dayPeriodsOf]
    rw [foldl_append_singleton]
    simp

theorem slotLookup_entries (slots : List TimetableSubjectSlot) (m : QMap TimetableSubjectSlot) :
    (slots.foldl (fun m slot => m.insert slot.periodKey slot) m).entries
      = (slots.reverse.map (fun s => (s.periodKey, s))) ++ m.entries := by
  induction slots generalizing m with
  | nil => simp
  | cons s ss ih =>
    rw [List.foldl_cons, ih]
    simp [QMap.insert]

theorem lookup_map_isSome (k : String) (l : List TimetableSubjectSlot) :
    ((l.map (fun s => (s.periodKey, s))).lookup k).isSome = l.any (fun s => s.periodKey == k) := by
  induction l with
  | nil => simp
  | cons s ss ih =>
    simp only [List.map_cons, List.lookup_cons, List.any_cons]
    by_cases h : k = s.periodKey
    · subst h; simp
    · have h1 : (k == s.periodKey) = false := by simpa using h
      have h2 : (s.periodKey == k) = false := by simpa using fun e => h e.symm
      simp [h1, h2, ih]

theorem slotLookup_contains (slots : List TimetableSubjectSlot) (k : String) :
    (slotLookup slots).contains k = slots.any (fun s => s.periodKey == k) := by
  unfold slotLookup QMap.contains QMap.find
  rw [slotLookup_entries]
  simp only [QMap.empty, List.append_nil]
  rw [lookup_map_isSome]
  simp [List.any_reverse]

theorem buildDayPeriod_periodKey (mData : SchoolPeriodsData) (lookup : QMap TimetableSubjectSlot)
    (referenceDate : Int) (e : PeriodTime) :
    (buildDayPeriod mData lookup referenceDate e).periodKey = e.label := by
  unfold buildDayPeriod
  dsimp only
  split_ifs <;> rfl

theorem buildDayPeriod_isSpecial (mData : SchoolPeriodsData) (lookup : QMap TimetableSubjectSlot)
    (referenceDate : Int) (e : PeriodTime) :
    (buildDayPeriod mData lookup referenceDate e).isSpecial = !lookup.contains e.label := by
  unfold buildDayPeriod
  dsimp only
  split_ifs with h1 h2 <;> simp [h1]

theorem buildDayPeriod_startTime (mData : SchoolPeriodsData)
    (lookup : QMap TimetableSubjectSlot) (referenceDate : Int) (e : PeriodTime) :
    (buildDayPeriod mData lookup referenceDate e).startTime
      = QDateTime.ofDateTime referenceDate e.start := by
  unfold buildDayPeriod
  dsimp only
  split_ifs <;> rfl

theorem buildDayPeriod_endTime (mData : SchoolPeriodsData)
    (lookup : QMap TimetableSubjectSlot) (referenceDate : Int) (e : PeriodTime) :
    (buildDayPeriod mData lookup referenceDate e).endTime
      = QDateTime.ofDateTime referenceDate e.«end» := by
  unfold buildDayPeriod
  dsimp only
  split_ifs <;> rfl

theorem upcomingPeriod_isSpecial (data : SchoolPeriodsData) (lookup : QMap TimetableSubjectSlot)
    (start «end» : Int) (period : PeriodTime) :
    (upcomingPeriod data lookup start «end» period).isSpecial = !lookup.contains period.label := by
  unfold upcomingPeriod; split <;> rfl

theorem QMap.value_of_not_contains {β : Type} [Inhabited β] {m : QMap β} {k : String}
    (h : ¬ m.contains k = true) : m.value k = default := by
  unfold QMap.contains at h
  unfold QMap.value
  cases hf : m.find k with
  | none => rfl
  | some v => simp [hf] at h

theorem buildDayPeriod_agrees (data : SchoolPeriodsData) (lookup : QMap TimetableSubjectSlot)
    (d : Int) (e : PeriodTime) :
    (buildDayPeriod data lookup d e).room
        = (upcomingPeriod data lookup (QDateTime.ofDateTime d e.start)
            (QDateTime.ofDateTime d e.«end») e).room ∧
    (buildDayPeriod data lookup d e).teacher
        = (upcomingPeriod data lookup (QDateTime.ofDateTime d e.start)
            (QDateTime.ofDateTime d e.«end») e).teacher ∧
    (lookup.contains e.label = true →
      (buildDayPeriod data lookup d e).subjectName
          = (upcomingPeriod data lookup (QDateTime.ofDateTime d e.start)
              (QDateTime.ofDateTime d e.«end») e).subjectName ∧
      (buildDayPeriod data lookup d e).color
          = (upcomingPeriod data lookup (QDateTime.ofDateTime d e.start)
              (QDateTime.ofDateTime d e.«end») e).color) := by
  unfold buildDayPeriod upcomingPeriod
  dsimp only
  by_cases h1 : lookup.contains e.label = true
  · by_cases h2 : data.subjects.contains (lookup.value e.label).subjectName = true
    · simp [h1, h2]
    · simp only [h1, h2, if_true, if_false, QMap.value_of_not_contains h2]
      exact ⟨rfl, rfl, fun _ => ⟨rfl, rfl⟩⟩
  · simp [h1]

theorem stdMax_eq (a b : Int) : stdMax a b = max a b := by
  unfold stdMax
  split_ifs with h
  · exact (max_eq_right (le_of_lt h)).symm
  · exact (max_eq_left (not_lt.1 h)).symm

theorem stdMin_eq (a b : Int) : stdMin a b = min a b := by
  unfold stdMin
  split_ifs with h
  · exact (min_eq_right (le_of_lt h)).symm
  · exact (min_eq_left (not_lt.1 h)).symm

theorem addSecs_span (now : Int) : QDateTime.addSecs now (12 * 3600) = now + SPAN_MSECS := by
  unfold QDateTime.addSecs SPAN_MSECS
  norm_num

theorem activityArcs_eq (now : Int) (acts : List Activity) :
    activityArcs now (now + SPAN_MSECS) acts
      = (acts.filter (fun a =>
          decide (max a.startTime now < min a.endTime (now + SPAN_MSECS)))).map
          (clippedActivityArc now) := by
  unfold activityArcs
  have h := foldl_skip_append
    (fun a : Activity => decide (stdMin a.endTime (now + SPAN_MSECS) ≤ stdMax a.startTime now))
    (fun a => ({ startTime := stdMax a.startTime now
                 endTime := stdMin a.endTime (now + SPAN_MSECS)
                 color := a.color
                 label := a.title
                 category := "Activity" } : DonutArc)) acts []
  simp only [decide_eq_true_eq, List.nil_append] at h
  rw [h]
  simp only [stdMax_eq, stdMin_eq]
  have hp : ∀ a : Activity,
      (!decide (min a.endTime (now + SPAN_MSECS) ≤ max a.startTime now))
        = decide (max a.startTime now < min a.endTime (now + SPAN_MSECS)) := by
    intro a
    by_cases hc : min a.endTime (now + SPAN_MSECS) ≤ max a.startTime now
    · rw [decide_eq_true hc, decide_eq_false (not_lt.2 hc)]; rfl
    · rw [decide_eq_false hc, decide_eq_true (not_le.1 hc)]; rfl
  simp only [hp]
  rfl

theorem periodArcs_eq (now : Int) (ps : List TimetablePeriod) :
    periodArcs now (now + SPAN_MSECS) ps
      = (ps.filter (fun p =>
          decide (max p.startTime now < min p.endTime (now + SPAN_MSECS)))).map
          (clippedPeriodArc now) := by
  unfold periodArcs
  have h := foldl_skip_append
    (fun p : TimetablePeriod =>
      decide (stdMin p.endTime (now + SPAN_MSECS) ≤ stdMax p.startTime now))
    (fun p => ({ startTime := stdMax p.startTime now
                 endTime := stdMin p.endTime (now + SPAN_MSECS)
                 color := if p.color.isValid then p.color else QColor.rgb 224 224 224
                 label := p.subjectName
                 category := "Timetable" } : DonutArc)) ps []
  simp only [decide_eq_true_eq, List.nil_append] at h
  rw [h]
  simp only [stdMax_eq, stdMin_eq]
  have hp : ∀ p : TimetablePeriod,
      (!decide (min p.endTime (now + SPAN_MSECS) ≤ max p.startTime now))
        = decide (max p.startTime now < min p.endTime (now + SPAN_MSECS)) := by
    intro p
    by_cases hc : min p.endTime (now + SPAN_MSECS) ≤ max p.startTime now
    · rw [decide_eq_true hc, decide_eq_false (not_lt.2 hc)]; rfl
    · rw [decide_eq_false hc, decide_eq_true (not_le.1 hc)]; rfl
  simp only [hp]
  rfl

theorem rebuildArcs_activityArcs (currentDateTime : Int) (w : DonutChartWidget) :
    (rebuildArcs currentDateTime w).mActivityArcs
      = activityArcs (effectiveNow currentDateTime w)
          (effectiveNow currentDateTime w + SPAN_MSECS) w.mActivities := by
  unfold rebuildArcs effectiveNow
  cases h : w.mNow <;> simp only [addSecs_span, Option.getD_none, Option.getD_some]

theorem rebuildArcs_periodArcs (currentDateTime : Int) (w : DonutChartWidget) :
    (rebuildArcs currentDateTime w).mPeriodArcs
      = periodArcs (effectiveNow currentDateTime w)
          (effectiveNow currentDateTime w + SPAN_MSECS) w.mPeriods := by
  unfold rebuildArcs effectiveNow
  cases h : w.mNow <;> simp only [addSecs_span, Option.getD_none, Option.getD_some]

/-! ## The window aggregator: claims C1, C4, C5 -/

/-- C1. With the upper-cased week designator a key of the catalog's weeks and `from < to`, the
day walk of `upcomingPeriods` finishes and returns, up to the order of periods, exactly the
periods of the walked dates (the date of `from`, and each later date whose midnight is before
`to`) built from the entries of that day's template that end after `from` and start before
`to`; every returned period carries the entry's unclipped start and end on its date. -/
theorem upcomingPeriods_window_contract (data : SchoolPeriodsData) (settings : SettingsData)
    (from_ to_ : Int) (fuel : Nat)
    (hweek : data.weeks.contains (toUpper settings.currentWeek) = true)
    (hlt : from_ < to_) (hfuel : walkFuel from_ to_ ≤ fuel) :
    ∃ r, upcomingPeriods fuel data settings from_ to_ = some r ∧
      List.Perm r (List.flatMap (walkedDates from_ to_)
        (windowPeriodsOn data (data.weeks.value (toUpper settings.currentWeek)) from_ to_)) ∧
      ∀ p ∈ r, ∃ d day templ e,
        (d = QDateTime.date from_ ∨ (QDateTime.date from_ < d ∧ midnight d < to_)) ∧
        (data.weeks.value (toUpper settings.currentWeek)).days.find (QDate.longDayName d)
          = some day ∧
        data.templates.find day.templateName = some templ ∧
        e ∈ templ.periods ∧
        p.periodKey = e.label ∧
        p.startTime = QDateTime.ofDateTime d e.start ∧
        p.endTime = QDateTime.ofDateTime d e.«end» ∧
        from_ < p.endTime ∧ p.startTime < to_ := by
  have hfind := QMap.find_of_contains hweek
  refine ⟨_, ?_, sortByStart_perm _, ?_⟩
  · unfold upcomingPeriods
    rw [upcomingLoop_from data settings _ from_ to_ fuel hfind hlt hfuel]
    rfl
  · intro p hp
    have hp2 := (sortByStart_perm _).subset hp
    obtain ⟨d, hd, hpd⟩ := List.mem_flatMap.1 hp2
    have hd2 := mem_walkedDates.1 hd
    obtain ⟨day, templ, e, h1, h2, h3, h4, h5, h6⟩ := mem_windowPeriodsOn.1 hpd
    exact ⟨d, day, templ, e, hd2, h1, h2, h3, by rw [h6, upcomingPeriod_periodKey],
      by rw [h6, upcomingPeriod_startTime], by rw [h6, upcomingPeriod_endTime],
      by rw [h6, upcomingPeriod_endTime]; exact h4, by rw [h6, upcomingPeriod_startTime]; exact h5⟩

/-- Witness of C1: `sampleCatalog`, week "A", the window from Monday 00:00 to Monday 12:00. -/
theorem upcomingPeriods_window_contract_witness :
    sampleCatalog.weeks.contains (toUpper sampleSettings.currentWeek) = true ∧
    (345600000 : Int) < 388800000 ∧ walkFuel 345600000 388800000 ≤ 3 ∧
    ∃ r, upcomingPeriods 3 sampleCatalog sampleSettings 345600000 388800000 = some r ∧
      List.Perm r (List.flatMap (walkedDates 345600000 388800000)
        (windowPeriodsOn sampleCatalog
          (sampleCatalog.weeks.value (toUpper sampleSettings.currentWeek))
          345600000 388800000)) :=
  ⟨by decide, by decide, by decide,
    (upcomingPeriods_window_contract sampleCatalog sampleSettings 345600000 388800000 3
      (by decide) (by decide) (by decide)).imp (fun _ h => ⟨h.1, h.2.1⟩)⟩

/-- C4, the code at the failing input: on `sampleCatalog`, week "A", year level 10 and the
window from Monday 00:00 to Monday 12:00 (day 4), `upcomingPeriods` returns the special period
of the unbound entry "p2" with subject name "P2" and colour (224, 224, 224), and `buildDay`
returns no equal period on the one date of `[from.date, to.date]`: for the same entry it
writes the label as written and the colour (239, 239, 239). -/
theorem upcomingPeriods_special_not_in_buildDay :
    upcomingPeriods 3 sampleCatalog sampleSettings 345600000 388800000
      = some [
        { subjectName := "Maths", room := "R1", teacher := "Ms A", color := QColor.rgb 1 2 3,
          startTime := 378000000, endTime := 381600000, periodKey := "p1", isSpecial := false },
        { subjectName := "P2", room := "", teacher := "", color := QColor.rgb 224 224 224,
          startTime := 381600000, endTime := 385200000, periodKey := "p2", isSpecial := true }] ∧
    (¬ ∃ d : Int, QDateTime.date 345600000 ≤ d ∧ d ≤ QDateTime.date 388800000 ∧
        ({ subjectName := "P2", room := "", teacher := "", color := QColor.rgb 224 224 224,
           startTime := 381600000, endTime := 385200000, periodKey := "p2",
           isSpecial := true } : TimetablePeriod)
          ∈ buildDay sampleCatalog sampleSettings d "A"
              (QDate.longDayName d)) ∧
    buildDay sampleCatalog sampleSettings 4 "A" (QDate.longDayName 4)
      = [{ subjectName := "Maths", room := "R1", teacher := "Ms A", color := QColor.rgb 1 2 3,
           startTime := 378000000, endTime := 381600000, periodKey := "p1",
           isSpecial := false },
         { subjectName := "p2", room := "", teacher := "", color := QColor.rgb 239 239 239,
           startTime := 381600000, endTime := 385200000, periodKey := "p2",
           isSpecial := true }] := by
  refine ⟨by decide, ?_, by decide⟩
  rintro ⟨d, h1, h2, h3⟩
  have e1 : QDateTime.date 345600000 = 4 := by decide
  have e2 : QDateTime.date 388800000 = 4 := by decide
  rw [e1] at h1
  rw [e2] at h2
  have hd : d = 4 := le_antisymm h2 h1
  subst hd
  revert h3
  decide

/-- C5, the code at the failing input: on `wednesdayCatalog` with year level 10 the window
covering Wednesday (day 6) makes `upcomingPeriods` look up "wednesday_base" itself and return
no period, while `buildDay` resolves that Wednesday against "wednesday_year10". -/
theorem upcomingPeriods_skips_wednesday_substitution :
    QDate.longDayName 6 = "Wednesday" ∧
    upcomingPeriods 3 wednesdayCatalog sampleSettings
      518400000 604800000 = some [] ∧
    buildDay wednesdayCatalog sampleSettings 6 "A" "Wednesday"
      = [{ subjectName := "Maths", room := "R1", teacher := "Ms A", color := QColor.rgb 1 2 3,
           startTime := 550800000, endTime := 554400000, periodKey := "p1",
           isSpecial := false }] := by
  decide

/-! ## The single-day resolver: claims C2, C3 -/

/-- C2. When the week and the weekday are found, `buildDay` resolves a day whose template
name contains "wednesday" in any letter case against the template bound to "wednesday_year11"
if `yearLevel >= 11` and against the one bound to "wednesday_year10" if `yearLevel < 11`,
whatever the catalog binds to the day's own template name; a template name without
"wednesday" is looked up unchanged. -/
theorem buildDay_wednesday_substitution (mData : SchoolPeriodsData) (mSettings : SettingsData)
    (referenceDate : Int) (weekKey dayName : String) (week : WeekSchedule) (day : DaySchedule)
    (hweek : mData.weeks.find weekKey = some week) (hday : week.days.find dayName = some day) :
    (containsCaseInsensitive day.templateName "wednesday" = true → mSettings.yearLevel ≥ 11 →
      buildDay mData mSettings referenceDate weekKey dayName
        = dayPeriodsOf mData day referenceDate (mData.templates.find "wednesday_year11")) ∧
    (containsCaseInsensitive day.templateName "wednesday" = true → mSettings.yearLevel < 11 →
      buildDay mData mSettings referenceDate weekKey dayName
        = dayPeriodsOf mData day referenceDate (mData.templates.find "wednesday_year10")) ∧
    (containsCaseInsensitive day.templateName "wednesday" = false →
      buildDay mData mSettings referenceDate weekKey dayName
        = dayPeriodsOf mData day referenceDate (mData.templates.find day.templateName)) ∧
    containsCaseInsensitive "wednesday_base" "wednesday" = true ∧
    containsCaseInsensitive "Late_WEDNESDAY" "wednesday" = true := by
  rw [buildDay_eq mData mSettings referenceDate weekKey dayName week day hweek hday]
  unfold buildDayTemplateName
  refine ⟨?_, ?_, ?_, by decide, by decide⟩
  · intro hw hy
    rw [if_pos hw, if_pos hy]
  · intro hw hy
    rw [if_pos hw, if_neg (by omega)]
  · intro hw
    rw [if_neg (by simp [hw])]

/-- Witness of C2 on the catalog of the end-to-end example, year level 10. -/
theorem buildDay_wednesday_substitution_witness :
    wednesdayCatalog.weeks.find "A" = some wednesdayWeek ∧
    wednesdayWeek.days.find "Wednesday" = some sampleWednesday ∧
    containsCaseInsensitive sampleWednesday.templateName "wednesday" = true ∧
    sampleSettings.yearLevel < 11 ∧
    buildDay wednesdayCatalog sampleSettings 6 "A" "Wednesday"
      = dayPeriodsOf wednesdayCatalog sampleWednesday 6
          (wednesdayCatalog.templates.find "wednesday_year10") :=
  ⟨by decide, by decide, by decide, by decide,
    (buildDay_wednesday_substitution wednesdayCatalog sampleSettings 6 "A" "Wednesday"
      wednesdayWeek sampleWednesday (by decide) (by decide)).2.1 (by decide) (by decide)⟩

/-- C3. When the week, the weekday and the template `buildDay` looks up are found, `buildDay`
returns one period per entry of the template's period list, in the same order; the period of
an entry has the entry's label as `periodKey`, and it is special exactly when no slot of the
day has that label as its `periodKey`. -/
theorem buildDay_one_period_per_entry (mData : SchoolPeriodsData) (mSettings : SettingsData)
    (referenceDate : Int) (weekKey dayName : String) (week : WeekSchedule) (day : DaySchedule)
    (templ : TimetableTemplate)
    (hweek : mData.weeks.find weekKey = some week) (hday : week.days.find dayName = some day)
    (htempl : mData.templates.find (buildDayTemplateName mSettings day) = some templ) :
    (buildDay mData mSettings referenceDate weekKey dayName).length = templ.periods.length ∧
    (buildDay mData mSettings referenceDate weekKey dayName).map
        (fun p => (p.periodKey, p.isSpecial))
      = templ.periods.map
          (fun e => (e.label, !(day.slots.any (fun s => s.periodKey == e.label)))) := by
  rw [buildDay_eq mData mSettings referenceDate weekKey dayName week day hweek hday, htempl]
  unfold dayPeriodsOf
  refine ⟨by simp, ?_⟩
  rw [List.map_map]
  apply List.map_congr_left
  intro e _
  simp only [Function.comp, buildDayPeriod_periodKey, buildDayPeriod_isSpecial,
    slotLookup_contains]

/-- Witness of C3 on the Monday of `sampleCatalog`. -/
theorem buildDay_one_period_per_entry_witness :
    (buildDay sampleCatalog sampleSettings 4 "A" "Monday").length
        = sampleTemplate.periods.length ∧
    (buildDay sampleCatalog sampleSettings 4 "A" "Monday").map (fun p => (p.periodKey, p.isSpecial))
      = sampleTemplate.periods.map
          (fun e => (e.label, !(sampleMonday.slots.any (fun s => s.periodKey == e.label)))) :=
  buildDay_one_period_per_entry sampleCatalog sampleSettings 4 "A" "Monday" sampleWeek
    sampleMonday sampleTemplate (by decide) (by decide) (by decide)

/-! ## The arcs of the donut: claims C6, C7, C8 -/

/-- C6. After `rebuildArcs`, with `now` the instant it works with, the activity arcs are, in
input order, the arcs `[max(start, now), min(end, now + 12 h)]` of exactly the activities
whose clipped end is strictly after the clipped start, each with the colour and title of its
activity; the period arcs are built from the periods by the same clipping; and every arc of
either list lies inside `[now, now + 12 h]`. -/
theorem rebuildArcs_clips_to_window (currentDateTime : Int) (w : DonutChartWidget) :
    (rebuildArcs currentDateTime w).mActivityArcs
      = (w.mActivities.filter (fun a =>
          decide (max a.startTime (effectiveNow currentDateTime w)
            < min a.endTime (effectiveNow currentDateTime w + SPAN_MSECS)))).map
          (clippedActivityArc (effectiveNow currentDateTime w)) ∧
    (rebuildArcs currentDateTime w).mPeriodArcs
      = (w.mPeriods.filter (fun p =>
          decide (max p.startTime (effectiveNow currentDateTime w)
            < min p.endTime (effectiveNow currentDateTime w + SPAN_MSECS)))).map
          (clippedPeriodArc (effectiveNow currentDateTime w)) ∧
    (∀ arc ∈ (rebuildArcs currentDateTime w).mActivityArcs
          ++ (rebuildArcs currentDateTime w).mPeriodArcs,
      effectiveNow currentDateTime w ≤ arc.startTime ∧
      arc.startTime < arc.endTime ∧
      arc.endTime ≤ effectiveNow currentDateTime w + SPAN_MSECS) := by
  rw [rebuildArcs_activityArcs, rebuildArcs_periodArcs, activityArcs_eq, periodArcs_eq]
  refine ⟨rfl, rfl, ?_⟩
  intro arc harc
  rcases List.mem_append.1 harc with h | h
  · obtain ⟨a, ha, rfl⟩ := List.mem_map.1 h
    have h2 := (List.mem_filter.1 ha).2
    simp only [decide_eq_true_eq] at h2
    exact ⟨le_max_right _ _, h2, min_le_right _ _⟩
  · obtain ⟨p, hp, rfl⟩ := List.mem_map.1 h
    have h2 := (List.mem_filter.1 hp).2
    simp only [decide_eq_true_eq] at h2
    exact ⟨le_max_right _ _, h2, min_le_right _ _⟩

/-- C7. Whatever the instant, the activities and the periods, no arc of the activity-arc list
and no arc of the period-arc list built by `rebuildArcs` has `endTime <= startTime`. -/
theorem rebuildArcs_no_empty_arc (currentDateTime : Int) (w : DonutChartWidget) :
    (∀ arc ∈ (rebuildArcs currentDateTime w).mActivityArcs, ¬ arc.endTime ≤ arc.startTime) ∧
    (∀ arc ∈ (rebuildArcs currentDateTime w).mPeriodArcs, ¬ arc.endTime ≤ arc.startTime) := by
  rw [rebuildArcs_activityArcs, rebuildArcs_periodArcs, activityArcs_eq, periodArcs_eq]
  constructor
  · intro arc h
    obtain ⟨a, ha, rfl⟩ := List.mem_map.1 h
    have h2 := (List.mem_filter.1 ha).2
    simp only [decide_eq_true_eq] at h2
    exact not_le.2 h2
  · intro arc h
    obtain ⟨p, hp, rfl⟩ := List.mem_map.1 h
    have h2 := (List.mem_filter.1 hp).2
    simp only [decide_eq_true_eq] at h2
    exact not_le.2 h2

/-- C8. `rebuildArcs` keeps an activity by the intersection test of `upcomingPeriods` taken
with `from = now` and `to = now + 12 h`: the activity arcs are the clipped arcs of exactly
the activities with `start < end` that `outsideWindow now (now + 12 h)` does not reject, that
is with `end > now` and `start < now + 12 h`; an activity with `start >= end` gives no arc. -/
theorem rebuildArcs_keeps_intersecting_activities (currentDateTime : Int)
    (w : DonutChartWidget) :
    (rebuildArcs currentDateTime w).mActivityArcs
      = (w.mActivities.filter (fun a =>
          decide (a.startTime < a.endTime) &&
          !outsideWindow (effectiveNow currentDateTime w)
            (effectiveNow currentDateTime w + SPAN_MSECS) a.startTime a.endTime)).map
          (clippedActivityArc (effectiveNow currentDateTime w)) ∧
    (∀ a : Activity,
      (!outsideWindow (effectiveNow currentDateTime w)
          (effectiveNow currentDateTime w + SPAN_MSECS) a.startTime a.endTime) = true ↔
        (a.endTime > effectiveNow currentDateTime w ∧
          a.startTime < effectiveNow currentDateTime w + SPAN_MSECS)) := by
  constructor
  · rw [rebuildArcs_activityArcs, activityArcs_eq]
    congr 1
    apply List.filter_congr
    intro a _
    rw [outsideWindow_eq_false]
    have hs : (0 : Int) < SPAN_MSECS := by decide
    have hiff : (max a.startTime (effectiveNow currentDateTime w)
          < min a.endTime (effectiveNow currentDateTime w + SPAN_MSECS)) ↔
        (a.startTime < a.endTime ∧ (a.endTime > effectiveNow currentDateTime w ∧
          a.startTime < effectiveNow currentDateTime w + SPAN_MSECS)) := by
      rw [max_lt_iff, lt_min_iff, lt_min_iff]
      constructor
      · rintro ⟨⟨h1, h2⟩, h3, _⟩
        exact ⟨h1, h3, h2⟩
      · rintro ⟨h1, h3, h2⟩
        exact ⟨⟨h1, h2⟩, h3, by omega⟩
    rw [← Bool.decide_and]
    exact decide_eq_decide.2 hiff
  · intro a
    rw [outsideWindow_eq_false]
    simp

/-! ## Lemmas on rounding to double -/

namespace Double

theorem log2Fuel_eq (fuel : Nat) : ∀ n : Nat, n ≤ fuel → log2Fuel fuel n = Nat.log 2 n := by
  induction fuel with
  | zero =>
    intro n hn
    have : n = 0 := by omega
    subst this
    simp [log2Fuel]
  | succ k ih =>
    intro n hn
    unfold log2Fuel
    by_cases h : 2 ≤ n
    · rw [if_pos h, ih (n / 2) (by omega), Nat.log_of_one_lt_of_le (by norm_num) h]
    · rw [if_neg h, Nat.log_of_lt (by omega)]

theorem log2_eq (n : Nat) : log2 n = Nat.log 2 n := log2Fuel_eq n n (le_refl n)

theorem twoPow_eq (e : Int) : twoPow e = (2 : ℚ) ^ e := by
  unfold twoPow
  by_cases h : 0 ≤ e
  · rw [if_pos h]
    obtain ⟨k, rfl⟩ := Int.eq_ofNat_of_zero_le h
    simp
  · rw [if_neg h]
    obtain ⟨k, hk⟩ := Int.eq_ofNat_of_zero_le (show 0 ≤ -e by omega)
    have : e = -(k : Int) := by omega
    subst this
    simp

theorem twoPow_pos (e : Int) : 0 < twoPow e := by
  rw [twoPow_eq]
  positivity

theorem twoPow_le_twoPow {a b : Int} (h : a ≤ b) : twoPow a ≤ twoPow b := by
  rw [twoPow_eq, twoPow_eq]
  exact zpow_le_zpow_right₀ (by norm_num) h

theorem twoPow_lt_twoPow_iff {a b : Int} : twoPow a < twoPow b ↔ a < b := by
  rw [twoPow_eq, twoPow_eq]
  exact zpow_lt_zpow_iff_right₀ (by norm_num)

theorem twoPow_add (a b : Int) : twoPow (a + b) = twoPow a * twoPow b := by
  rw [twoPow_eq, twoPow_eq, twoPow_eq]
  exact zpow_add₀ (by norm_num) a b

theorem twoPow_natCast (k : Nat) : twoPow (k : Int) = (2 : ℚ) ^ k := by
  rw [twoPow_eq]
  exact zpow_natCast 2 k

theorem twoPow_sub_natCast (m n : Nat) :
    twoPow ((m : Int) - (n : Int)) = (2 : ℚ) ^ m / (2 : ℚ) ^ n := by
  rw [twoPow_eq, zpow_sub₀ (by norm_num), zpow_natCast, zpow_natCast]

theorem exponent_spec (q : ℚ) (hq : 0 < q) :
    twoPow (exponent q) ≤ q ∧ q < twoPow (exponent q + 1) := by
  have hnum : 0 < q.num := Rat.num_pos.2 hq
  have ha0 : q.num.natAbs ≠ 0 := by omega
  have hb0 : q.den ≠ 0 := q.den_nz
  have hcast : ((q.num.natAbs : Nat) : ℚ) = (q.num : ℚ) := by
    have h1 : ((q.num.natAbs : Nat) : Int) = q.num := Int.natAbs_of_nonneg (le_of_lt hnum)
    have h2 : (((q.num.natAbs : Nat) : Int) : ℚ) = (q.num : ℚ) := by rw [h1]
    rw [← h2]
    exact (Int.cast_natCast _).symm
  have hq' : q = ((q.num.natAbs : Nat) : ℚ) / ((q.den : Nat) : ℚ) := by
    rw [hcast]
    exact (Rat.num_div_den q).symm
  have la1 : 2 ^ Nat.log 2 q.num.natAbs ≤ q.num.natAbs := Nat.pow_log_le_self 2 ha0
  have la2 : q.num.natAbs < 2 ^ (Nat.log 2 q.num.natAbs + 1) :=
    Nat.lt_pow_succ_log_self (by norm_num) _
  have lb1 : 2 ^ Nat.log 2 q.den ≤ q.den := Nat.pow_log_le_self 2 hb0
  have lb2 : q.den < 2 ^ (Nat.log 2 q.den + 1) := Nat.lt_pow_succ_log_self (by norm_num) _
  have ra1 : (2 : ℚ) ^ Nat.log 2 q.num.natAbs ≤ (q.num.natAbs : ℚ) := by exact_mod_cast la1
  have ra2 : (q.num.natAbs : ℚ) < (2 : ℚ) ^ (Nat.log 2 q.num.natAbs + 1) := by
    exact_mod_cast la2
  have rb1 : (2 : ℚ) ^ Nat.log 2 q.den ≤ (q.den : ℚ) := by exact_mod_cast lb1
  have rb2 : (q.den : ℚ) < (2 : ℚ) ^ (Nat.log 2 q.den + 1) := by exact_mod_cast lb2
  have hbpos : (0 : ℚ) < (q.den : ℚ) := by exact_mod_cast Nat.pos_of_ne_zero hb0
  have hapos : (0 : ℚ) < (q.num.natAbs : ℚ) := by exact_mod_cast Nat.pos_of_ne_zero ha0
  have hpa : (0 : ℚ) < (2 : ℚ) ^ Nat.log 2 q.num.natAbs := by positivity
  have hpb : (0 : ℚ) < (2 : ℚ) ^ Nat.log 2 q.den := by positivity
  have hupper : q < twoPow ((Nat.log 2 q.num.natAbs : Int) - (Nat.log 2 q.den : Int) + 1) := by
    have e : ((Nat.log 2 q.num.natAbs : Int) - (Nat.log 2 q.den : Int) + 1)
        = (((Nat.log 2 q.num.natAbs + 1 : Nat) : Int) - (Nat.log 2 q.den : Int)) := by
      push_cast
      ring
    rw [e, twoPow_sub_natCast]
    conv_lhs => rw [hq']
    rw [div_lt_div_iff₀ hbpos hpb]
    calc (q.num.natAbs : ℚ) * (2 : ℚ) ^ Nat.log 2 q.den
        ≤ (q.num.natAbs : ℚ) * (q.den : ℚ) := mul_le_mul_of_nonneg_left rb1 (le_of_lt hapos)
      _ < (2 : ℚ) ^ (Nat.log 2 q.num.natAbs + 1) * (q.den : ℚ) :=
          mul_lt_mul_of_pos_right ra2 hbpos
  have hlower : twoPow ((Nat.log 2 q.num.natAbs : Int) - (Nat.log 2 q.den : Int) - 1) ≤ q := by
    have e : ((Nat.log 2 q.num.natAbs : Int) - (Nat.log 2 q.den : Int) - 1)
        = ((Nat.log 2 q.num.natAbs : Int) - ((Nat.log 2 q.den + 1 : Nat) : Int)) := by
      push_cast
      ring
    rw [e, twoPow_sub_natCast]
    conv_rhs => rw [hq']
    rw [div_le_div_iff₀ (by positivity) hbpos]
    calc (2 : ℚ) ^ Nat.log 2 q.num.natAbs * (q.den : ℚ)
        ≤ (q.num.natAbs : ℚ) * (q.den : ℚ) := mul_le_mul_of_nonneg_right ra1 (le_of_lt hbpos)
      _ ≤ (q.num.natAbs : ℚ) * (2 : ℚ) ^ (Nat.log 2 q.den + 1) :=
          mul_le_mul_of_nonneg_left (le_of_lt rb2) (le_of_lt hapos)
  unfold exponent
  rw [log2_eq, log2_eq]
  split_ifs with h
  · exact ⟨h, hupper⟩
  · refine ⟨hlower, ?_⟩
    rw [sub_add_cancel]
    exact not_le.1 h

theorem exponent_le_of_lt (q : ℚ) (hq : 0 < q) (e : Int) (h : q < twoPow (e + 1)) :
    exponent q ≤ e := by
  have h1 := (exponent_spec q hq).1
  have h2 : twoPow (exponent q) < twoPow (e + 1) := lt_of_le_of_lt h1 h
  have := twoPow_lt_twoPow_iff.1 h2
  omega

theorem le_exponent_of_le (q : ℚ) (hq : 0 < q) (e : Int) (h : twoPow e ≤ q) :
    e ≤ exponent q := by
  have h1 := (exponent_spec q hq).2
  have h2 : twoPow e < twoPow (exponent q + 1) := lt_of_le_of_lt h h1
  have := twoPow_lt_twoPow_iff.1 h2
  omega

theorem exponent_mono (q1 q2 : ℚ) (hq : 0 < q1) (h : q1 ≤ q2) : exponent q1 ≤ exponent q2 :=
  le_exponent_of_le q2 (lt_of_lt_of_le hq h) _ (le_trans (exponent_spec q1 hq).1 h)

theorem floor_le_roundHalfEven (x : ℚ) : ⌊x⌋ ≤ roundHalfEven x := by
  unfold roundHalfEven
  split_ifs <;> omega

theorem roundHalfEven_le_floor_add_one (x : ℚ) : roundHalfEven x ≤ ⌊x⌋ + 1 := by
  unfold roundHalfEven
  split_ifs <;> omega

theorem roundHalfEven_le (x : ℚ) (n : Int) (h : x ≤ (n : ℚ)) : roundHalfEven x ≤ n := by
  have hfl : ⌊x⌋ ≤ n := Int.floor_le_iff.2 (lt_of_le_of_lt h (by linarith))
  by_cases hx : x - ⌊x⌋ < 1 / 2
  · unfold roundHalfEven
    rw [if_pos hx]
    exact hfl
  · have hne : x ≠ (n : ℚ) := by
      intro e
      apply hx
      rw [e, Int.floor_intCast]
      norm_num
    have hlt : x < (n : ℚ) := lt_of_le_of_ne h hne
    have : ⌊x⌋ < n := Int.floor_lt.2 hlt
    have := roundHalfEven_le_floor_add_one x
    omega

theorem le_roundHalfEven (x : ℚ) (n : Int) (h : (n : ℚ) ≤ x) : n ≤ roundHalfEven x :=
  le_trans (Int.le_floor.2 h) (floor_le_roundHalfEven x)

theorem roundHalfEven_intCast (n : Int) : roundHalfEven (n : ℚ) = n :=
  le_antisymm (roundHalfEven_le _ n (le_refl _)) (le_roundHalfEven _ n (le_refl _))

theorem roundHalfEven_mono {x y : ℚ} (h : x ≤ y) : roundHalfEven x ≤ roundHalfEven y := by
  have hfl : ⌊x⌋ ≤ ⌊y⌋ := Int.floor_mono h
  rcases lt_or_eq_of_le hfl with hlt | heq
  · have h1 := roundHalfEven_le_floor_add_one x
    have h2 := floor_le_roundHalfEven y
    omega
  · have hfrac : x - ⌊x⌋ ≤ y - ⌊y⌋ := by
      rw [heq]
      linarith
    unfold roundHalfEven
    rw [heq]
    split_ifs <;> first | omega | (exfalso; linarith)

theorem quantum_pos (q : ℚ) : 0 < quantum q := twoPow_pos _

theorem roundMagnitude_zero : roundMagnitude 0 = 0 := by
  unfold roundMagnitude
  rw [zero_div]
  have := roundHalfEven_intCast 0
  rw [Int.cast_zero] at this
  rw [this, Int.cast_zero, zero_mul]

theorem roundMagnitude_nonneg (q : ℚ) (hq : 0 ≤ q) : 0 ≤ roundMagnitude q := by
  unfold roundMagnitude
  have h1 : (0 : Int) ≤ roundHalfEven (q / quantum q) :=
    le_roundHalfEven _ 0 (by rw [Int.cast_zero]; exact div_nonneg hq (le_of_lt (quantum_pos q)))
  have h2 : (0 : ℚ) ≤ (roundHalfEven (q / quantum q) : ℚ) := by exact_mod_cast h1
  exact mul_nonneg h2 (le_of_lt (quantum_pos q))

theorem twoPow_mul_quantum (q : ℚ) (k : Int) :
    twoPow k * quantum q = twoPow (k + (max (exponent q) (-1022) - 52)) := by
  unfold quantum
  rw [twoPow_add]

theorem twoPow_intCast (k : Nat) : (((2 : Int) ^ k : Int) : ℚ) = twoPow (k : Int) := by
  rw [twoPow_natCast]
  push_cast
  rfl

/-- The rounded magnitude of a positive rational is at most the top of its binade. -/
theorem roundMagnitude_le_top (q : ℚ) (hq : 0 < q) :
    roundMagnitude q ≤ twoPow (max (exponent q) (-1022) + 1) := by
  have hlt : q < twoPow (max (exponent q) (-1022) + 1) :=
    lt_of_lt_of_le (exponent_spec q hq).2 (twoPow_le_twoPow (by omega))
  have e : twoPow (max (exponent q) (-1022) + 1) = twoPow ((53 : Nat) : Int) * quantum q := by
    rw [twoPow_mul_quantum]
    congr 1
    push_cast
    ring
  rw [e]
  unfold roundMagnitude
  have h1 : q / quantum q ≤ (((2 : Int) ^ 53 : Int) : ℚ) := by
    rw [twoPow_intCast, div_le_iff₀ (quantum_pos q), ← e]
    exact le_of_lt hlt
  have h2 := roundHalfEven_le _ _ h1
  have h3 : (roundHalfEven (q / quantum q) : ℚ) ≤ (((2 : Int) ^ 53 : Int) : ℚ) := by
    exact_mod_cast h2
  rw [twoPow_intCast] at h3
  exact mul_le_mul_of_nonneg_right h3 (le_of_lt (quantum_pos q))

/-- The rounded magnitude of a normal positive rational is at least the bottom of its
binade. -/
theorem bottom_le_roundMagnitude (q : ℚ) (hq : 0 < q) (hn : -1022 ≤ exponent q) :
    twoPow (exponent q) ≤ roundMagnitude q := by
  have hmax : max (exponent q) (-1022) = exponent q := max_eq_left hn
  have e : twoPow (exponent q) = twoPow ((52 : Nat) : Int) * quantum q := by
    rw [twoPow_mul_quantum, hmax]
    congr 1
    push_cast
    ring
  rw [e]
  unfold roundMagnitude
  have h1 : (((2 : Int) ^ 52 : Int) : ℚ) ≤ q / quantum q := by
    rw [twoPow_intCast, le_div_iff₀ (quantum_pos q), ← e]
    exact (exponent_spec q hq).1
  have h2 := le_roundHalfEven _ _ h1
  have h3 : (((2 : Int) ^ 52 : Int) : ℚ) ≤ (roundHalfEven (q / quantum q) : ℚ) := by
    exact_mod_cast h2
  rw [twoPow_intCast] at h3
  exact mul_le_mul_of_nonneg_right h3 (le_of_lt (quantum_pos q))

theorem roundMagnitude_mono (q1 q2 : ℚ) (hq : 0 < q1) (h : q1 ≤ q2) :
    roundMagnitude q1 ≤ roundMagnitude q2 := by
  have hq2 : 0 < q2 := lt_of_lt_of_le hq h
  have hexp := exponent_mono q1 q2 hq h
  by_cases hE : max (exponent q1) (-1022) = max (exponent q2) (-1022)
  · have hquant : quantum q1 = quantum q2 := by
      unfold quantum
      rw [hE]
    unfold roundMagnitude
    rw [hquant]
    have h1 : q1 / quantum q2 ≤ q2 / quantum q2 :=
      div_le_div_of_nonneg_right h (le_of_lt (quantum_pos q2))
    have h2 := roundHalfEven_mono h1
    have h3 : (roundHalfEven (q1 / quantum q2) : ℚ) ≤ (roundHalfEven (q2 / quantum q2) : ℚ) := by
      exact_mod_cast h2
    exact mul_le_mul_of_nonneg_right h3 (le_of_lt (quantum_pos q2))
  · have hlt : max (exponent q1) (-1022) < exponent q2 := by
      rcases le_total (exponent q2) (-1022) with h2 | h2
      · exfalso
        apply hE
        rw [max_eq_right h2, max_eq_right (le_trans hexp h2)]
      · rcases lt_or_eq_of_le (max_le hexp h2) with h3 | h3
        · exact h3
        · exfalso
          apply hE
          rw [h3, max_eq_left h2]
    have hn : -1022 ≤ exponent q2 := by
      have := le_max_right (exponent q1) (-1022)
      omega
    calc roundMagnitude q1 ≤ twoPow (max (exponent q1) (-1022) + 1) := roundMagnitude_le_top q1 hq
      _ ≤ twoPow (exponent q2) := twoPow_le_twoPow (by omega)
      _ ≤ roundMagnitude q2 := bottom_le_roundMagnitude q2 hq2 hn

theorem roundValue_mono {q1 q2 : ℚ} (h : q1 ≤ q2) : roundValue q1 ≤ roundValue q2 := by
  unfold roundValue
  by_cases h1 : 0 ≤ q1
  · have h2 : 0 ≤ q2 := le_trans h1 h
    rw [if_pos h1, if_pos h2]
    rcases lt_or_eq_of_le h1 with h3 | h3
    · exact roundMagnitude_mono q1 q2 h3 h
    · rw [← h3, roundMagnitude_zero]
      exact roundMagnitude_nonneg q2 h2
  · rw [if_neg h1]
    have h1' : 0 < -q1 := by linarith
    by_cases h2 : 0 ≤ q2
    · rw [if_pos h2]
      have a := roundMagnitude_nonneg (-q1) (le_of_lt h1')
      have b := roundMagnitude_nonneg q2 h2
      linarith
    · rw [if_neg h2]
      have h2' : 0 < -q2 := by linarith
      have := roundMagnitude_mono (-q2) (-q1) h2' (by linarith)
      linarith

/-- A positive multiple of a power of two with at most 53 significant bits, not below the
least subnormal, rounds to itself. -/
theorem roundMagnitude_of_dyadic (m : Nat) (j : Int) (hj : -1074 ≤ j)
    (hlt : (m : ℚ) * twoPow j < twoPow (j + 53)) :
    roundMagnitude ((m : ℚ) * twoPow j) = (m : ℚ) * twoPow j := by
  rcases Nat.eq_zero_or_pos m with h0 | hpos
  · subst h0
    rw [Nat.cast_zero, zero_mul]
    exact roundMagnitude_zero
  · have hv : 0 < (m : ℚ) * twoPow j :=
      mul_pos (by exact_mod_cast hpos) (twoPow_pos j)
    have hexp : exponent ((m : ℚ) * twoPow j) ≤ j + 52 :=
      exponent_le_of_lt _ hv _ (by rw [show j + 52 + 1 = j + 53 by ring]; exact hlt)
    have hE : max (exponent ((m : ℚ) * twoPow j)) (-1022) ≤ j + 52 := max_le hexp (by omega)
    obtain ⟨k, hk⟩ := Int.eq_ofNat_of_zero_le
      (show 0 ≤ j + 52 - max (exponent ((m : ℚ) * twoPow j)) (-1022) by omega)
    have hj2 : j = (k : Int) + (max (exponent ((m : ℚ) * twoPow j)) (-1022) - 52) := by omega
    have hq : (m : ℚ) * twoPow j
        = (((m : Int) * (2 : Int) ^ k : Int) : ℚ) * quantum ((m : ℚ) * twoPow j) := by
      have e1 : twoPow j = twoPow (k : Int) * quantum ((m : ℚ) * twoPow j) := by
        rw [twoPow_mul_quantum]
        exact congrArg twoPow hj2
      conv_lhs => rw [e1]
      rw [twoPow_natCast]
      push_cast
      ring
    unfold roundMagnitude
    have hdiv : (m : ℚ) * twoPow j / quantum ((m : ℚ) * twoPow j)
        = (((m : Int) * (2 : Int) ^ k : Int) : ℚ) := by
      rw [div_eq_iff (ne_of_gt (quantum_pos _))]
      exact hq
    rw [hdiv, roundHalfEven_intCast]
    exact hq.symm

theorem roundMagnitude_idem (q : ℚ) (hq : 0 ≤ q) :
    roundMagnitude (roundMagnitude q) = roundMagnitude q := by
  rcases lt_or_eq_of_le hq with hpos | h0
  · have htop := roundMagnitude_le_top q hpos
    have hk : (0 : Int) ≤ roundHalfEven (q / quantum q) :=
      le_roundHalfEven _ 0
        (by rw [Int.cast_zero]; exact div_nonneg hq (le_of_lt (quantum_pos q)))
    obtain ⟨m, hm⟩ := Int.eq_ofNat_of_zero_le hk
    have hform : roundMagnitude q = (m : ℚ) * twoPow (max (exponent q) (-1022) - 52) := by
      unfold roundMagnitude
      rw [hm]
      unfold quantum
      norm_cast
    rcases lt_or_eq_of_le htop with hlt | heq
    · rw [hform]
      apply roundMagnitude_of_dyadic m _ (by have := le_max_right (exponent q) (-1022); omega)
      rw [← hform, show max (exponent q) (-1022) - 52 + 53 = max (exponent q) (-1022) + 1 by ring]
      exact hlt
    · rw [heq]
      have := roundMagnitude_of_dyadic 1 (max (exponent q) (-1022) + 1)
        (by have := le_max_right (exponent q) (-1022); omega)
        (by rw [Nat.cast_one, one_mul]; exact twoPow_lt_twoPow_iff.2 (by omega))
      rw [Nat.cast_one, one_mul] at this
      exact this
  · rw [← h0, roundMagnitude_zero, roundMagnitude_zero]

theorem roundValue_idem (q : ℚ) : roundValue (roundValue q) = roundValue q := by
  by_cases h : 0 ≤ q
  · have h1 : roundValue q = roundMagnitude q := by
      unfold roundValue
      rw [if_pos h]
    rw [h1]
    unfold roundValue
    rw [if_pos (roundMagnitude_nonneg q h), roundMagnitude_idem q h]
  · have hneg : 0 ≤ -q := by linarith
    have h1 : roundValue q = -roundMagnitude (-q) := by
      unfold roundValue
      rw [if_neg h]
    rw [h1]
    rcases lt_or_eq_of_le (roundMagnitude_nonneg (-q) hneg) with hpos | h0
    · unfold roundValue
      rw [if_neg (by linarith), neg_neg, roundMagnitude_idem (-q) hneg]
    · rw [← h0]
      unfold roundValue
      rw [neg_zero, if_pos (le_refl _), roundMagnitude_zero]

theorem roundValue_zero : roundValue 0 = 0 := by
  unfold roundValue
  rw [if_pos (le_refl _), roundMagnitude_zero]

theorem roundValue_nonneg {q : ℚ} (h : 0 ≤ q) : 0 ≤ roundValue q := by
  have := roundValue_mono h
  rwa [roundValue_zero] at this

theorem roundValue_nonpos {q : ℚ} (h : q ≤ 0) : roundValue q ≤ 0 := by
  have := roundValue_mono h
  rwa [roundValue_zero] at this

theorem round_eq_finite_iff (q v : ℚ) :
    round q = finite v ↔
      (roundValue q = v ∧ roundValue q < twoPow 1024 ∧ -twoPow 1024 < roundValue q) := by
  unfold round
  split_ifs with h1 h2
  · constructor
    · intro h
      cases h
    · rintro ⟨_, h, _⟩
      exact absurd h1 (not_le.2 h)
  · constructor
    · intro h
      cases h
    · rintro ⟨_, _, h⟩
      exact absurd h2 (not_le.2 h)
  · constructor
    · intro h
      injection h with h
      exact ⟨h, not_le.1 h1, not_le.1 h2⟩
    · rintro ⟨h, _, _⟩
      rw [h]

theorem round_idem {q v : ℚ} (h : round q = finite v) : round v = finite v := by
  obtain ⟨h1, h2, h3⟩ := (round_eq_finite_iff q v).1 h
  have e : roundValue v = v := by
    rw [← h1]
    exact roundValue_idem q
  refine (round_eq_finite_iff v v).2 ⟨e, ?_, ?_⟩
  · rw [e, ← h1]
    exact h2
  · rw [e, ← h1]
    exact h3

theorem round_zero : round 0 = finite 0 :=
  (round_eq_finite_iff 0 0).2 ⟨roundValue_zero, by rw [roundValue_zero]; exact twoPow_pos _,
    by rw [roundValue_zero]; linarith [twoPow_pos 1024]⟩

/-- Rounding between two rationals that round to finite doubles gives a finite double between
those two. -/
theorem round_between {q lo hi vlo vhi : ℚ} (h1 : lo ≤ q) (h2 : q ≤ hi)
    (hlo : round lo = finite vlo) (hhi : round hi = finite vhi) :
    ∃ v, round q = finite v ∧ vlo ≤ v ∧ v ≤ vhi ∧ round v = finite v := by
  obtain ⟨a1, _, a3⟩ := (round_eq_finite_iff lo vlo).1 hlo
  obtain ⟨b1, b2, _⟩ := (round_eq_finite_iff hi vhi).1 hhi
  have m1 := roundValue_mono h1
  have m2 := roundValue_mono h2
  have hq : round q = finite (roundValue q) :=
    (round_eq_finite_iff q _).2 ⟨rfl, lt_of_le_of_lt m2 b2, lt_of_lt_of_le a3 m1⟩
  exact ⟨roundValue q, hq, by rw [← a1]; exact m1, by rw [← b1]; exact m2, round_idem hq⟩

end Double

namespace Double

theorem zero_eq : (0 : Double) = finite 0 := by decide!

theorem one_eq : (1 : Double) = finite 1 := by decide!

theorem hundred_eq : (100 : Double) = finite 100 := by decide!

theorem le_def (a b : Double) : a ≤ b ↔ le a b = true := Iff.rfl

theorem lt_def (a b : Double) : a < b ↔ lt a b = true := Iff.rfl

theorem finite_le_finite {a b : ℚ} : finite a ≤ finite b ↔ a ≤ b := by
  rw [le_def]
  simp [le]

theorem finite_lt_finite {a b : ℚ} : finite a < finite b ↔ a < b := by
  rw [lt_def]
  simp [lt]

theorem finite_le_posInf (a : ℚ) : finite a ≤ posInf := by
  rw [le_def]
  rfl

theorem posInf_le_posInf : posInf ≤ posInf := by
  rw [le_def]
  rfl

theorem trans_le {a b c : Double} (h1 : a ≤ b) (h2 : b ≤ c) : a ≤ c := by
  rw [le_def] at *
  cases a <;> cases b <;> cases c <;> simp [le] at *
  exact le_trans h1 h2

theorem round_mono {q1 q2 : ℚ} (h : q1 ≤ q2) : round q1 ≤ round q2 := by
  have hv := roundValue_mono h
  have hp := twoPow_pos 1024
  rw [le_def]
  unfold round
  split_ifs <;> simp only [le, decide_eq_true_eq]
  all_goals linarith

theorem round_isWeight {q : ℚ} (h : 0 ≤ q) : IsWeight (round q) := by
  have hv := roundValue_nonneg h
  have hp := twoPow_pos 1024
  by_cases h1 : twoPow 1024 ≤ roundValue q
  · left
    unfold round
    rw [if_pos h1]
  · right
    have hq : round q = finite (roundValue q) := by
      unfold round
      rw [if_neg h1, if_neg (by linarith)]
    exact ⟨roundValue q, hq, hv, round_idem hq⟩

theorem zero_isWeight : IsWeight 0 := by
  right
  exact ⟨0, zero_eq, le_refl _, round_zero⟩

theorem stdMax_zero_round (w : ℚ) :
    stdMax 0 (round w) = if 0 < w then round w else 0 := by
  unfold stdMax
  rw [zero_eq]
  by_cases h : 0 < w
  · rw [if_pos h]
    have hw := round_isWeight (le_of_lt h)
    rcases hw with hinf | ⟨v, hv, h0, _⟩
    · rw [hinf]
      rfl
    · by_cases hlt : finite 0 < round w
      · rw [if_pos hlt]
      · rw [if_neg hlt]
        rw [hv] at hlt ⊢
        rw [finite_lt_finite] at hlt
        have : v = 0 := le_antisymm (not_lt.1 hlt) h0
        rw [this]
  · rw [if_neg h]
    have hle := round_mono (not_lt.1 h)
    rw [round_zero] at hle
    have hn : ¬ finite 0 < round w := by
      intro hlt
      rw [le_def] at hle
      rw [lt_def] at hlt
      cases hr : round w with
      | nan => rw [hr] at hlt; simp [lt] at hlt
      | negInf => rw [hr] at hlt; simp [lt] at hlt
      | posInf => rw [hr] at hle; simp [le] at hle
      | finite v =>
        rw [hr] at hlt hle
        simp [lt] at hlt
        simp [le] at hle
        linarith
    rw [if_neg hn]

theorem stdMax_isWeight (w : ℚ) : IsWeight (stdMax 0 (round w)) := by
  rw [stdMax_zero_round]
  split_ifs with h
  · exact round_isWeight (le_of_lt h)
  · exact zero_isWeight

theorem add_isWeight {a b : Double} (ha : IsWeight a) (hb : IsWeight b) : IsWeight (a + b) := by
  rcases ha with ha | ⟨x, ha, hx, _⟩ <;> rcases hb with hb | ⟨y, hb, hy, _⟩
  · left
    rw [ha, hb]
    rfl
  · left
    rw [ha, hb]
    rfl
  · left
    rw [ha, hb]
    rfl
  · rw [ha, hb]
    exact round_isWeight (add_nonneg hx hy)

theorem isWeight_le_refl {a : Double} (ha : IsWeight a) : a ≤ a := by
  rcases ha with ha | ⟨x, ha, _, _⟩
  · rw [ha]
    exact posInf_le_posInf
  · rw [ha]
    exact finite_le_finite.2 (le_refl x)

theorem le_add_right {a b : Double} (ha : IsWeight a) (hb : IsWeight b) : a ≤ a + b := by
  rcases ha with ha | ⟨x, ha, hx, hrx⟩ <;> rcases hb with hb | ⟨y, hb, hy, _⟩
  · rw [ha, hb]
    exact posInf_le_posInf
  · rw [ha, hb]
    exact posInf_le_posInf
  · rw [ha, hb]
    exact finite_le_posInf x
  · rw [ha, hb]
    have := round_mono (show x ≤ x + y by linarith)
    rw [hrx] at this
    exact this

theorem add_le_add_right {a b c : Double} (ha : IsWeight a) (hb : IsWeight b)
    (hc : IsWeight c) (h : a ≤ b) : a + c ≤ b + c := by
  rcases ha with ha | ⟨x, ha, hx, _⟩ <;> rcases hb with hb | ⟨y, hb, hy, _⟩ <;>
    rcases hc with hc | ⟨z, hc, hz, _⟩
  · rw [ha, hb, hc]
    exact posInf_le_posInf
  · rw [ha, hb, hc]
    exact posInf_le_posInf
  · rw [ha, hb] at h
    rw [le_def] at h
    simp [le] at h
  · rw [ha, hb] at h
    rw [le_def] at h
    simp [le] at h
  · rw [ha, hb, hc]
    exact posInf_le_posInf
  · rw [ha, hb, hc]
    have hw := round_isWeight (add_nonneg hx hz)
    rcases hw with hw | ⟨v, hw, _, _⟩
    · show round (x + z) ≤ posInf
      rw [hw]
      exact posInf_le_posInf
    · show round (x + z) ≤ posInf
      rw [hw]
      exact finite_le_posInf v
  · rw [ha, hb, hc]
    exact posInf_le_posInf
  · rw [ha, hb, hc]
    rw [ha, hb, finite_le_finite] at h
    exact round_mono (by linarith)

theorem add_zero_of_isWeight {a : Double} (ha : IsWeight a) : a + 0 = a := by
  rw [zero_eq]
  rcases ha with ha | ⟨x, ha, _, hrx⟩
  · rw [ha]
    rfl
  · rw [ha]
    show round (x + 0) = finite x
    rw [add_zero]
    exact hrx

theorem round_one : round 1 = finite 1 := by decide!

theorem round_hundred : round 100 = finite 100 := by decide!

theorem finite_div_finite (a b : ℚ) (hb : b ≠ 0) : finite a / finite b = round (a / b) := by
  show div (finite a) (finite b) = round (a / b)
  simp only [div, if_neg hb]

theorem finite_mul_finite (a b : ℚ) : finite a * finite b = round (a * b) := rfl

theorem finite_add_finite (a b : ℚ) : finite a + finite b = round (a + b) := rfl

theorem round_ne_nan (q : ℚ) : round q ≠ nan := by
  unfold round
  split_ifs <;> simp

theorem negInf_le {x : Double} (h : x ≠ nan) : negInf ≤ x := by
  rw [le_def]
  cases x <;> simp [le] at *

theorem le_posInf {x : Double} (h : x ≠ nan) : x ≤ posInf := by
  rw [le_def]
  cases x <;> simp [le] at *

theorem not_nan_le (x : Double) : ¬ nan ≤ x := by
  rw [le_def]
  cases x <;> simp [le]

theorem not_le_nan (x : Double) : ¬ x ≤ nan := by
  rw [le_def]
  cases x <;> simp [le]

/-- Division by a positive finite constant is monotone. -/
theorem div_const_mono {a b : Double} (c : ℚ) (hc : 0 < c) (h : a ≤ b) :
    a / finite c ≤ b / finite c := by
  have hc0 : c ≠ 0 := ne_of_gt hc
  cases a with
  | nan => exact absurd h (not_nan_le b)
  | negInf =>
    have e : (negInf : Double) / finite c = negInf := by
      show div negInf (finite c) = negInf
      simp only [div, if_pos (le_of_lt hc)]
    rw [e]
    apply negInf_le
    cases b with
    | nan => exact absurd h (not_le_nan _)
    | negInf => rw [e]; simp
    | finite y => rw [finite_div_finite y c hc0]; exact round_ne_nan _
    | posInf =>
      show div posInf (finite c) ≠ nan
      simp only [div, if_pos (le_of_lt hc)]
      simp
  | finite x =>
    rw [finite_div_finite x c hc0]
    cases b with
    | nan => exact absurd h (not_le_nan _)
    | negInf => rw [le_def] at h; simp [le] at h
    | finite y =>
      rw [finite_div_finite y c hc0]
      exact round_mono (div_le_div_of_nonneg_right (finite_le_finite.1 h) (le_of_lt hc))
    | posInf =>
      have e : (posInf : Double) / finite c = posInf := by
        show div posInf (finite c) = posInf
        simp only [div, if_pos (le_of_lt hc)]
      rw [e]
      exact le_posInf (round_ne_nan _)
  | posInf =>
    cases b with
    | nan => exact absurd h (not_le_nan _)
    | negInf => rw [le_def] at h; simp [le] at h
    | finite y => rw [le_def] at h; simp [le] at h
    | posInf =>
      have e : (posInf : Double) / finite c = posInf := by
        show div posInf (finite c) = posInf
        simp only [div, if_pos (le_of_lt hc)]
      rw [e]
      exact posInf_le_posInf

/-- Multiplication by a positive finite constant is monotone. -/
theorem mul_const_mono {a b : Double} (c : ℚ) (hc : 0 < c) (h : a ≤ b) :
    a * finite c ≤ b * finite c := by
  have e1 : (negInf : Double) * finite c = negInf := by
    show mul negInf (finite c) = negInf
    simp only [mul, if_pos hc]
  have e2 : (posInf : Double) * finite c = posInf := by
    show mul posInf (finite c) = posInf
    simp only [mul, if_pos hc]
  cases a with
  | nan => exact absurd h (not_nan_le b)
  | negInf =>
    rw [e1]
    apply negInf_le
    cases b with
    | nan => exact absurd h (not_le_nan _)
    | negInf => rw [e1]; simp
    | finite y => rw [finite_mul_finite]; exact round_ne_nan _
    | posInf => rw [e2]; simp
  | finite x =>
    rw [finite_mul_finite]
    cases b with
    | nan => exact absurd h (not_le_nan _)
    | negInf => rw [le_def] at h; simp [le] at h
    | finite y =>
      rw [finite_mul_finite]
      exact round_mono (mul_le_mul_of_nonneg_right (finite_le_finite.1 h) (le_of_lt hc))
    | posInf =>
      rw [e2]
      exact le_posInf (round_ne_nan _)
  | posInf =>
    cases b with
    | nan => exact absurd h (not_le_nan _)
    | negInf => rw [le_def] at h; simp [le] at h
    | finite y => rw [le_def] at h; simp [le] at h
    | posInf => rw [e2]; exact posInf_le_posInf

/-- Adding to a finite constant is monotone. -/
theorem const_add_mono {a b : Double} (c : ℚ) (h : a ≤ b) : finite c + a ≤ finite c + b := by
  have e1 : finite c + negInf = negInf := rfl
  have e2 : finite c + posInf = posInf := rfl
  cases a with
  | nan => exact absurd h (not_nan_le b)
  | negInf =>
    rw [e1]
    apply negInf_le
    cases b with
    | nan => exact absurd h (not_le_nan _)
    | negInf => rw [e1]; simp
    | finite y => rw [finite_add_finite]; exact round_ne_nan _
    | posInf => rw [e2]; simp
  | finite x =>
    rw [finite_add_finite]
    cases b with
    | nan => exact absurd h (not_le_nan _)
    | negInf => rw [le_def] at h; simp [le] at h
    | finite y =>
      rw [finite_add_finite]
      exact round_mono (by linarith [finite_le_finite.1 h])
    | posInf =>
      rw [e2]
      exact le_posInf (round_ne_nan _)
  | posInf =>
    cases b with
    | nan => exact absurd h (not_le_nan _)
    | negInf => rw [le_def] at h; simp [le] at h
    | finite y => rw [le_def] at h; simp [le] at h
    | posInf => rw [e2]; exact posInf_le_posInf

theorem isWeight_nonneg {a : Double} (ha : IsWeight a) : 0 ≤ a := by
  rw [zero_eq]
  rcases ha with ha | ⟨x, ha, hx, _⟩
  · rw [ha]
    exact finite_le_posInf 0
  · rw [ha]
    exact finite_le_finite.2 hx

theorem isWeight_pos_of_not_le {a : Double} (ha : IsWeight a) (h : ¬ a ≤ 0) : 0 < a := by
  rw [zero_eq] at *
  rcases ha with ha | ⟨x, ha, hx, _⟩
  · rw [ha]
    rfl
  · rw [ha] at h ⊢
    rw [finite_le_finite] at h
    exact finite_lt_finite.2 (not_le.1 h)

theorem seven_twenty_eq : (720 : Double) = finite 720 := by decide!

theorem three_sixty_eq : (360 : Double) = finite 360 := by decide!

theorem neg_ninety_eq : (-90 : Double) = finite (-90) := by decide!

theorem sixty_eq : (60 : Double) = finite 60 := by decide!

theorem sixteen_eq : (16 : Double) = finite 16 := by decide!

theorem round_between_of {q lo hi vlo vhi : ℚ} (h1 : lo ≤ q) (h2 : q ≤ hi)
    (hlo : round lo = finite vlo) (hhi : round hi = finite vhi) :
    Between (round q) vlo vhi := by
  obtain ⟨v, hv, a, b, _⟩ := round_between h1 h2 hlo hhi
  exact ⟨v, hv, a, b⟩

theorem ofInt_between (lo hi : Int) {n : Int} {vlo vhi : ℚ} (h1 : lo ≤ n) (h2 : n ≤ hi)
    (hlo : round lo = finite vlo) (hhi : round hi = finite vhi) :
    Between (ofInt n) vlo vhi :=
  round_between_of (by exact_mod_cast h1) (by exact_mod_cast h2) hlo hhi

theorem div_between {x : Double} {lo hi : ℚ} (c : ℚ) {vlo vhi : ℚ} (hc : 0 < c)
    (hx : Between x lo hi) (hlo : round (lo / c) = finite vlo)
    (hhi : round (hi / c) = finite vhi) : Between (x / finite c) vlo vhi := by
  obtain ⟨a, ha, h1, h2⟩ := hx
  rw [ha, finite_div_finite a c (ne_of_gt hc)]
  exact round_between_of (div_le_div_of_nonneg_right h1 (le_of_lt hc))
    (div_le_div_of_nonneg_right h2 (le_of_lt hc)) hlo hhi

theorem mul_between {x : Double} {lo hi : ℚ} (c : ℚ) {vlo vhi : ℚ} (hc : 0 < c)
    (hx : Between x lo hi) (hlo : round (lo * c) = finite vlo)
    (hhi : round (hi * c) = finite vhi) : Between (x * finite c) vlo vhi := by
  obtain ⟨a, ha, h1, h2⟩ := hx
  rw [ha, finite_mul_finite]
  exact round_between_of (mul_le_mul_of_nonneg_right h1 (le_of_lt hc))
    (mul_le_mul_of_nonneg_right h2 (le_of_lt hc)) hlo hhi

theorem add_between {x : Double} {lo hi : ℚ} (c : ℚ) {vlo vhi : ℚ}
    (hx : Between x lo hi) (hlo : round (c + lo) = finite vlo)
    (hhi : round (c + hi) = finite vhi) : Between (finite c + x) vlo vhi := by
  obtain ⟨a, ha, h1, h2⟩ := hx
  rw [ha, finite_add_finite]
  exact round_between_of (by linarith) (by linarith) hlo hhi

theorem neg_between {x : Double} {lo hi : ℚ} (hx : Between x lo hi) :
    Between (-x) (-hi) (-lo) := by
  obtain ⟨a, ha, h1, h2⟩ := hx
  exact ⟨-a, by rw [ha]; rfl, by linarith, by linarith⟩

theorem Between.le_finite {x : Double} {lo hi : ℚ} (hx : Between x lo hi) : x ≤ finite hi := by
  obtain ⟨a, ha, _, h2⟩ := hx
  rw [ha]
  exact finite_le_finite.2 h2

theorem Between.finite_le {x : Double} {lo hi : ℚ} (hx : Between x lo hi) : finite lo ≤ x := by
  obtain ⟨a, ha, h1, _⟩ := hx
  rw [ha]
  exact finite_le_finite.2 h1

theorem Between.lt_finite {x : Double} {lo hi c : ℚ} (hx : Between x lo hi) (h : hi < c) :
    x < finite c := by
  obtain ⟨a, ha, _, h2⟩ := hx
  rw [ha]
  exact finite_lt_finite.2 (lt_of_le_of_lt h2 h)

theorem Between.finite_lt {x : Double} {lo hi c : ℚ} (hx : Between x lo hi) (h : c < lo) :
    finite c < x := by
  obtain ⟨a, ha, h1, _⟩ := hx
  rw [ha]
  exact finite_lt_finite.2 (lt_of_lt_of_le h h1)

theorem abs_roundHalfEven_sub_le (x : ℚ) : |(roundHalfEven x : ℚ) - x| ≤ 1 / 2 := by
  have h1 : (⌊x⌋ : ℚ) ≤ x := Int.floor_le x
  have h2 : x < (⌊x⌋ : ℚ) + 1 := Int.lt_floor_add_one x
  rw [abs_le]
  unfold roundHalfEven
  split_ifs with a b c
  · constructor <;> linarith
  · push_cast
    constructor <;> linarith
  · constructor <;> linarith
  · push_cast
    constructor <;> linarith

theorem abs_roundMagnitude_sub_le (q : ℚ) (hq : 0 < q) (k : Int) (hk : -1022 ≤ k)
    (hlt : q < twoPow (k + 1)) : |roundMagnitude q - q| ≤ twoPow (k - 53) := by
  have hexp : exponent q ≤ k := exponent_le_of_lt q hq k hlt
  have hE : max (exponent q) (-1022) ≤ k := max_le hexp hk
  have hquant : quantum q ≤ twoPow (k - 52) := twoPow_le_twoPow (by omega)
  have hpos := quantum_pos q
  have e : roundMagnitude q - q
      = ((roundHalfEven (q / quantum q) : ℚ) - q / quantum q) * quantum q := by
    unfold roundMagnitude
    field_simp
  have h2 : twoPow (k - 52) = 2 * twoPow (k - 53) := by
    rw [show k - 52 = 1 + (k - 53) by ring, twoPow_add]
    congr 1
  rw [e, abs_mul, abs_of_pos hpos]
  have h3 := abs_roundHalfEven_sub_le (q / quantum q)
  calc |(roundHalfEven (q / quantum q) : ℚ) - q / quantum q| * quantum q
      ≤ 1 / 2 * quantum q := mul_le_mul_of_nonneg_right h3 (le_of_lt hpos)
    _ ≤ 1 / 2 * twoPow (k - 52) := mul_le_mul_of_nonneg_left hquant (by norm_num)
    _ = twoPow (k - 53) := by rw [h2]; ring

theorem abs_roundValue_sub_le (q : ℚ) (k : Int) (hk : -1022 ≤ k) (hlt : |q| < twoPow (k + 1)) :
    |roundValue q - q| ≤ twoPow (k - 53) := by
  rcases lt_trichotomy q 0 with hneg | h0 | hpos
  · have e : roundValue q = -roundMagnitude (-q) := by
      unfold roundValue
      rw [if_neg (not_le.2 hneg)]
    rw [abs_of_neg hneg] at hlt
    have := abs_roundMagnitude_sub_le (-q) (by linarith) k hk hlt
    rw [e, show -roundMagnitude (-q) - q = -(roundMagnitude (-q) - -q) by ring, abs_neg]
    exact this
  · rw [h0, roundValue_zero, sub_zero, abs_zero]
    exact le_of_lt (twoPow_pos _)
  · have e : roundValue q = roundMagnitude q := by
      unfold roundValue
      rw [if_pos (le_of_lt hpos)]
    rw [abs_of_pos hpos] at hlt
    rw [e]
    exact abs_roundMagnitude_sub_le q hpos k hk hlt

/-- A finite result of rounding a rational below `2 ^ (k + 1)` in absolute value is within
`2 ^ (k - 53)`, half the spacing of the doubles of that size, of the rational. -/
theorem round_error {q v : ℚ} (h : round q = finite v) (k : Int) (hk : -1022 ≤ k)
    (hlt : |q| < twoPow (k + 1)) : |v - q| ≤ twoPow (k - 53) := by
  obtain ⟨h1, _, _⟩ := (round_eq_finite_iff q v).1 h
  rw [← h1]
  exact abs_roundValue_sub_le q k hk hlt

theorem twoPow_values :
    twoPow 1 = 2 ∧ twoPow 2 = 4 ∧ twoPow 7 = 128 ∧ twoPow 10 = 1024 ∧
    twoPow (-53) = 1 / 2 ^ 53 ∧ twoPow (-52) = 1 / 2 ^ 52 ∧ twoPow (-47) = 1 / 2 ^ 47 ∧
    twoPow (-44) = 1 / 2 ^ 44 := by
  decide!

theorem round_of_between {q lo hi vlo vhi : ℚ} (h1 : lo ≤ q) (h2 : q ≤ hi)
    (hlo : round lo = finite vlo) (hhi : round hi = finite vhi) (k : Int) (hk : -1022 ≤ k)
    (hlt : |q| < twoPow (k + 1)) :
    ∃ v, round q = finite v ∧ vlo ≤ v ∧ v ≤ vhi ∧ |v - q| ≤ twoPow (k - 53) := by
  obtain ⟨v, hv, a, b, _⟩ := round_between h1 h2 hlo hhi
  exact ⟨v, hv, a, b, round_error hv k hk hlt⟩

/-- Closed checks of `round` against the doubles of IEEE 754 binary64: the double nearest to
1/10; the largest finite double `2 ^ 1024 - 2 ^ 971`, the least number that overflows and the
number before it; the least subnormal `2 ^ (-1074)` and the ties on either side of it, which
go to the even neighbour; and the ties above `2 ^ 53`. -/
theorem round_checks :
    round (1 / 10) = finite (3602879701896397 / 36028797018963968) ∧
    round (2 ^ 1024 - 2 ^ 971) = finite (2 ^ 1024 - 2 ^ 971) ∧
    round (2 ^ 1024 - 2 ^ 970) = posInf ∧
    round (2 ^ 1024 - 2 ^ 970 - 1) = finite (2 ^ 1024 - 2 ^ 971) ∧
    round (-(2 ^ 1024 - 2 ^ 970)) = negInf ∧
    round (1 / 2 ^ 1074) = finite (1 / 2 ^ 1074) ∧
    round (1 / 2 ^ 1075) = finite 0 ∧
    round (3 / 2 ^ 1075) = finite (2 / 2 ^ 1074) ∧
    round (2 ^ 53 + 1) = finite (2 ^ 53) ∧
    round (2 ^ 53 + 3) = finite (2 ^ 53 + 4) ∧
    (85 : Double) / 100 = finite (7656119366529843 / 9007199254740992) ∧
    (3 : Double) / 10 = finite (5404319552844595 / 18014398509481984) := by
  decide!

end Double

/-! ## Lemmas on the weights of a task -/

theorem clampedWeight_isWeight (s : Subtask) : Double.IsWeight (clampedWeight s) :=
  Double.stdMax_isWeight s.weighting

theorem clampedWeight_of_nonpos (s : Subtask) (h : s.weighting ≤ 0) : clampedWeight s = 0 := by
  unfold clampedWeight
  rw [Double.stdMax_zero_round, if_neg (not_lt.2 h)]

theorem progressWeights_foldl (l : List Subtask) (c t : Double) :
    l.foldl
      (fun (acc : Double × Double) subtask =>
        let totalWeight := acc.2 + Double.stdMax 0 (Double.round subtask.weighting)
        let completedWeight :=
          if subtask.completed then acc.1 + Double.stdMax 0 (Double.round subtask.weighting)
          else acc.1
        (completedWeight, totalWeight))
      (c, t)
      = (((l.filter (fun s => s.completed)).map clampedWeight).foldl (fun acc w => acc + w) c,
         (l.map clampedWeight).foldl (fun acc w => acc + w) t) := by
  induction l generalizing c t with
  | nil => rfl
  | cons s ss ih =>
    rw [List.foldl_cons]
    dsimp only
    by_cases h : s.completed = true
    · rw [if_pos h, ih, List.filter_cons_of_pos (by simpa using h)]
      rfl
    · rw [if_neg h, ih, List.filter_cons_of_neg (by simpa using h)]
      rfl

theorem progressWeights_eq (task : Task) :
    progressWeights task
      = (Double.sum ((task.subtasks.filter (fun s => s.completed)).map clampedWeight),
         Double.sum (task.subtasks.map clampedWeight)) := by
  unfold progressWeights Double.sum
  exact progressWeights_foldl task.subtasks 0 0

theorem sumFrom_isWeight (l : List Subtask) (c : Double) (hc : Double.IsWeight c) :
    Double.IsWeight ((l.map clampedWeight).foldl (fun acc w => acc + w) c) := by
  induction l generalizing c with
  | nil => exact hc
  | cons s ss ih =>
    rw [List.map_cons, List.foldl_cons]
    exact ih _ (Double.add_isWeight hc (clampedWeight_isWeight s))

theorem sumFrom_mono (l : List Subtask) (c d : Double) (hc : Double.IsWeight c)
    (hd : Double.IsWeight d) (h : c ≤ d) :
    (l.map clampedWeight).foldl (fun acc w => acc + w) c
      ≤ (l.map clampedWeight).foldl (fun acc w => acc + w) d := by
  induction l generalizing c d with
  | nil => exact h
  | cons s ss ih =>
    rw [List.map_cons, List.foldl_cons, List.foldl_cons]
    exact ih _ _ (Double.add_isWeight hc (clampedWeight_isWeight s))
      (Double.add_isWeight hd (clampedWeight_isWeight s))
      (Double.add_le_add_right hc hd (clampedWeight_isWeight s) h)

theorem completedSum_le_totalSum (l : List Subtask) (c t : Double) (hc : Double.IsWeight c)
    (ht : Double.IsWeight t) (h : c ≤ t) :
    ((l.filter (fun s => s.completed)).map clampedWeight).foldl (fun acc w => acc + w) c
      ≤ (l.map clampedWeight).foldl (fun acc w => acc + w) t := by
  induction l generalizing c t with
  | nil => exact h
  | cons s ss ih =>
    rw [List.map_cons, List.foldl_cons]
    by_cases hs : s.completed = true
    · rw [List.filter_cons_of_pos (by simpa using hs), List.map_cons, List.foldl_cons]
      exact ih _ _ (Double.add_isWeight hc (clampedWeight_isWeight s))
        (Double.add_isWeight ht (clampedWeight_isWeight s))
        (Double.add_le_add_right hc ht (clampedWeight_isWeight s) h)
    · rw [List.filter_cons_of_neg (by simpa using hs)]
      exact ih _ _ hc (Double.add_isWeight ht (clampedWeight_isWeight s))
        (Double.trans_le h (Double.le_add_right ht (clampedWeight_isWeight s)))

theorem completedSum_eq_totalSum (l : List Subtask) (c : Double) (hc : Double.IsWeight c)
    (h : ∀ s ∈ l, 0 < s.weighting → s.completed = true) :
    ((l.filter (fun s => s.completed)).map clampedWeight).foldl (fun acc w => acc + w) c
      = (l.map clampedWeight).foldl (fun acc w => acc + w) c := by
  induction l generalizing c with
  | nil => rfl
  | cons s ss ih =>
    have hss : ∀ x ∈ ss, 0 < x.weighting → x.completed = true :=
      fun x hx => h x (List.mem_cons_of_mem s hx)
    rw [List.map_cons, List.foldl_cons]
    by_cases hs : s.completed = true
    · rw [List.filter_cons_of_pos (by simpa using hs), List.map_cons, List.foldl_cons]
      exact ih _ (Double.add_isWeight hc (clampedWeight_isWeight s)) hss
    · rw [List.filter_cons_of_neg (by simpa using hs)]
      have hw : s.weighting ≤ 0 := by
        by_contra hpos
        exact hs (h s (List.mem_cons_self s ss) (not_le.1 hpos))
      rw [clampedWeight_of_nonpos s hw, Double.add_zero_of_isWeight hc]
      exact ih c hc hss

theorem totalSum_of_nonpos (l : List Subtask) (c : Double) (hc : Double.IsWeight c)
    (h : ∀ s ∈ l, s.weighting ≤ 0) :
    (l.map clampedWeight).foldl (fun acc w => acc + w) c = c := by
  induction l generalizing c with
  | nil => rfl
  | cons s ss ih =>
    rw [List.map_cons, List.foldl_cons, clampedWeight_of_nonpos s (h s (List.mem_cons_self s ss)),
      Double.add_zero_of_isWeight hc]
    exact ih c hc (fun x hx => h x (List.mem_cons_of_mem s hx))

theorem progressWeights_invariant (task : Task) :
    Double.IsWeight (progressWeights task).1 ∧ Double.IsWeight (progressWeights task).2 ∧
    (progressWeights task).1 ≤ (progressWeights task).2 := by
  rw [progressWeights_eq]
  refine ⟨?_, sumFrom_isWeight _ 0 Double.zero_isWeight,
    completedSum_le_totalSum _ 0 0 Double.zero_isWeight Double.zero_isWeight
      (Double.isWeight_le_refl Double.zero_isWeight)⟩
  have := sumFrom_isWeight (task.subtasks.filter (fun s => s.completed)) 0 Double.zero_isWeight
  exact this

/-- The value `(c / t) * 100` of `computeProgress` lies in `[0, 100]` when `c` is finite. -/
theorem progressValue_range (c t : Double) (hc : Double.IsWeight c) (ht : Double.IsWeight t)
    (hct : c ≤ t) (hfin : c ≠ Double.posInf) (hpos : ¬ t ≤ 0) :
    0 ≤ c / t * 100 ∧ c / t * 100 ≤ 100 := by
  rw [Double.zero_eq] at hpos ⊢
  rw [Double.hundred_eq]
  rcases hc with hc | ⟨x, hc, hx, _⟩
  · exact absurd hc hfin
  · rcases ht with ht | ⟨y, ht, hy, _⟩
    · rw [hc, ht]
      have e : Double.finite x / Double.posInf * Double.finite 100 = Double.finite 0 := by
        show Double.round (0 * 100) = Double.finite 0
        rw [zero_mul]
        exact Double.round_zero
      rw [e]
      exact ⟨Double.finite_le_finite.2 (le_refl _), Double.finite_le_finite.2 (by norm_num)⟩
    · rw [hc, ht] at hct
      rw [ht] at hpos
      rw [Double.finite_le_finite] at hct hpos
      have hypos : 0 < y := not_le.1 hpos
      rw [hc, ht, Double.finite_div_finite x y (ne_of_gt hypos)]
      obtain ⟨v, hv, hv0, hv1, _⟩ := Double.round_between
        (show (0 : ℚ) ≤ x / y from div_nonneg hx hy)
        (show x / y ≤ 1 from (div_le_one hypos).2 hct) Double.round_zero Double.round_one
      rw [hv, Double.finite_mul_finite]
      obtain ⟨u, hu, hu0, hu1, _⟩ := Double.round_between
        (show (0 : ℚ) ≤ v * 100 by linarith) (show v * 100 ≤ 100 by linarith)
        Double.round_zero Double.round_hundred
      rw [hu]
      exact ⟨Double.finite_le_finite.2 hu0, Double.finite_le_finite.2 hu1⟩

/-- The value `(c / t) * 100` of `computeProgress` does not decrease when `c` grows. -/
theorem progressValue_mono (c d t : Double) (hc : Double.IsWeight c) (hd : Double.IsWeight d)
    (ht : Double.IsWeight t) (hcd : c ≤ d) (hfin : d ≠ Double.posInf) (hpos : ¬ t ≤ 0) :
    c / t * 100 ≤ d / t * 100 := by
  rw [Double.hundred_eq]
  apply Double.mul_const_mono 100 (by norm_num)
  rcases hd with hd | ⟨y, hd, hy, _⟩
  · exact absurd hd hfin
  · rcases hc with hc | ⟨x, hc, hx, _⟩
    · rw [hc, hd] at hcd
      rw [Double.le_def] at hcd
      simp [Double.le] at hcd
    · rw [hc, hd] at hcd ⊢
      rw [Double.finite_le_finite] at hcd
      rcases ht with ht | ⟨z, ht, hz, _⟩
      · rw [ht]
        exact Double.finite_le_finite.2 (le_refl (0 : ℚ))
      · rw [ht] at hpos ⊢
        rw [Double.zero_eq, Double.finite_le_finite] at hpos
        have hzpos : 0 < z := not_le.1 hpos
        rw [Double.finite_div_finite x z (ne_of_gt hzpos),
          Double.finite_div_finite y z (ne_of_gt hzpos)]
        exact Double.round_mono (div_le_div_of_nonneg_right hcd hz)

/-- The double `(c / t) * 100` is within `2 ^ (-45)` of the number `100 * c / t` when
`0 ≤ c ≤ t` and `0 < t`. -/
theorem progressValue_error (c t : ℚ) (hc : 0 ≤ c) (hct : c ≤ t) (ht : 0 < t) :
    ∃ v, Double.finite c / Double.finite t * 100 = Double.finite v ∧
      |v - 100 * c / t| ≤ 1 / 2 ^ 45 := by
  obtain ⟨p1, p2, p7, p10, m53, m52, m47, m44⟩ := Double.twoPow_values
  have hx0 : 0 ≤ c / t := div_nonneg hc (le_of_lt ht)
  have hx1 : c / t ≤ 1 := (div_le_one ht).2 hct
  obtain ⟨v1, hv1, a0, a1, _⟩ := Double.round_between hx0 hx1 Double.round_zero Double.round_one
  have e1 := Double.round_error hv1 0 (by norm_num)
    (by rw [zero_add, p1, abs_of_nonneg hx0]; linarith)
  rw [show (0 : Int) - 53 = -53 by norm_num, m53] at e1
  obtain ⟨v, hv, _, _, _⟩ := Double.round_between (show (0 : ℚ) ≤ v1 * 100 by linarith)
    (show v1 * 100 ≤ 100 by linarith) Double.round_zero Double.round_hundred
  have e2 := Double.round_error hv 6 (by norm_num)
    (by rw [show (6 : Int) + 1 = 7 by norm_num, p7, abs_of_nonneg (by linarith)]; linarith)
  rw [show (6 : Int) - 53 = -47 by norm_num, m47] at e2
  refine ⟨v, ?_, ?_⟩
  · rw [Double.finite_div_finite c t (ne_of_gt ht), hv1, Double.hundred_eq,
      Double.finite_mul_finite, hv]
  · have h3 : v - 100 * c / t = (v - v1 * 100) + 100 * (v1 - c / t) := by ring
    rw [h3]
    have h4 := abs_add (v - v1 * 100) (100 * (v1 - c / t))
    have h5 : |100 * (v1 - c / t)| = 100 * |v1 - c / t| := by
      rw [abs_mul, abs_of_pos (by norm_num : (0 : ℚ) < 100)]
    rw [h5] at h4
    have h6 : (1 : ℚ) / 2 ^ 47 + 100 * (1 / 2 ^ 53) ≤ 1 / 2 ^ 45 := by norm_num
    linarith

/-! ## Task progress: claims C9, C10 -/

/-- C9, the claim as written fails: with a completed subtask of weight 1 and an open one of
weight 2, `C = 1` and `T = 3`, and `computeProgress` returns the double `(1 / 3) * 100`,
which is neither the number `100 * 1 / 3` nor the double nearest to it; and with a completed
and an open subtask of weight 1e308 each, where `100 * C / T` is 50, the total overflows and
`computeProgress` returns 0. -/
theorem computeProgress_not_exact_quotient :
    clampedCompleted thirdDoneTask = 1 ∧ clampedTotal thirdDoneTask = 3 ∧
    computeProgress thirdDoneTask = Double.finite (2345624805922133 / 70368744177664) ∧
    (2345624805922133 / 70368744177664 : ℚ) ≠ 100 * 1 / 3 ∧
    computeProgress thirdDoneTask ≠ Double.round (100 * 1 / 3) ∧
    100 * clampedCompleted hugeHalfDoneTask / clampedTotal hugeHalfDoneTask = 50 ∧
    (progressWeights hugeHalfDoneTask).2 = Double.posInf ∧
    computeProgress hugeHalfDoneTask = 0 := by
  decide!

/-- C9, amended. The loop of `computeProgress` leaves in `C` the sum of the clamped weightings
`max(0.0, weighting)` of the completed subtasks and in `T` that of all subtasks, both added
from the left in double arithmetic; `computeProgress` is 0 when `T` is 0, which is so when
there is no subtask or every weighting is at most 0, and otherwise it is the double
`(C / T) * 100.0`, which for finite `C` and `T` is within `2 ^ (-45)` of the number
`100 * C / T`; a completed and an open subtask of weight 2 each give 50, and a task without
subtasks gives 0. -/
theorem computeProgress_double_formula (task : Task) :
    progressWeights task
      = (Double.sum ((task.subtasks.filter (fun s => s.completed)).map clampedWeight),
         Double.sum (task.subtasks.map clampedWeight)) ∧
    (∀ s : Subtask, clampedWeight s = Double.stdMax 0 (Double.round s.weighting)) ∧
    ((progressWeights task).2 = 0 → computeProgress task = 0) ∧
    ((progressWeights task).2 ≠ 0 →
      computeProgress task = (progressWeights task).1 / (progressWeights task).2 * 100) ∧
    (∀ c t : ℚ, progressWeights task = (Double.finite c, Double.finite t) → 0 < t →
      ∃ v, computeProgress task = Double.finite v ∧ |v - 100 * c / t| ≤ 1 / 2 ^ 45) ∧
    ((∀ s ∈ task.subtasks, s.weighting ≤ 0) →
      (progressWeights task).2 = 0 ∧ computeProgress task = 0) ∧
    computeProgress { subtasks := [{ weighting := 2, completed := true },
                                   { weighting := 2, completed := false }] } = 50 ∧
    computeProgress { subtasks := [] } = 0 := by
  have hzero : (progressWeights task).2 = 0 → computeProgress task = 0 := by
    intro h
    unfold computeProgress
    dsimp only
    rw [h, if_pos (Double.isWeight_le_refl Double.zero_isWeight)]
  refine ⟨progressWeights_eq task, fun _ => rfl, hzero, ?_, ?_, ?_, by decide!, by decide!⟩
  · intro h
    have hT := (progressWeights_invariant task).2.1
    have hpos : ¬ (progressWeights task).2 ≤ 0 := by
      intro hle
      apply h
      rcases hT with hT | ⟨y, hT, hy, _⟩
      · rw [hT, Double.zero_eq, Double.le_def] at hle
        simp [Double.le] at hle
      · rw [hT, Double.zero_eq, Double.finite_le_finite] at hle
        rw [hT, Double.zero_eq, le_antisymm hle hy]
    unfold computeProgress
    dsimp only
    rw [if_neg hpos]
  · intro c t hct ht
    obtain ⟨hC, _, hle⟩ := progressWeights_invariant task
    rw [hct] at hC hle
    have hc : 0 ≤ c := by
      rcases hC with hC | ⟨x, hC, hx, _⟩
      · cases hC
      · injection hC with hC
        rw [hC]
        exact hx
    have hpos : ¬ (progressWeights task).2 ≤ 0 := by
      rw [hct, Double.zero_eq, Double.finite_le_finite]
      exact not_le.2 ht
    unfold computeProgress
    dsimp only
    rw [if_neg hpos, hct]
    exact progressValue_error c t hc (Double.finite_le_finite.1 hle) ht
  · intro h
    have hT : (progressWeights task).2 = 0 := by
      rw [progressWeights_eq]
      exact totalSum_of_nonpos task.subtasks 0 Double.zero_isWeight h
    exact ⟨hT, hzero hT⟩

/-- C10, the claim as written fails: with two completed subtasks of weight 1e308 both sums
overflow to +inf, and `computeProgress` returns NaN, which is neither at least 0 nor at most
100. -/
theorem computeProgress_overflow_nan :
    progressWeights hugeDoneTask = (Double.posInf, Double.posInf) ∧
    computeProgress hugeDoneTask = Double.nan ∧
    ¬ (0 ≤ computeProgress hugeDoneTask) ∧
    ¬ (computeProgress hugeDoneTask ≤ 100) := by
  decide!

/-- C10, amended. For every task, whenever the completed weight has not overflowed to +inf,
`computeProgress` lies in `[0, 100]`, and when it has overflowed `computeProgress` is NaN;
the total is never negative, the function returns 0 without dividing when the total is not
positive, and whenever it divides the divisor is strictly positive. -/
theorem computeProgress_range_unless_overflow (task : Task) :
    ((progressWeights task).1 ≠ Double.posInf →
      0 ≤ computeProgress task ∧ computeProgress task ≤ 100) ∧
    ((progressWeights task).1 = Double.posInf → computeProgress task = Double.nan) ∧
    0 ≤ (progressWeights task).2 ∧
    ((progressWeights task).2 ≤ 0 → computeProgress task = 0) ∧
    (¬ (progressWeights task).2 ≤ 0 →
      0 < (progressWeights task).2 ∧
      computeProgress task = (progressWeights task).1 / (progressWeights task).2 * 100) := by
  obtain ⟨hC, hT, hCT⟩ := progressWeights_invariant task
  have hzero : (progressWeights task).2 ≤ 0 → computeProgress task = 0 := by
    intro h
    unfold computeProgress
    dsimp only
    rw [if_pos h]
  have hdiv : ¬ (progressWeights task).2 ≤ 0 →
      computeProgress task = (progressWeights task).1 / (progressWeights task).2 * 100 := by
    intro h
    unfold computeProgress
    dsimp only
    rw [if_neg h]
  refine ⟨?_, ?_, Double.isWeight_nonneg hT, hzero,
    fun h => ⟨Double.isWeight_pos_of_not_le hT h, hdiv h⟩⟩
  · intro hfin
    by_cases h : (progressWeights task).2 ≤ 0
    · rw [hzero h]
      exact ⟨Double.isWeight_le_refl Double.zero_isWeight, by decide!⟩
    · rw [hdiv h]
      exact progressValue_range _ _ hC hT hCT hfin h
  · intro hinf
    have hTinf : (progressWeights task).2 = Double.posInf := by
      rw [hinf] at hCT
      rcases hT with hT | ⟨y, hT, _, _⟩
      · exact hT
      · rw [hT, Double.le_def] at hCT
        simp [Double.le] at hCT
    have hpos : ¬ (progressWeights task).2 ≤ 0 := by
      rw [hTinf]
      decide!
    rw [hdiv hpos, hinf, hTinf]
    rfl

/-! ## Lemmas on the order of strings and period times -/

theorem codesLess_asymm (a b : List Char) (h : codesLess a b = true) : codesLess b a = false := by
  induction a generalizing b with
  | nil => cases b <;> simp [codesLess] at h ⊢
  | cons x xs ih =>
    cases b with
    | nil => simp [codesLess] at h
    | cons y ys =>
      simp only [codesLess] at h ⊢
      by_cases h1 : x.toNat < y.toNat
      · have h2 : ¬ y.toNat < x.toNat := by omega
        simp [h1, h2]
      · by_cases h2 : y.toNat < x.toNat
        · simp [h1, h2] at h
        · simp only [h1, h2, if_false] at h ⊢
          exact ih ys h

theorem codesLess_total (a b : List Char) : codesLess a b = false ∨ codesLess b a = false := by
  cases h : codesLess a b with
  | false => exact Or.inl rfl
  | true => exact Or.inr (codesLess_asymm a b h)

theorem codesLess_nil_right (c : List Char) : codesLess c [] = false := by
  cases c <;> rfl

theorem codesLess_trans_false (a b c : List Char) (h1 : codesLess b a = false)
    (h2 : codesLess c b = false) : codesLess c a = false := by
  induction a generalizing b c with
  | nil => exact codesLess_nil_right c
  | cons x xs ih =>
    cases b with
    | nil => simp [codesLess] at h1
    | cons y ys =>
      cases c with
      | nil => simp [codesLess] at h2
      | cons z zs =>
        simp only [codesLess] at h1 h2 ⊢
        by_cases hyx : y.toNat < x.toNat
        · simp [hyx] at h1
        · by_cases hzy : z.toNat < y.toNat
          · simp [hzy] at h2
          · have hzx : ¬ z.toNat < x.toNat := by omega
            simp only [hzx, if_false]
            by_cases hxz : x.toNat < z.toNat
            · simp [hxz]
            · have hxy : ¬ x.toNat < y.toNat := by omega
              have hyz : ¬ y.toNat < z.toNat := by omega
              simp only [hyx, hxy, hzy, hyz, hxz, if_false] at h1 h2 ⊢
              exact ih ys zs h1 h2

theorem QTime.eq_iff_mds (s t : QTime) : s = t ↔ s.mds = t.mds := by
  cases s; cases t; simp

theorem periodTimeLess_false_iff (a b : PeriodTime) :
    periodTimeLess b a = false ↔ periodTimeOrdered a b := by
  unfold periodTimeLess periodTimeOrdered
  by_cases h : b.start = a.start
  · have hm := (QTime.eq_iff_mds _ _).1 h
    rw [if_pos h]
    constructor
    · intro hs; exact Or.inr ⟨hm.symm, hs⟩
    · rintro (hlt | ⟨_, hs⟩)
      · omega
      · exact hs
  · have hm : ¬ b.start.mds = a.start.mds := fun e => h ((QTime.eq_iff_mds _ _).2 e)
    rw [if_neg h]
    simp only [decide_eq_false_iff_not, not_lt]
    constructor
    · intro hle; exact Or.inl (by omega)
    · rintro (hlt | ⟨he, _⟩)
      · omega
      · exact absurd he.symm hm

theorem periodTimeOrdered_total (a b : PeriodTime) :
    periodTimeOrdered a b ∨ periodTimeOrdered b a := by
  unfold periodTimeOrdered
  rcases lt_trichotomy a.start.mds b.start.mds with h | h | h
  · exact Or.inl (Or.inl h)
  · rcases codesLess_total a.label.data b.label.data with hs | hs
    · exact Or.inr (Or.inr ⟨h.symm, hs⟩)
    · exact Or.inl (Or.inr ⟨h, hs⟩)
  · exact Or.inr (Or.inl h)

theorem periodTimeOrdered_trans (a b c : PeriodTime) (h1 : periodTimeOrdered a b)
    (h2 : periodTimeOrdered b c) : periodTimeOrdered a c := by
  unfold periodTimeOrdered at *
  rcases h1 with h1 | ⟨e1, s1⟩
  · rcases h2 with h2 | ⟨e2, _⟩
    · exact Or.inl (by omega)
    · exact Or.inl (by omega)
  · rcases h2 with h2 | ⟨e2, s2⟩
    · exact Or.inl (by omega)
    · exact Or.inr ⟨by omega, codesLess_trans_false _ _ _ s1 s2⟩

theorem sortPeriodTimes_perm (l : List PeriodTime) : List.Perm (sortPeriodTimes l) l := by
  unfold sortPeriodTimes
  exact List.perm_insertionSort _ l

theorem sortPeriodTimes_sorted (l : List PeriodTime) :
    List.Sorted periodTimeOrdered (sortPeriodTimes l) := by
  unfold sortPeriodTimes
  haveI : IsTotal PeriodTime (fun a b => periodTimeLess b a = false) :=
    ⟨fun a b => by
      simp only [periodTimeLess_false_iff]
      exact periodTimeOrdered_total a b⟩
  haveI : IsTrans PeriodTime (fun a b => periodTimeLess b a = false) :=
    ⟨fun a b c h1 h2 => by
      simp only [periodTimeLess_false_iff] at *
      exact periodTimeOrdered_trans a b c h1 h2⟩
  have hs := List.sorted_insertionSort (fun a b : PeriodTime => periodTimeLess b a = false) l
  exact List.Pairwise.imp (fun {a b} h => (periodTimeLess_false_iff a b).1 h) hs

/-! ## Lemmas on parseSchoolPeriods -/

theorem lookup_mem {β : Type} (k : String) (v : β) (l : List (String × β))
    (h : l.lookup k = some v) : (k, v) ∈ l := by
  induction l with
  | nil => simp at h
  | cons e es ih =>
    obtain ⟨k', v'⟩ := e
    simp only [List.lookup_cons] at h
    by_cases hk : k = k'
    · subst hk
      simp at h
      subst h
      exact List.mem_cons_self _ _
    · have hb : (k == k') = false := by simpa using hk
      rw [hb] at h
      exact List.mem_cons_of_mem _ (ih h)

theorem foldl_insert_entries {α β : Type} (kf : α → String) (vf : α → β) (l : List α)
    (m : QMap β) :
    (l.foldl (fun m it => m.insert (kf it) (vf it)) m).entries
      = (l.reverse.map (fun it => (kf it, vf it))) ++ m.entries := by
  induction l generalizing m with
  | nil => simp
  | cons x xs ih =>
    rw [List.foldl_cons, ih]
    simp [QMap.insert]

theorem find_foldl_insert {α β : Type} (kf : α → String) (vf : α → β) (l : List α)
    (k : String) (v : β)
    (h : (l.foldl (fun m it => m.insert (kf it) (vf it)) QMap.empty).find k = some v) :
    ∃ it ∈ l, kf it = k ∧ vf it = v := by
  unfold QMap.find at h
  rw [foldl_insert_entries] at h
  have hm := lookup_mem k v _ h
  simp only [QMap.empty, List.append_nil, List.mem_map, List.mem_reverse, Prod.mk.injEq] at hm
  obtain ⟨it, hit, h1, h2⟩ := hm
  exact ⟨it, hit, h1, h2⟩

theorem parsePeriodTimes_eq (templObj : QJsonObject) :
    parsePeriodTimes templObj = templObj.map rawPeriodTime := by
  unfold parsePeriodTimes
  have h := foldl_append_singleton rawPeriodTime templObj []
  simp only [List.nil_append] at h
  exact h

theorem parseTemplates_find (templatesObj : QJsonObject) (name : String)
    (templ : TimetableTemplate) (h : (parseTemplates templatesObj).find name = some templ) :
    ∃ member ∈ templatesObj, member.1 = name ∧ templ.name = name ∧
      templ.periods = sortPeriodTimes (member.2.toObject.map rawPeriodTime) := by
  unfold parseTemplates at h
  obtain ⟨it, hit, h1, h2⟩ := find_foldl_insert (fun it : String × QJsonValue => it.1)
    (fun it => ({ name := it.1
                  periods := sortPeriodTimes (parsePeriodTimes it.2.toObject) } :
      TimetableTemplate)) templatesObj name templ h
  refine ⟨it, hit, h1, ?_, ?_⟩
  · rw [← h2]; exact h1
  · rw [← h2, parsePeriodTimes_eq]

theorem QTime.fromString_range (s : String) :
    (QTime.fromString s).mds = -1 ∨
      (0 ≤ (QTime.fromString s).mds ∧ (QTime.fromString s).mds < MSECS_PER_DAY) := by
  unfold QTime.fromString
  split
  · dsimp only
    split_ifs with h1 h2
    · right
      simp only [QTime.hm, MSECS_PER_DAY]
      omega
    · left; rfl
    · left; rfl
  · left; rfl

/-! ## Lemmas for the later claims on the resolvers -/

theorem buildDay_of_no_week (mData : SchoolPeriodsData) (mSettings : SettingsData)
    (referenceDate : Int) (weekKey dayName : String)
    (h : mData.weeks.find weekKey = none) :
    buildDay mData mSettings referenceDate weekKey dayName = [] := by
  unfold buildDay
  simp [QMap.contains_of_find_none h]

theorem buildDay_of_no_day (mData : SchoolPeriodsData) (mSettings : SettingsData)
    (referenceDate : Int) (weekKey dayName : String) (week : WeekSchedule)
    (hweek : mData.weeks.find weekKey = some week) (h : week.days.find dayName = none) :
    buildDay mData mSettings referenceDate weekKey dayName = [] := by
  unfold buildDay
  simp [QMap.contains_of_find hweek, QMap.value_of_find hweek, QMap.contains_of_find_none h]

theorem buildDay_nil_or (mData : SchoolPeriodsData) (mSettings : SettingsData)
    (referenceDate : Int) (weekKey dayName : String) :
    buildDay mData mSettings referenceDate weekKey dayName = [] ∨
    ∃ week day templ, mData.weeks.find weekKey = some week ∧
      week.days.find dayName = some day ∧
      mData.templates.find (buildDayTemplateName mSettings day) = some templ ∧
      buildDay mData mSettings referenceDate weekKey dayName
        = templ.periods.map (buildDayPeriod mData (slotLookup day.slots) referenceDate) := by
  cases hw : mData.weeks.find weekKey with
  | none => exact Or.inl (buildDay_of_no_week _ _ _ _ _ hw)
  | some week =>
    cases hd : week.days.find dayName with
    | none => exact Or.inl (buildDay_of_no_day _ _ _ _ _ week hw hd)
    | some day =>
      have hb := buildDay_eq mData mSettings referenceDate weekKey dayName week day hw hd
      cases ht : mData.templates.find (buildDayTemplateName mSettings day) with
      | none =>
        rw [ht] at hb
        exact Or.inl hb
      | some templ =>
        rw [ht] at hb
        exact Or.inr ⟨week, day, templ, rfl, hd, ht, hb⟩

theorem ofDateTime_mono (d : Int) (s t : QTime)
    (ht : t.mds = -1 ∨ (0 ≤ t.mds ∧ t.mds < MSECS_PER_DAY)) (h : s.mds ≤ t.mds) :
    QDateTime.ofDateTime d s ≤ QDateTime.ofDateTime d t := by
  have e1 : ∀ u : QTime, QDateTime.ofDateTime d u
      = d * MSECS_PER_DAY + (if 0 ≤ u.mds ∧ u.mds < MSECS_PER_DAY then u.mds else 0) := by
    intro u
    unfold QDateTime.ofDateTime QTime.isValid
    simp only [decide_eq_true_eq]
  rw [e1 s, e1 t]
  unfold MSECS_PER_DAY at *
  split_ifs <;> omega

theorem parsed_template_ordered (doc : QJsonDocument) (name : String)
    (templ : TimetableTemplate)
    (h : (parseSchoolPeriods doc).templates.find name = some templ) :
    List.Sorted periodTimeOrdered templ.periods ∧
    ∀ e ∈ templ.periods, e.start.mds = -1 ∨ (0 ≤ e.start.mds ∧ e.start.mds < MSECS_PER_DAY) := by
  obtain ⟨member, _, _, _, hp⟩ := parseTemplates_find _ name templ h
  rw [hp]
  refine ⟨sortPeriodTimes_sorted _, ?_⟩
  intro e he
  have he2 := (sortPeriodTimes_perm _).subset he
  obtain ⟨m, _, rfl⟩ := List.mem_map.1 he2
  exact QTime.fromString_range _

theorem upcomingLoop_no_week (data : SchoolPeriodsData) (settings : SettingsData)
    (from_ to_ cursor : Int) (fuel : Nat) (result : List TimetablePeriod)
    (h : data.weeks.find (toUpper settings.currentWeek) = none) :
    upcomingLoop data settings from_ to_ (fuel + 1) cursor result = some result := by
  rw [upcomingLoop]
  simp [QMap.contains_of_find_none h]

theorem upcomingLoop_returns (data : SchoolPeriodsData) (settings : SettingsData)
    (from_ to_ : Int) (fuel : Nat) (hfuel : walkFuel from_ to_ ≤ fuel) :
    ∃ l, upcomingLoop data settings from_ to_ fuel from_ [] = some l ∧
      (l = [] ∨ ∃ week, data.weeks.find (toUpper settings.currentWeek) = some week ∧
        l = List.flatMap (walkedDates from_ to_) (windowPeriodsOn data week from_ to_)) := by
  obtain ⟨f, rfl⟩ : ∃ f, fuel = f + 1 := ⟨fuel - 1, by unfold walkFuel at hfuel; omega⟩
  by_cases hlt : from_ < to_
  · cases hw : data.weeks.find (toUpper settings.currentWeek) with
    | none => exact ⟨_, upcomingLoop_no_week _ _ _ _ _ _ _ hw, Or.inl rfl⟩
    | some week =>
      exact ⟨_, upcomingLoop_from data settings week from_ to_ _ hw hlt hfuel,
        Or.inr ⟨week, rfl, rfl⟩⟩
  · exact ⟨_, upcomingLoop_stop _ _ _ _ _ _ _ hlt, Or.inl rfl⟩

theorem sortByStart_nil : sortByStart [] = [] := rfl

theorem sortByStart_sorted (l : List TimetablePeriod) :
    List.Sorted (fun a b : TimetablePeriod => a.startTime ≤ b.startTime) (sortByStart l) := by
  unfold sortByStart
  haveI : IsTotal TimetablePeriod (fun a b => ¬ startsBefore b a) :=
    ⟨fun a b => by unfold startsBefore; omega⟩
  haveI : IsTrans TimetablePeriod (fun a b => ¬ startsBefore b a) :=
    ⟨fun a b c h1 h2 => by unfold startsBefore at *; omega⟩
  have hs := List.sorted_insertionSort (fun a b : TimetablePeriod => ¬ startsBefore b a) l
  exact List.Pairwise.imp (fun {a b} h => by unfold startsBefore at h; omega) hs

theorem charToUpper_idem (c : Char) : c.toUpper.toUpper = c.toUpper := by
  by_cases h : 97 ≤ c.toNat ∧ c.toNat ≤ 122
  · have e : c.toUpper = Char.ofNat (c.toNat - 32) := by
      unfold Char.toUpper
      simp [h]
    rw [e]
    obtain ⟨h1, h2⟩ := h
    generalize c.toNat = n at h1 h2
    interval_cases n <;> decide
  · have e : c.toUpper = c := by
      unfold Char.toUpper
      simp only [ge_iff_le]
      rw [if_neg h]
    rw [e, e]

theorem toUpper_idem (s : String) : toUpper (toUpper s) = toUpper s := by
  unfold toUpper
  simp only [List.map_map]
  congr 1
  apply List.map_congr_left
  intro c _
  exact charToUpper_idem c

theorem upcomingLoop_congr (data : SchoolPeriodsData) (s1 s2 : SettingsData) (from_ to_ : Int)
    (h : toUpper s1.currentWeek = toUpper s2.currentWeek) :
    ∀ (fuel : Nat) (cursor : Int) (result : List TimetablePeriod),
      upcomingLoop data s1 from_ to_ fuel cursor result
        = upcomingLoop data s2 from_ to_ fuel cursor result := by
  intro fuel
  induction fuel with
  | zero => intro cursor result; rfl
  | succ n ih =>
    intro cursor result
    rw [upcomingLoop, upcomingLoop]
    simp only [h, ih]

theorem lookup_isSome_of_mem_keys {β : Type} (k : String) (l : List (String × β))
    (h : k ∈ l.map (fun e => e.1)) : (l.lookup k).isSome = true := by
  induction l with
  | nil => simp at h
  | cons e es ih =>
    obtain ⟨k', v'⟩ := e
    simp only [List.lookup_cons]
    by_cases hk : k = k'
    · subst hk
      simp
    · have hb : (k == k') = false := by simpa using hk
      rw [hb]
      simp only [List.map_cons, List.mem_cons] at h
      rcases h with h | h
      · exact absurd h hk
      · exact ih h

/-! ## Catalog loading and the order of a day: claims C11, C12 -/

/-- C11. On a catalog produced by `parseSchoolPeriods`, the periods `buildDay` returns are in
non-decreasing order of start instant; and when the week, the weekday and the template are
found, they follow the entries of the template's sorted period list one by one: same labels,
the entries' starts on the reference date, in the same order. -/
theorem buildDay_sorted_on_parsed_catalog (doc : QJsonDocument) (mSettings : SettingsData)
    (referenceDate : Int) (weekKey dayName : String) :
    List.Sorted (fun a b : TimetablePeriod => a.startTime ≤ b.startTime)
      (buildDay (parseSchoolPeriods doc) mSettings referenceDate weekKey dayName) ∧
    (∀ week day templ, (parseSchoolPeriods doc).weeks.find weekKey = some week →
      week.days.find dayName = some day →
      (parseSchoolPeriods doc).templates.find (buildDayTemplateName mSettings day)
        = some templ →
      List.Sorted periodTimeOrdered templ.periods ∧
      (buildDay (parseSchoolPeriods doc) mSettings referenceDate weekKey dayName).map
          (fun p => (p.periodKey, p.startTime))
        = templ.periods.map
            (fun e => (e.label, QDateTime.ofDateTime referenceDate e.start))) := by
  constructor
  · rcases buildDay_nil_or (parseSchoolPeriods doc) mSettings referenceDate weekKey dayName
      with h | ⟨week, day, templ, _, _, ht, hb⟩
    · rw [h]; exact List.sorted_nil
    · rw [hb]
      obtain ⟨hs, hr⟩ := parsed_template_ordered doc _ templ ht
      unfold List.Sorted
      rw [List.pairwise_map]
      refine List.Pairwise.imp_of_mem ?_ hs
      intro a b _ hb2 hab
      rw [buildDayPeriod_startTime, buildDayPeriod_startTime]
      apply ofDateTime_mono referenceDate a.start b.start (hr b hb2)
      unfold periodTimeOrdered at hab
      omega
  · intro week day templ hw hd ht
    refine ⟨(parsed_template_ordered doc _ templ ht).1, ?_⟩
    rw [buildDay_eq _ mSettings referenceDate weekKey dayName week day hw hd, ht]
    unfold dayPeriodsOf
    rw [List.map_map]
    apply List.map_congr_left
    intro e _
    simp only [Function.comp, buildDayPeriod_periodKey, buildDayPeriod_startTime]

/-- C12. The period list `parseSchoolPeriods` stores under a template name is a permutation
of the raw label/time entries of a member of that name in the `period_times` object, and it
is ordered by start time-of-day ascending, entries of equal start by ascending label. -/
theorem parseSchoolPeriods_template_sorted (doc : QJsonDocument) (name : String)
    (templ : TimetableTemplate)
    (h : (parseSchoolPeriods doc).templates.find name = some templ) :
    ∃ member ∈ (QJsonObject.value doc.object "period_times").toObject,
      member.1 = name ∧
      List.Perm templ.periods (member.2.toObject.map rawPeriodTime) ∧
      List.Sorted periodTimeOrdered templ.periods := by
  obtain ⟨member, hm, hn, _, hp⟩ := parseTemplates_find _ name templ h
  refine ⟨member, hm, hn, ?_, ?_⟩
  · rw [hp]; exact sortPeriodTimes_perm _
  · rw [hp]; exact sortPeriodTimes_sorted _

/-- Witness of C12: the template "normal" of `sampleDocument`, whose raw entries are written
out of time order. -/
theorem parseSchoolPeriods_template_sorted_witness :
    (parseSchoolPeriods sampleDocument).templates.find "normal"
      = some ((parseSchoolPeriods sampleDocument).templates.value "normal") ∧
    ((parseSchoolPeriods sampleDocument).templates.value "normal").periods.map
        (fun e => e.label) = ["assembly", "early", "late"] ∧
    ∃ member ∈ (QJsonObject.value sampleDocument.object "period_times").toObject,
      member.1 = "normal" ∧
      List.Perm ((parseSchoolPeriods sampleDocument).templates.value "normal").periods
        (member.2.toObject.map rawPeriodTime) ∧
      List.Sorted periodTimeOrdered
        ((parseSchoolPeriods sampleDocument).templates.value "normal").periods :=
  ⟨by decide, by decide,
    parseSchoolPeriods_template_sorted sampleDocument "normal" _ (by decide)⟩

/-! ## The window aggregator: claims C13, C14, C19, C20 -/

/-- C13. For every catalog, settings and window, with enough fuel for the day walk,
`upcomingPeriods` returns a list that is sorted in non-decreasing order of start instant. -/
theorem upcomingPeriods_sorted (data : SchoolPeriodsData) (settings : SettingsData)
    (from_ to_ : Int) (fuel : Nat) (hfuel : walkFuel from_ to_ ≤ fuel) :
    ∃ r, upcomingPeriods fuel data settings from_ to_ = some r ∧
      List.Sorted (fun a b : TimetablePeriod => a.startTime ≤ b.startTime) r := by
  obtain ⟨l, hl, _⟩ := upcomingLoop_returns data settings from_ to_ fuel hfuel
  refine ⟨sortByStart l, ?_, sortByStart_sorted l⟩
  unfold upcomingPeriods
  rw [hl]
  rfl

/-- Witness of C13: the window from Monday 00:00 to Wednesday 00:00 over `unorderedCatalog`,
whose template holds its entries out of time order. -/
theorem upcomingPeriods_sorted_witness :
    walkFuel 345600000 518400000 ≤ 4 ∧
    (upcomingPeriods 4 unorderedCatalog sampleSettings 345600000 518400000).map
        (List.map (fun p => (p.periodKey, p.startTime)))
      = some [("early", 378000000), ("late", 392400000),
              ("early", 464400000), ("late", 478800000)] ∧
    ∃ r, upcomingPeriods 4 unorderedCatalog sampleSettings 345600000 518400000 = some r ∧
      List.Sorted (fun a b : TimetablePeriod => a.startTime ≤ b.startTime) r :=
  ⟨by decide, by decide,
    upcomingPeriods_sorted unorderedCatalog sampleSettings 345600000 518400000 4 (by decide)⟩

/-- C14. For every catalog and settings and every pair of instants with `from >= to`,
`upcomingPeriods` returns the empty list: the loop condition fails at once, so one unit of
fuel is enough. -/
theorem upcomingPeriods_empty_window (data : SchoolPeriodsData) (settings : SettingsData)
    (from_ to_ : Int) (fuel : Nat) (hge : to_ ≤ from_) (hfuel : 0 < fuel) :
    upcomingPeriods fuel data settings from_ to_ = some [] := by
  obtain ⟨f, rfl⟩ : ∃ f, fuel = f + 1 := ⟨fuel - 1, by omega⟩
  unfold upcomingPeriods
  rw [upcomingLoop_stop _ _ _ _ _ _ _ (by omega)]
  rfl

/-- Witness of C14: `sampleCatalog` with `from` at Monday 12:00 and `to` at Monday 00:00. -/
theorem upcomingPeriods_empty_window_witness :
    (345600000 : Int) ≤ 388800000 ∧ 0 < 1 ∧
    upcomingPeriods 1 sampleCatalog sampleSettings 388800000 345600000 = some [] :=
  ⟨by decide, by decide,
    upcomingPeriods_empty_window sampleCatalog sampleSettings 388800000 345600000 1
      (by decide) (by decide)⟩

/-- C19. `parseSchoolPeriods` stores every week schedule under the upper-cased form of the
designator written in the document, so that the upper-cased designator of every member of
the schedule finds a week; and `upcomingPeriods` returns for a designator `w` what it returns
for `toUpper w`, for every catalog and window. -/
theorem upcomingPeriods_designator_upper (doc : QJsonDocument) (data : SchoolPeriodsData)
    (settings : SettingsData) (from_ to_ : Int) (fuel : Nat) :
    (∀ key week, (key, week) ∈ (parseSchoolPeriods doc).weeks.entries →
      ∃ member ∈ (QJsonObject.value doc.object "schedule").toObject,
        key = toUpper member.1 ∧ week.name = member.1) ∧
    (∀ member ∈ (QJsonObject.value doc.object "schedule").toObject,
      (parseSchoolPeriods doc).weeks.contains (toUpper member.1) = true) ∧
    upcomingPeriods fuel data settings from_ to_
      = upcomingPeriods fuel data { settings with currentWeek := toUpper settings.currentWeek }
          from_ to_ := by
  refine ⟨?_, ?_, ?_⟩
  · intro key week h
    have he := foldl_insert_entries (fun it : String × QJsonValue => toUpper it.1)
      (fun it => ({ name := it.1, days := parseDays it.2.toObject } : WeekSchedule))
      (QJsonObject.value doc.object "schedule").toObject QMap.empty
    have h2 : (key, week) ∈ (parseWeeks (QJsonObject.value doc.object "schedule").toObject).entries := h
    unfold parseWeeks at h2
    rw [he] at h2
    simp only [QMap.empty, List.append_nil, List.mem_map, List.mem_reverse,
      Prod.mk.injEq] at h2
    obtain ⟨member, hm, h3, h4⟩ := h2
    exact ⟨member, hm, h3.symm, by rw [← h4]⟩
  · intro member hm
    have he := foldl_insert_entries (fun it : String × QJsonValue => toUpper it.1)
      (fun it => ({ name := it.1, days := parseDays it.2.toObject } : WeekSchedule))
      (QJsonObject.value doc.object "schedule").toObject QMap.empty
    have hc : (parseSchoolPeriods doc).weeks.contains (toUpper member.1)
        = ((parseWeeks (QJsonObject.value doc.object "schedule").toObject).entries.lookup
            (toUpper member.1)).isSome := rfl
    rw [hc]
    unfold parseWeeks
    rw [he]
    simp only [QMap.empty, List.append_nil]
    exact lookup_isSome_of_mem_keys _ _
      (List.mem_map.2 ⟨(toUpper member.1, _), List.mem_map.2 ⟨member, List.mem_reverse.2 hm, rfl⟩, rfl⟩)
  · unfold upcomingPeriods
    rw [upcomingLoop_congr data settings
      { settings with currentWeek := toUpper settings.currentWeek } from_ to_
      (toUpper_idem settings.currentWeek).symm]

/-- C20. `buildDay` returns the empty list when the catalog has no week under the designator
and when the week has no DaySchedule under the weekday name; `upcomingPeriods` returns the
empty list for every window when the week is absent, and every period it returns lies on a
date whose weekday has a DaySchedule in the week. -/
theorem resolvers_empty_without_schedule (data : SchoolPeriodsData) (settings : SettingsData)
    (referenceDate : Int) (weekKey dayName : String) (from_ to_ : Int) (fuel : Nat) :
    (data.weeks.contains weekKey = false →
      buildDay data settings referenceDate weekKey dayName = []) ∧
    ((data.weeks.value weekKey).days.contains dayName = false →
      buildDay data settings referenceDate weekKey dayName = []) ∧
    (data.weeks.contains (toUpper settings.currentWeek) = false → 0 < fuel →
      upcomingPeriods fuel data settings from_ to_ = some []) ∧
    (walkFuel from_ to_ ≤ fuel →
      ∃ r, upcomingPeriods fuel data settings from_ to_ = some r ∧
        ∀ p ∈ r, (data.weeks.value (toUpper settings.currentWeek)).days.contains
          (QDate.longDayName (QDateTime.date p.startTime)) = true) ∧
    buildDay sampleCatalog sampleSettings 2 "A" "Saturday" = [] ∧
    buildDay sampleCatalog sampleSettings 4 "B" "Monday" = [] := by
  refine ⟨?_, ?_, ?_, ?_, by decide, by decide⟩
  · intro h
    unfold buildDay
    simp [h]
  · intro h
    unfold buildDay
    by_cases hw : data.weeks.contains weekKey = true
    · simp [hw, h]
    · simp [hw]
  · intro h hfuel
    obtain ⟨f, rfl⟩ : ∃ f, fuel = f + 1 := ⟨fuel - 1, by omega⟩
    have hnone : data.weeks.find (toUpper settings.currentWeek) = none := by
      unfold QMap.contains at h
      cases hf : data.weeks.find (toUpper settings.currentWeek) with
      | none => rfl
      | some v => simp [hf] at h
    unfold upcomingPeriods
    rw [upcomingLoop_no_week _ _ _ _ _ _ _ hnone]
    rfl
  · intro hfuel
    obtain ⟨l, hl, hcase⟩ := upcomingLoop_returns data settings from_ to_ fuel hfuel
    refine ⟨sortByStart l, by unfold upcomingPeriods; rw [hl]; rfl, ?_⟩
    intro p hp
    have hp2 := (sortByStart_perm l).subset hp
    rcases hcase with rfl | ⟨week, hw, rfl⟩
    · simp at hp2
    · obtain ⟨d, _, hpd⟩ := List.mem_flatMap.1 hp2
      obtain ⟨day, templ, e, h1, _, _, _, _, h6⟩ := mem_windowPeriodsOn.1 hpd
      rw [h6, upcomingPeriod_startTime, date_ofDateTime, QMap.value_of_find hw]
      exact QMap.contains_of_find h1

/-! ## The designator in the single-day resolver: claim C18 -/

/-- C18, the code at the failing input: in the catalog `parseSchoolPeriods` makes of
`sampleDocument` the week is stored under "A"; `buildDay` looks the designator up as given,
so it returns no period for "a" and three periods for "A", while `upcomingPeriods` with the
designator "a" finds the week. -/
theorem buildDay_designator_case_sensitive :
    (parseSchoolPeriods sampleDocument).weeks.entries.map (fun e => e.1) = ["A"] ∧
    buildDay (parseSchoolPeriods sampleDocument) { currentWeek := "a", yearLevel := 10 } 4
      "a" "Monday" = [] ∧
    (buildDay (parseSchoolPeriods sampleDocument) { currentWeek := "a", yearLevel := 10 } 4
      "A" "Monday").map (fun p => p.periodKey) = ["assembly", "early", "late"] ∧
    (upcomingPeriods 3 (parseSchoolPeriods sampleDocument)
        { currentWeek := "a", yearLevel := 10 } 345600000 432000000).map
        (List.map (fun p => p.periodKey)) = some ["assembly", "early", "late"] := by
  decide

/-! ## Angles, drawing modes and re-projection: claims C15, C16, C17 -/

theorem minutesToAngle_eq (m : Double) :
    minutesToAngle m
      = Double.finite (-90) + m / Double.finite 720 * Double.finite 360 := by
  unfold minutesToAngle
  rw [Double.neg_ninety_eq, Double.seven_twenty_eq, Double.three_sixty_eq]

theorem minutesToAngle_mono {a b : Double} (h : a ≤ b) : minutesToAngle a ≤ minutesToAngle b := by
  rw [minutesToAngle_eq, minutesToAngle_eq]
  exact Double.const_add_mono (-90)
    (Double.mul_const_mono 360 (by norm_num) (Double.div_const_mono 720 (by norm_num) h))

/-- For `0 ≤ q ≤ 1440` the double `minutesToAngle q` is finite and within `2 ^ (-42)` of the
number `-90 + (q / 720) * 360`. -/
theorem minutesToAngle_error (q : ℚ) (h0 : 0 ≤ q) (h1 : q ≤ 1440) :
    ∃ v, minutesToAngle (Double.finite q) = Double.finite v ∧
      |v - (-90 + q / 720 * 360)| ≤ 1 / 2 ^ 42 := by
  obtain ⟨p1, p2, p7, p10, m53, m52, m47, m44⟩ := Double.twoPow_values
  have hx0 : (0 : ℚ) ≤ q / 720 := by positivity
  have hx1 : q / 720 ≤ 2 := by
    rw [div_le_iff₀ (by norm_num)]
    linarith
  obtain ⟨v1, hv1, a0, a1, _⟩ := Double.round_between hx0 hx1 Double.round_zero
    (show Double.round 2 = Double.finite 2 by decide!)
  have e1 := Double.round_error hv1 1 (by norm_num)
    (by rw [show (1 : Int) + 1 = 2 by norm_num, p2, abs_of_nonneg hx0]; linarith)
  rw [show (1 : Int) - 53 = -52 by norm_num, m52] at e1
  obtain ⟨v2, hv2, b0, b1, _⟩ := Double.round_between (show (0 : ℚ) ≤ v1 * 360 by linarith)
    (show v1 * 360 ≤ 720 by linarith) Double.round_zero
    (show Double.round 720 = Double.finite 720 by decide!)
  have e2 := Double.round_error hv2 9 (by norm_num)
    (by rw [show (9 : Int) + 1 = 10 by norm_num, p10, abs_of_nonneg (by linarith)]; linarith)
  rw [show (9 : Int) - 53 = -44 by norm_num, m44] at e2
  obtain ⟨v3, hv3, _, _, _⟩ := Double.round_between (show (-90 : ℚ) ≤ -90 + v2 by linarith)
    (show -90 + v2 ≤ 630 by linarith)
    (show Double.round (-90) = Double.finite (-90) by decide!)
    (show Double.round 630 = Double.finite 630 by decide!)
  have e3 := Double.round_error hv3 9 (by norm_num)
    (by
      rw [show (9 : Int) + 1 = 10 by norm_num, p10, abs_lt]
      constructor <;> linarith)
  rw [show (9 : Int) - 53 = -44 by norm_num, m44] at e3
  refine ⟨v3, ?_, ?_⟩
  · rw [minutesToAngle_eq, Double.finite_div_finite q 720 (by norm_num), hv1,
      Double.finite_mul_finite, hv2, Double.finite_add_finite, hv3]
  · have h3 : v3 - (-90 + q / 720 * 360)
        = (v3 - (-90 + v2)) + ((v2 - v1 * 360) + 360 * (v1 - q / 720)) := by ring
    rw [h3]
    have h4 := abs_add (v3 - (-90 + v2)) ((v2 - v1 * 360) + 360 * (v1 - q / 720))
    have h5 := abs_add (v2 - v1 * 360) (360 * (v1 - q / 720))
    have h6 : |360 * (v1 - q / 720)| = 360 * |v1 - q / 720| := by
      rw [abs_mul, abs_of_pos (by norm_num : (0 : ℚ) < 360)]
    rw [h6] at h5
    have h7 : (1 : ℚ) / 2 ^ 44 + (1 / 2 ^ 44 + 360 * (1 / 2 ^ 52)) ≤ 1 / 2 ^ 42 := by norm_num
    linarith

/-- C15, the claim as written fails: in double arithmetic `minutesToAngle (17 + 720)` is not
`minutesToAngle 17 + 360`, and `minutesToAngle 93` is not -43.5, the number
`-90 + (93 / 720) * 360`. -/
theorem minutesToAngle_not_periodic :
    minutesToAngle (17 + 720) ≠ minutesToAngle 17 + 360 ∧
    minutesToAngle (17 + 720) = Double.finite (4899423813369855 / 17592186044416) ∧
    minutesToAngle 17 + 360 = Double.finite (557 / 2) ∧
    minutesToAngle 93 = Double.finite (-6122080743456767 / 140737488355328) ∧
    (-6122080743456767 / 140737488355328 : ℚ) ≠ -90 + (93 / 720) * 360 := by
  decide!

/-- C15, amended. For every double `m`, `minutesToAngle m` is the double
`-90.0 + (m / 720.0) * 360.0`, every operation rounded; it is -90 at 0 and 270 at 720; at
the whole hours `60 * k` with `k` from 0 to 12, the minutes `drawLabels` passes, it is
exactly `-90 + 30 * k` and 720 more minutes add exactly 360 degrees; it never decreases when
`m` grows; and for `m` from 0 to 1440 it is within `2 ^ (-42)` of the number
`-90 + (m / 720) * 360`. -/
theorem minutesToAngle_rounded_affine (m : Double) :
    minutesToAngle m = -90 + (m / 720) * 360 ∧
    minutesToAngle 0 = -90 ∧
    minutesToAngle 720 = 270 ∧
    minutesToAngle (0 + 720) = minutesToAngle 0 + 360 ∧
    (∀ k ∈ List.range 13,
      minutesToAngle (Double.ofInt (60 * (k : Int))) = Double.ofInt (-90 + 30 * (k : Int)) ∧
      minutesToAngle (Double.ofInt (60 * (k : Int)) + 720)
        = minutesToAngle (Double.ofInt (60 * (k : Int))) + 360) ∧
    (∀ a b : Double, a ≤ b → minutesToAngle a ≤ minutesToAngle b) ∧
    (∀ q : ℚ, 0 ≤ q → q ≤ 1440 →
      ∃ v, minutesToAngle (Double.finite q) = Double.finite v ∧
        |v - (-90 + q / 720 * 360)| ≤ 1 / 2 ^ 42) := by
  exact ⟨rfl, by decide!, by decide!, by decide!, by decide!, fun a b h => minutesToAngle_mono h,
    minutesToAngle_error⟩

/-- C16. `Mode` has the three values Activities, Timetable and Combined and no other.  In
Activities mode `drawArcs` draws the activity arcs only and in Timetable mode the period arcs
only, both with width factor 0.85 and inset 0.3 of the band; in Combined mode it draws the
period arcs at inset 0.75 of the band and then the activity arcs at inset 0.25, both with
width factor 0.5.  Every list is drawn one call per arc, in order, with the arc's colour, the
pen width `band * factor` and the outer rectangle shrunk by the inset. -/
theorem drawArcs_by_mode (mNow : Int) (mActivityArcs mPeriodArcs : List DonutArc)
    (outerRect innerRect : QRectF) :
    (∀ mode : Mode, mode = Mode.Activities ∨ mode = Mode.Timetable ∨ mode = Mode.Combined) ∧
    drawArcs Mode.Activities mNow mActivityArcs mPeriodArcs outerRect innerRect
      = drawArcList mNow ((outerRect.width - innerRect.width) / 2) outerRect mActivityArcs
          (85 / 100) ((outerRect.width - innerRect.width) / 2 * (3 / 10)) ∧
    drawArcs Mode.Timetable mNow mActivityArcs mPeriodArcs outerRect innerRect
      = drawArcList mNow ((outerRect.width - innerRect.width) / 2) outerRect mPeriodArcs
          (85 / 100) ((outerRect.width - innerRect.width) / 2 * (3 / 10)) ∧
    drawArcs Mode.Combined mNow mActivityArcs mPeriodArcs outerRect innerRect
      = drawArcList mNow ((outerRect.width - innerRect.width) / 2) outerRect mPeriodArcs
          (5 / 10) ((outerRect.width - innerRect.width) / 2 * (75 / 100))
        ++ drawArcList mNow ((outerRect.width - innerRect.width) / 2) outerRect mActivityArcs
          (5 / 10) ((outerRect.width - innerRect.width) / 2 * (25 / 100)) ∧
    (∀ (band : Double) (arcs : List DonutArc) (widthFactor inset : Double),
      (drawArcList mNow band outerRect arcs widthFactor inset).map
          (fun call => (call.penColor, call.penWidth, call.rect))
        = arcs.map (fun arc => (arc.color, band * widthFactor,
            outerRect.adjusted inset inset (-inset) (-inset)))) := by
  refine ⟨?_, rfl, rfl, rfl, ?_⟩
  · intro mode
    cases mode
    · exact Or.inl rfl
    · exact Or.inr (Or.inl rfl)
    · exact Or.inr (Or.inr rfl)
  · intro band arcs widthFactor inset
    unfold drawArcList
    rw [foldl_append_singleton, List.nil_append, List.map_map]
    rfl

/-- C17. The arc lists after `rebuildArcs` are determined by the instant, the activities and
the periods alone: two widgets that agree on these get the same arc lists whatever arcs they
held before; running `updateClock` at `now1` and then at `now2` leaves the arc lists of
running it at `now2` alone; and running `rebuildArcs` twice leaves the widget of one run. -/
theorem rebuildArcs_depends_on_inputs_only (now1 now2 currentDateTime : Int)
    (w v : DonutChartWidget) :
    (w.mNow = v.mNow → w.mActivities = v.mActivities → w.mPeriods = v.mPeriods →
      (rebuildArcs currentDateTime w).mActivityArcs
          = (rebuildArcs currentDateTime v).mActivityArcs ∧
      (rebuildArcs currentDateTime w).mPeriodArcs
          = (rebuildArcs currentDateTime v).mPeriodArcs) ∧
    (updateClock now2 (updateClock now1 w)).mActivityArcs
      = (updateClock now2 w).mActivityArcs ∧
    (updateClock now2 (updateClock now1 w)).mPeriodArcs = (updateClock now2 w).mPeriodArcs ∧
    (updateClock now2 w).mActivityArcs
      = activityArcs now2 (now2 + SPAN_MSECS) w.mActivities ∧
    (updateClock now2 w).mPeriodArcs = periodArcs now2 (now2 + SPAN_MSECS) w.mPeriods ∧
    rebuildArcs currentDateTime (rebuildArcs currentDateTime w)
      = rebuildArcs currentDateTime w := by
  refine ⟨?_, ?_, ?_, ?_, ?_, ?_⟩
  · intro h1 h2 h3
    rw [rebuildArcs_activityArcs, rebuildArcs_activityArcs, rebuildArcs_periodArcs,
      rebuildArcs_periodArcs]
    unfold effectiveNow
    rw [h1, h2, h3]
    exact ⟨rfl, rfl⟩
  · unfold updateClock
    rw [rebuildArcs_activityArcs, rebuildArcs_activityArcs]
    rfl
  · unfold updateClock
    rw [rebuildArcs_periodArcs, rebuildArcs_periodArcs]
    rfl
  · unfold updateClock
    rw [rebuildArcs_activityArcs]
    rfl
  · unfold updateClock
    rw [rebuildArcs_periodArcs]
    rfl
  · unfold rebuildArcs
    cases w.mNow <;> rfl

/-! ## Lemmas on the periods of single entries -/

theorem zip_map_mem {α β : Type} (f : α → β) (l : List α) (p : β) (e : α)
    (h : (p, e) ∈ (l.map f).zip l) : p = f e ∧ e ∈ l := by
  induction l with
  | nil => simp at h
  | cons x xs ih =>
    simp only [List.map_cons, List.zip_cons_cons, List.mem_cons, Prod.mk.injEq] at h
    rcases h with ⟨h1, h2⟩ | h
    · subst h2
      exact ⟨h1, List.mem_cons_self _ _⟩
    · exact ⟨(ih h).1, List.mem_cons_of_mem _ (ih h).2⟩

theorem buildDay_found (mData : SchoolPeriodsData) (mSettings : SettingsData)
    (referenceDate : Int) (weekKey dayName : String) (week : WeekSchedule) (day : DaySchedule)
    (templ : TimetableTemplate)
    (hweek : mData.weeks.find weekKey = some week) (hday : week.days.find dayName = some day)
    (htempl : mData.templates.find (buildDayTemplateName mSettings day) = some templ) :
    buildDay mData mSettings referenceDate weekKey dayName
      = templ.periods.map (buildDayPeriod mData (slotLookup day.slots) referenceDate) := by
  rw [buildDay_eq mData mSettings referenceDate weekKey dayName week day hweek hday, htempl]
  rfl

theorem upcomingPeriods_mem (data : SchoolPeriodsData) (settings : SettingsData)
    (from_ to_ : Int) (fuel : Nat) (hfuel : walkFuel from_ to_ ≤ fuel) :
    ∃ r, upcomingPeriods fuel data settings from_ to_ = some r ∧
      ∀ p ∈ r, ∃ d day templ e,
        (data.weeks.value (toUpper settings.currentWeek)).days.find (QDate.longDayName d)
          = some day ∧
        data.templates.find day.templateName = some templ ∧
        e ∈ templ.periods ∧
        p = upcomingPeriod data (slotLookup day.slots) (QDateTime.ofDateTime d e.start)
              (QDateTime.ofDateTime d e.«end») e := by
  obtain ⟨l, hl, hcase⟩ := upcomingLoop_returns data settings from_ to_ fuel hfuel
  refine ⟨sortByStart l, by unfold upcomingPeriods; rw [hl]; rfl, ?_⟩
  intro p hp
  have hp2 := (sortByStart_perm l).subset hp
  rcases hcase with rfl | ⟨week, hw, rfl⟩
  · simp at hp2
  · obtain ⟨d, _, hpd⟩ := List.mem_flatMap.1 hp2
    obtain ⟨day, templ, e, h1, h2, h3, _, _, h6⟩ := mem_windowPeriodsOn.1 hpd
    rw [QMap.value_of_find hw]
    exact ⟨d, day, templ, e, h1, h2, h3, h6⟩

theorem slotLookup_find_mem (slots : List TimetableSubjectSlot) (k : String)
    (slot : TimetableSubjectSlot) (h : (slotLookup slots).find k = some slot) :
    slot ∈ slots ∧ slot.periodKey = k := by
  unfold slotLookup at h
  obtain ⟨it, hit, h1, h2⟩ := find_foldl_insert (fun s : TimetableSubjectSlot => s.periodKey)
    (fun s => s) slots k slot h
  subst h2
  exact ⟨hit, h1⟩

theorem slotLookup_contains_false (slots : List TimetableSubjectSlot) (k : String)
    (h : ∀ s ∈ slots, s.periodKey ≠ k) : (slotLookup slots).contains k = false := by
  rw [slotLookup_contains]
  rw [Bool.eq_false_iff]
  intro hany
  obtain ⟨s, hs, hk⟩ := List.any_eq_true.1 hany
  exact h s hs (by simpa using hk)

theorem buildDayPeriod_bound (mData : SchoolPeriodsData) (lookup : QMap TimetableSubjectSlot)
    (referenceDate : Int) (e : PeriodTime) (slot : TimetableSubjectSlot)
    (subject : SubjectDefinition) (hslot : lookup.find e.label = some slot)
    (hsubj : mData.subjects.find slot.subjectName = some subject) :
    buildDayPeriod mData lookup referenceDate e
      = { subjectName := slot.subjectName, room := slot.room, teacher := subject.teacher,
          color := subject.color,
          startTime := QDateTime.ofDateTime referenceDate e.start,
          endTime := QDateTime.ofDateTime referenceDate e.«end»,
          periodKey := e.label, isSpecial := false } := by
  unfold buildDayPeriod
  simp only [QMap.contains_of_find hslot, QMap.value_of_find hslot, QMap.contains_of_find hsubj,
    QMap.value_of_find hsubj, if_true]

theorem buildDayPeriod_orphan (mData : SchoolPeriodsData) (lookup : QMap TimetableSubjectSlot)
    (referenceDate : Int) (e : PeriodTime) (slot : TimetableSubjectSlot)
    (hslot : lookup.find e.label = some slot)
    (hsubj : mData.subjects.contains slot.subjectName = false) :
    buildDayPeriod mData lookup referenceDate e
      = { subjectName := slot.subjectName, room := slot.room, teacher := "",
          color := QColor.invalid,
          startTime := QDateTime.ofDateTime referenceDate e.start,
          endTime := QDateTime.ofDateTime referenceDate e.«end»,
          periodKey := e.label, isSpecial := false } := by
  unfold buildDayPeriod
  simp only [QMap.contains_of_find hslot, QMap.value_of_find hslot, hsubj, if_true,
    Bool.false_eq_true, if_false]

theorem buildDayPeriod_unbound (mData : SchoolPeriodsData) (lookup : QMap TimetableSubjectSlot)
    (referenceDate : Int) (e : PeriodTime) (h : lookup.contains e.label = false) :
    buildDayPeriod mData lookup referenceDate e
      = { subjectName := e.label, room := "", teacher := "",
          color := QColor.rgb 239 239 239,
          startTime := QDateTime.ofDateTime referenceDate e.start,
          endTime := QDateTime.ofDateTime referenceDate e.«end»,
          periodKey := e.label, isSpecial := true } := by
  unfold buildDayPeriod
  simp only [h, Bool.false_eq_true, if_false]

theorem upcomingPeriod_bound (data : SchoolPeriodsData) (lookup : QMap TimetableSubjectSlot)
    (start «end» : Int) (e : PeriodTime) (slot : TimetableSubjectSlot)
    (subject : SubjectDefinition) (hslot : lookup.find e.label = some slot)
    (hsubj : data.subjects.find slot.subjectName = some subject) :
    upcomingPeriod data lookup start «end» e
      = { subjectName := slot.subjectName, room := slot.room, teacher := subject.teacher,
          color := subject.color, startTime := start, endTime := «end»,
          periodKey := e.label, isSpecial := false } := by
  unfold upcomingPeriod
  simp only [QMap.contains_of_find hslot, QMap.value_of_find hslot, QMap.value_of_find hsubj,
    if_true, Bool.not_true]

theorem upcomingPeriod_orphan (data : SchoolPeriodsData) (lookup : QMap TimetableSubjectSlot)
    (start «end» : Int) (e : PeriodTime) (slot : TimetableSubjectSlot)
    (hslot : lookup.find e.label = some slot)
    (hsubj : data.subjects.contains slot.subjectName = false) :
    upcomingPeriod data lookup start «end» e
      = { subjectName := slot.subjectName, room := slot.room, teacher := "",
          color := QColor.invalid, startTime := start, endTime := «end»,
          periodKey := e.label, isSpecial := false } := by
  have hv : data.subjects.value slot.subjectName = default :=
    QMap.value_of_not_contains (by simp [hsubj])
  unfold upcomingPeriod
  simp only [QMap.contains_of_find hslot, QMap.value_of_find hslot, hv, if_true, Bool.not_true]
  rfl

theorem find_insert_other {β : Type} (m : QMap β) (name k : String) (v : β) (h : k ≠ name) :
    (m.insert name v).find k = m.find k := by
  unfold QMap.insert QMap.find
  simp only [List.lookup_cons]
  have hb : (k == name) = false := by simpa using h
  rw [hb]

theorem buildDayPeriod_insert_other (data : SchoolPeriodsData) (name : String)
    (subject : SubjectDefinition) (lookup : QMap TimetableSubjectSlot) (referenceDate : Int)
    (e : PeriodTime) (hne : ∀ slot, lookup.find e.label = some slot → slot.subjectName ≠ name) :
    buildDayPeriod { data with subjects := data.subjects.insert name subject } lookup
      referenceDate e = buildDayPeriod data lookup referenceDate e := by
  unfold buildDayPeriod
  by_cases hc : lookup.contains e.label = true
  · have hf := QMap.find_of_contains hc
    have h1 := find_insert_other data.subjects name (lookup.value e.label).subjectName subject
      (hne _ hf)
    unfold QMap.value at h1
    simp only [QMap.contains, QMap.value, h1]
  · simp only [hc, Bool.false_eq_true, if_false]

theorem upcomingPeriod_insert_other (data : SchoolPeriodsData) (name : String)
    (subject : SubjectDefinition) (lookup : QMap TimetableSubjectSlot) (start «end» : Int)
    (e : PeriodTime) (hne : ∀ slot, lookup.find e.label = some slot → slot.subjectName ≠ name) :
    upcomingPeriod { data with subjects := data.subjects.insert name subject } lookup
      start «end» e = upcomingPeriod data lookup start «end» e := by
  unfold upcomingPeriod
  by_cases hc : lookup.contains e.label = true
  · have hf := QMap.find_of_contains hc
    have h1 := find_insert_other data.subjects name (lookup.value e.label).subjectName subject
      (hne _ hf)
    unfold QMap.value at h1
    simp only [QMap.contains, QMap.value, h1]
  · simp only [hc, Bool.false_eq_true, if_false]

/-! ## Lemmas on the loader, member by member -/

theorem foldl_insert_eq_loadedEach {β : Type} (key : String × QJsonValue → String)
    (load : String × QJsonValue → β) (members : QJsonObject) :
    members.foldl (fun m it => m.insert (key it) (load it)) QMap.empty
      = loadedEach key load members := by
  have h := foldl_insert_entries key load members QMap.empty
  cases hm : members.foldl (fun m it => m.insert (key it) (load it)) QMap.empty with
  | mk entries =>
    rw [hm] at h
    simp only [QMap.empty, List.append_nil] at h
    unfold loadedEach
    rw [← h]

theorem parseSubjects_eq (subjectsObj : QJsonObject) :
    parseSubjects subjectsObj = loadedEach (fun m => m.1) subjectOfMember subjectsObj :=
  foldl_insert_eq_loadedEach (fun m => m.1) subjectOfMember subjectsObj

theorem parseSlots_eq (subjects : QJsonObject) :
    parseSlots subjects = subjects.map slotOfMember := by
  unfold parseSlots
  have h := foldl_append_singleton slotOfMember subjects []
  simp only [List.nil_append] at h
  exact h

theorem parseDays_eq (weekObj : QJsonObject) :
    parseDays weekObj = loadedEach (fun m => m.1) dayOfMember weekObj := by
  rw [← foldl_insert_eq_loadedEach]
  unfold parseDays
  simp only [parseSlots_eq]
  rfl

theorem parseWeeks_eq (weeksObj : QJsonObject) :
    parseWeeks weeksObj = loadedEach (fun m => toUpper m.1) weekOfMember weeksObj := by
  rw [← foldl_insert_eq_loadedEach]
  unfold parseWeeks
  simp only [parseDays_eq]
  rfl

theorem parseTemplates_eq (templatesObj : QJsonObject) :
    parseTemplates templatesObj = loadedEach (fun m => m.1) templateOfMember templatesObj := by
  rw [← foldl_insert_eq_loadedEach]
  unfold parseTemplates
  simp only [parsePeriodTimes_eq]
  rfl

theorem lookup_append_other {β : Type} (k : String) (l1 l2 : List (String × β))
    (x : String × β) (h : k ≠ x.1) :
    List.lookup k (l1 ++ x :: l2) = List.lookup k (l1 ++ l2) := by
  induction l1 with
  | nil =>
    obtain ⟨k', v'⟩ := x
    have hb : (k == k') = false := by simpa using h
    simp [List.lookup_cons, hb]
  | cons y ys ih =>
    obtain ⟨k', v'⟩ := y
    simp only [List.cons_append, List.lookup_cons]
    rw [ih]

theorem loadedEach_find_other {β : Type} (key : String × QJsonValue → String)
    (load : String × QJsonValue → β) (before after : QJsonObject)
    (member : String × QJsonValue) (k : String) (h : k ≠ key member) :
    (loadedEach key load (before ++ member :: after)).find k
      = (loadedEach key load (before ++ after)).find k := by
  unfold loadedEach QMap.find
  simp only [List.reverse_append, List.reverse_cons, List.map_append, List.map_cons,
    List.map_nil, List.append_assoc, List.singleton_append]
  exact lookup_append_other k _ _ (key member, load member) h

/-! ## Lemmas on intervals and on the end of the day walk -/

theorem ofDateTime_lt (d : Int) (s t : QTime) (hs : s.isValid = true) (ht : t.isValid = true)
    (h : s.mds < t.mds) : QDateTime.ofDateTime d s < QDateTime.ofDateTime d t := by
  unfold QDateTime.ofDateTime
  rw [if_pos hs, if_pos ht]
  omega

theorem nextDay_later (cursor : Int) :
    cursor < nextDay cursor ∧ nextDay cursor = midnight (QDateTime.date cursor + 1) ∧
    QDateTime.date (nextDay cursor) = QDateTime.date cursor + 1 := by
  have h := date_mul_le cursor
  refine ⟨?_, nextDay_eq cursor, ?_⟩
  · rw [nextDay_eq, midnight_eq]
    unfold MSECS_PER_DAY at *
    omega
  · rw [nextDay_eq, date_midnight]

theorem upcomingLoop_stop_or_advance (data : SchoolPeriodsData) (settings : SettingsData)
    (from_ to_ cursor : Int) (fuel : Nat) (result : List TimetablePeriod) :
    upcomingLoop data settings from_ to_ (fuel + 1) cursor result = some result ∨
    ∃ result', upcomingLoop data settings from_ to_ (fuel + 1) cursor result
      = upcomingLoop data settings from_ to_ fuel (nextDay cursor) result' := by
  by_cases hc : cursor < to_
  · cases hw : data.weeks.find (toUpper settings.currentWeek) with
    | none => exact Or.inl (upcomingLoop_no_week _ _ _ _ _ _ _ hw)
    | some week => exact Or.inr ⟨_, upcomingLoop_step data settings week _ _ _ _ _ hw hc⟩
  · exact Or.inl (upcomingLoop_stop _ _ _ _ _ _ _ hc)

theorem upcomingLoop_fuel_irrelevant (data : SchoolPeriodsData) (settings : SettingsData)
    (from_ to_ : Int) (fuel : Nat) (hfuel : walkFuel from_ to_ ≤ fuel) :
    upcomingLoop data settings from_ to_ fuel from_ []
      = upcomingLoop data settings from_ to_ (walkFuel from_ to_) from_ [] := by
  obtain ⟨f, rfl⟩ : ∃ f, fuel = f + 1 := ⟨fuel - 1, by unfold walkFuel at hfuel; omega⟩
  obtain ⟨g, hg⟩ : ∃ g, walkFuel from_ to_ = g + 1 := ⟨walkFuel from_ to_ - 1, by
    unfold walkFuel; omega⟩
  by_cases hlt : from_ < to_
  · cases hw : data.weeks.find (toUpper settings.currentWeek) with
    | none =>
      rw [hg, upcomingLoop_no_week _ _ _ _ _ _ _ hw, upcomingLoop_no_week _ _ _ _ _ _ _ hw]
    | some week =>
      rw [upcomingLoop_from data settings week from_ to_ _ hw hlt hfuel,
        upcomingLoop_from data settings week from_ to_ _ hw hlt (le_refl _)]
  · rw [hg, upcomingLoop_stop _ _ _ _ _ _ _ hlt, upcomingLoop_stop _ _ _ _ _ _ _ hlt]

/-! ## Lemmas on the minutes and angles of an arc -/

theorem secsTo_of_le (a b : Int) (h : a ≤ b) : QDateTime.secsTo a b = (b - a) / 1000 := by
  unfold QDateTime.secsTo
  exact Int.tdiv_eq_ediv (by omega) (by omega)

theorem arc_seconds_bounds (now : Int) (arc : DonutArc) (h1 : now ≤ arc.startTime)
    (h2 : arc.startTime < arc.endTime) (h3 : arc.endTime ≤ now + SPAN_MSECS) :
    0 ≤ QDateTime.secsTo now arc.startTime ∧ QDateTime.secsTo now arc.startTime < 43200 ∧
    0 ≤ QDateTime.secsTo arc.startTime arc.endTime ∧
    QDateTime.secsTo arc.startTime arc.endTime ≤ 43200 ∧
    QDateTime.secsTo now arc.startTime + QDateTime.secsTo arc.startTime arc.endTime ≤ 43200 ∧
    (arc.startTime + 1000 ≤ arc.endTime → 0 < QDateTime.secsTo arc.startTime arc.endTime) := by
  rw [secsTo_of_le now arc.startTime h1, secsTo_of_le arc.startTime arc.endTime (le_of_lt h2)]
  unfold SPAN_MSECS at h3
  refine ⟨by omega, by omega, by omega, by omega, by omega, fun h => by omega⟩

theorem castToInt_between {x : Double} {lo hi : ℚ} (m n : Int) (hx : Double.Between x lo hi)
    (hm : (m : ℚ) ≤ lo) (hm0 : m ≤ 0) (hn : hi < (n : ℚ) + 1) (hn0 : 0 ≤ n) :
    m ≤ castToInt x ∧ castToInt x ≤ n := by
  obtain ⟨a, ha, h1, h2⟩ := hx
  rw [ha]
  by_cases h : 0 ≤ a
  · simp only [castToInt, if_pos h]
    have hf : (0 : Int) ≤ ⌊a⌋ := Int.floor_nonneg.2 h
    have hlt : ⌊a⌋ < n + 1 := Int.floor_lt.2 (by push_cast; linarith)
    omega
  · simp only [castToInt, if_neg h]
    have hc : ⌈a⌉ ≤ 0 := Int.ceil_le.2 (by push_cast; linarith)
    have hge : m ≤ ⌈a⌉ := by
      have : (m : ℚ) ≤ (⌈a⌉ : ℚ) := le_trans (le_trans hm h1) (Int.le_ceil a)
      exact_mod_cast this
    omega

/-- The doubles `drawArcs` computes for an arc whose start lies in `[now, now + 12 h)` and
whose end lies in `(start, now + 12 h]`. -/
theorem arc_angle_bounds (now : Int) (arc : DonutArc) (h1 : now ≤ arc.startTime)
    (h2 : arc.startTime < arc.endTime) (h3 : arc.endTime ≤ now + SPAN_MSECS) :
    0 ≤ arcStartMinutes now arc ∧ arcStartMinutes now arc < 720 ∧
    0 ≤ arcSpanMinutes arc ∧ arcSpanMinutes arc ≤ 720 ∧
    (arc.startTime + 1000 ≤ arc.endTime → 0 < arcSpanMinutes arc) ∧
    -90 ≤ minutesToAngle (arcStartMinutes now arc) ∧
    minutesToAngle (arcStartMinutes now arc) < 270 ∧
    0 ≤ arcSpanAngle arc ∧ arcSpanAngle arc ≤ 360 ∧
    -1440 ≤ castToInt (minutesToAngle (arcStartMinutes now arc) * 16) ∧
    castToInt (minutesToAngle (arcStartMinutes now arc) * 16) ≤ 4319 ∧
    -5760 ≤ castToInt (-arcSpanAngle arc * 16) ∧
    castToInt (-arcSpanAngle arc * 16) ≤ 0 := by
  obtain ⟨a1, a2, a3, a4, _, a6⟩ := arc_seconds_bounds now arc h1 h2 h3
  have s1 : Double.Between (arcStartMinutes now arc) 0 (3166520187219695 / 4398046511104) := by
    unfold arcStartMinutes
    rw [Double.sixty_eq]
    exact Double.div_between 60 (by norm_num)
      (Double.ofInt_between 0 43199 a1 (by omega)
        (show Double.round ((0 : Int) : ℚ) = Double.finite 0 by decide!)
        (show Double.round ((43199 : Int) : ℚ) = Double.finite 43199 by decide!))
      (by decide!) (by decide!)
  have s2 : Double.Between (minutesToAngle (arcStartMinutes now arc)) (-90)
      (2374871815220975 / 8796093022208) := by
    rw [minutesToAngle_eq]
    exact Double.add_between (-90)
      (Double.mul_between 360 (by norm_num)
        (Double.div_between 720 (by norm_num) s1
          (show Double.round (0 / 720) = Double.finite 0 by decide!)
          (show Double.round (3166520187219695 / 4398046511104 / 720)
            = Double.finite (2251747688689561 / 2251799813685248) by decide!))
        (show Double.round (0 * 360) = Double.finite 0 by decide!)
        (show Double.round (2251747688689561 / 2251799813685248 * 360)
          = Double.finite (3166520187219695 / 8796093022208) by decide!))
      (by decide!) (by decide!)
  have s3 : Double.Between (minutesToAngle (arcStartMinutes now arc) * 16) (-1440)
      (2374871815220975 / 549755813888) := by
    rw [Double.sixteen_eq]
    exact Double.mul_between 16 (by norm_num) s2 (by decide!) (by decide!)
  have p0 : Double.Between (Double.ofInt (QDateTime.secsTo arc.startTime arc.endTime)) 0 43200 :=
    Double.ofInt_between 0 43200 a3 a4
      (show Double.round ((0 : Int) : ℚ) = Double.finite 0 by decide!)
      (show Double.round ((43200 : Int) : ℚ) = Double.finite 43200 by decide!)
  have p1 : Double.Between (arcSpanMinutes arc) 0 720 := by
    unfold arcSpanMinutes
    rw [Double.sixty_eq]
    exact Double.div_between 60 (by norm_num) p0 (by decide!) (by decide!)
  have p2 : Double.Between (arcSpanAngle arc) 0 360 := by
    unfold arcSpanAngle
    rw [Double.seven_twenty_eq, Double.three_sixty_eq]
    exact Double.mul_between 360 (by norm_num)
      (Double.div_between 720 (by norm_num) p1
        (show Double.round (0 / 720) = Double.finite 0 by decide!)
        (show Double.round (720 / 720) = Double.finite 1 by decide!))
      (by decide!) (by decide!)
  have p3 : Double.Between (-arcSpanAngle arc * 16) (-5760) 0 := by
    rw [Double.sixteen_eq]
    have := Double.mul_between 16 (by norm_num) (Double.neg_between p2)
      (show Double.round (-360 * 16) = Double.finite (-5760) by decide!)
      (show Double.round (-0 * 16) = Double.finite 0 by decide!)
    exact this
  have c1 := castToInt_between (-1440) 4319 s3 (by norm_num) (by norm_num) (by norm_num)
    (by norm_num)
  have c2 := castToInt_between (-5760) 0 p3 (by norm_num) (by norm_num) (by norm_num)
    (by norm_num)
  rw [Double.zero_eq, show (720 : Double) = Double.finite 720 from Double.seven_twenty_eq,
    show (-90 : Double) = Double.finite (-90) from Double.neg_ninety_eq,
    show (270 : Double) = Double.finite 270 by decide!,
    show (360 : Double) = Double.finite 360 from Double.three_sixty_eq]
  refine ⟨s1.finite_le, s1.lt_finite (by norm_num), p1.finite_le, p1.le_finite, ?_,
    s2.finite_le, s2.lt_finite (by norm_num), p2.finite_le, p2.le_finite, c1.1, c1.2, c2.1,
    c2.2⟩
  intro h
  have hp : Double.Between (arcSpanMinutes arc) (4803839602528529 / 288230376151711744) 720 := by
    unfold arcSpanMinutes
    rw [Double.sixty_eq]
    exact Double.div_between 60 (by norm_num)
      (Double.ofInt_between 1 43200 (by have := a6 h; omega) a4
        (show Double.round ((1 : Int) : ℚ) = Double.finite 1 by decide!)
        (show Double.round ((43200 : Int) : ℚ) = Double.finite 43200 by decide!))
      (by decide!) (by decide!)
  exact hp.finite_lt (by norm_num)

/-- The doubles `drawArcs` computes from `n` whole seconds, `0 ≤ n ≤ 43200`: the minutes
`n / 60.0` lie in `[0, 720]` within `2 ^ (-44)` of the number `n / 60`. -/
theorem secondsToMinutes_error (n : Int) (h0 : 0 ≤ n) (h1 : n ≤ 43200) :
    ∃ v, Double.ofInt n / 60 = Double.finite v ∧ 0 ≤ v ∧ v ≤ 720 ∧
      |v - (n : ℚ) / 60| ≤ 1 / 2 ^ 44 := by
  obtain ⟨p1, p2, p7, p10, m53, m52, m47, m44⟩ := Double.twoPow_values
  have hn0 : (0 : ℚ) ≤ (n : ℚ) := by exact_mod_cast h0
  have hn1 : (n : ℚ) ≤ 43200 := by exact_mod_cast h1
  obtain ⟨a, ha, a0, a1, ea⟩ := Double.round_of_between hn0 hn1 Double.round_zero
    (show Double.round 43200 = Double.finite 43200 by decide!) 15 (by norm_num)
    (by
      rw [abs_of_nonneg hn0]
      have : Double.twoPow (15 + 1) = 65536 := by decide!
      rw [this]
      linarith)
  have hexact : a = (n : ℚ) := by
    have hv : Double.roundValue (n : ℚ) = a :=
      ((Double.round_eq_finite_iff (n : ℚ) a).1 ha).1
    have hd := Double.roundMagnitude_of_dyadic n.toNat 0 (by norm_num)
      (by
        have : Double.twoPow (0 + 53) = 9007199254740992 := by decide!
        rw [this, show Double.twoPow 0 = 1 by decide!, mul_one]
        have h2 : ((n.toNat : Nat) : ℚ) = (n : ℚ) := by
          have : ((n.toNat : Nat) : Int) = n := Int.toNat_of_nonneg h0
          exact_mod_cast this
        rw [h2]
        linarith)
    have h2 : ((n.toNat : Nat) : ℚ) = (n : ℚ) := by
      have : ((n.toNat : Nat) : Int) = n := Int.toNat_of_nonneg h0
      exact_mod_cast this
    rw [show Double.twoPow 0 = 1 by decide!, mul_one, h2] at hd
    rw [← hv]
    unfold Double.roundValue
    rw [if_pos hn0, hd]
  have hq0 : (0 : ℚ) ≤ a / 60 := by positivity
  have hq1 : a / 60 ≤ 720 := by
    rw [div_le_iff₀ (by norm_num)]
    linarith
  obtain ⟨v, hv, v0, v1, ev⟩ := Double.round_of_between hq0 hq1
    (show Double.round 0 = Double.finite 0 from Double.round_zero)
    (show Double.round 720 = Double.finite 720 by decide!) 9 (by norm_num)
    (by rw [show (9 : Int) + 1 = 10 by norm_num, p10, abs_of_nonneg hq0]; linarith)
  rw [show (9 : Int) - 53 = -44 by norm_num, m44, hexact] at ev
  refine ⟨v, ?_, v0, v1, ev⟩
  show Double.round (n : ℚ) / 60 = Double.finite v
  rw [ha, Double.sixty_eq, Double.finite_div_finite a 60 (by norm_num), hv]

/-- The sweep `spanMinutes / 720.0 * 360.0` of a span of `0 ≤ p ≤ 720` minutes is finite and
at most `p / 2 + 2 ^ (-45) + 360 * 2 ^ (-53)`. -/
theorem sweep_error (p : ℚ) (h0 : 0 ≤ p) (h1 : p ≤ 720) :
    ∃ v, Double.finite p / 720 * 360 = Double.finite v ∧
      |v - p / 2| ≤ 1 / 2 ^ 45 + 360 * (1 / 2 ^ 53) := by
  obtain ⟨p1, p2, p7, p10, m53, m52, m47, m44⟩ := Double.twoPow_values
  have hx0 : (0 : ℚ) ≤ p / 720 := by positivity
  have hx1 : p / 720 ≤ 1 := by
    rw [div_le_iff₀ (by norm_num)]
    linarith
  obtain ⟨y, hy, y0, y1, ey⟩ := Double.round_of_between hx0 hx1 Double.round_zero
    Double.round_one 0 (by norm_num)
    (by rw [zero_add, p1, abs_of_nonneg hx0]; linarith)
  rw [show (0 : Int) - 53 = -53 by norm_num, m53] at ey
  obtain ⟨v, hv, _, _, ev⟩ := Double.round_of_between (show (0 : ℚ) ≤ y * 360 by linarith)
    (show y * 360 ≤ 360 by linarith) Double.round_zero
    (show Double.round 360 = Double.finite 360 by decide!) 8 (by norm_num)
    (by
      have : Double.twoPow (8 + 1) = 512 := by decide!
      rw [this, abs_of_nonneg (by linarith)]
      linarith)
  have m45 : Double.twoPow (8 - 53) = 1 / 2 ^ 45 := by decide!
  rw [m45] at ev
  refine ⟨v, ?_, ?_⟩
  · rw [Double.seven_twenty_eq, Double.three_sixty_eq,
      Double.finite_div_finite p 720 (by norm_num), hy, Double.finite_mul_finite, hv]
  · have h3 : v - p / 2 = (v - y * 360) + 360 * (y - p / 720) := by ring
    rw [h3]
    have h4 := abs_add (v - y * 360) (360 * (y - p / 720))
    have h5 : |360 * (y - p / 720)| = 360 * |y - p / 720| := by
      rw [abs_mul, abs_of_pos (by norm_num : (0 : ℚ) < 360)]
    rw [h5] at h4
    linarith

/-- The start angle plus the sweep of an arc inside the window is at most
`270 + 2 ^ (-41)`. -/
theorem arc_end_angle_bound (now : Int) (arc : DonutArc) (h1 : now ≤ arc.startTime)
    (h2 : arc.startTime < arc.endTime) (h3 : arc.endTime ≤ now + SPAN_MSECS) :
    ∃ s v : ℚ, minutesToAngle (arcStartMinutes now arc) = Double.finite s ∧
      arcSpanAngle arc = Double.finite v ∧ s + v ≤ 270 + 1 / 2 ^ 41 := by
  obtain ⟨a1, a2, a3, a4, a5, _⟩ := arc_seconds_bounds now arc h1 h2 h3
  obtain ⟨sm, hsm, sm0, sm1, esm⟩ := secondsToMinutes_error _ a1 (by omega)
  obtain ⟨pm, hpm, pm0, pm1, epm⟩ := secondsToMinutes_error _ a3 a4
  obtain ⟨s, hs, es⟩ := minutesToAngle_error sm sm0 (by linarith)
  obtain ⟨v, hv, ev⟩ := sweep_error pm pm0 pm1
  refine ⟨s, v, ?_, ?_, ?_⟩
  · unfold arcStartMinutes
    rw [hsm, hs]
  · unfold arcSpanAngle arcSpanMinutes
    rw [hpm, hv]
  · have b5 : (QDateTime.secsTo now arc.startTime : ℚ)
        + (QDateTime.secsTo arc.startTime arc.endTime : ℚ) ≤ 43200 := by exact_mod_cast a5
    have c1 := (abs_le.1 esm).2
    have c2 := (abs_le.1 epm).2
    have c3 := (abs_le.1 es).2
    have c4 := (abs_le.1 ev).2
    have h7 : (1 : ℚ) / 2 ^ 42 + (1 / 2 ^ 45 + 360 * (1 / 2 ^ 53))
        + (1 / 2 ^ 44 / 2 + 1 / 2 ^ 44 / 2) ≤ 1 / 2 ^ 41 := by norm_num
    linarith

theorem drawArcList_eq (mNow : Int) (bandThickness : Double) (outerRect : QRectF)
    (arcs : List DonutArc) (widthFactor inset : Double) :
    drawArcList mNow bandThickness outerRect arcs widthFactor inset
      = arcs.map (fun arc =>
          ({ penColor := arc.color
             penWidth := bandThickness * widthFactor
             rect := outerRect.adjusted inset inset (-inset) (-inset)
             startAngle := castToInt (minutesToAngle (arcStartMinutes mNow arc) * 16)
             spanAngle := castToInt (-arcSpanAngle arc * 16) } : DrawArcCall)) := by
  unfold drawArcList
  rw [foldl_append_singleton, List.nil_append]
  rfl

theorem rebuildArcs_mNow (currentDateTime : Int) (w : DonutChartWidget) :
    (rebuildArcs currentDateTime w).mNow = some (effectiveNow currentDateTime w) := by
  unfold rebuildArcs effectiveNow
  cases w.mNow <;> rfl

theorem rebuildArcs_arc_bounds (currentDateTime : Int) (w : DonutChartWidget) (arc : DonutArc)
    (harc : arc ∈ (rebuildArcs currentDateTime w).mActivityArcs
      ++ (rebuildArcs currentDateTime w).mPeriodArcs) :
    effectiveNow currentDateTime w ≤ arc.startTime ∧ arc.startTime < arc.endTime ∧
    arc.endTime ≤ effectiveNow currentDateTime w + SPAN_MSECS := by
  rw [rebuildArcs_activityArcs, rebuildArcs_periodArcs, activityArcs_eq, periodArcs_eq] at harc
  rcases List.mem_append.1 harc with h | h
  · obtain ⟨a, ha, rfl⟩ := List.mem_map.1 h
    have h2 := (List.mem_filter.1 ha).2
    simp only [decide_eq_true_eq] at h2
    exact ⟨le_max_right _ _, h2, min_le_right _ _⟩
  · obtain ⟨p, hp, rfl⟩ := List.mem_map.1 h
    have h2 := (List.mem_filter.1 hp).2
    simp only [decide_eq_true_eq] at h2
    exact ⟨le_max_right _ _, h2, min_le_right _ _⟩

/-! ## Lemmas on completion -/

theorem clampedWeight_mark_completed (s : Subtask) :
    clampedWeight { s with completed := true } = clampedWeight s := rfl

/-- Marking a subtask completed leaves the total weight and does not lower the completed
weight. -/
theorem progressWeights_mark_completed (task : Task) (before after : List Subtask)
    (s : Subtask) :
    (progressWeights { task with subtasks := before ++ { s with completed := true } :: after }).2
      = (progressWeights { task with subtasks := before ++ s :: after }).2 ∧
    (progressWeights { task with subtasks := before ++ s :: after }).1
      ≤ (progressWeights
          { task with subtasks := before ++ { s with completed := true } :: after }).1 := by
  rw [progressWeights_eq, progressWeights_eq]
  dsimp only
  constructor
  · rw [List.map_append, List.map_append, List.map_cons, List.map_cons,
      clampedWeight_mark_completed]
  · unfold Double.sum
    rw [List.filter_append, List.filter_append, List.map_append, List.map_append,
      List.foldl_append, List.foldl_append,
      List.filter_cons_of_pos (show ({ s with completed := true } : Subtask).completed = true
        from rfl),
      List.map_cons, List.foldl_cons, clampedWeight_mark_completed]
    have hb := sumFrom_isWeight (before.filter (fun s => s.completed)) 0 Double.zero_isWeight
    by_cases hs : s.completed = true
    · rw [List.filter_cons_of_pos (by simpa using hs), List.map_cons, List.foldl_cons]
      exact Double.isWeight_le_refl (sumFrom_isWeight _ _
        (Double.add_isWeight hb (clampedWeight_isWeight s)))
    · rw [List.filter_cons_of_neg (by simpa using hs)]
      exact sumFrom_mono _ _ _ hb (Double.add_isWeight hb (clampedWeight_isWeight s))
        (Double.le_add_right hb (clampedWeight_isWeight s))

/-! ## Missing templates, bound, unbound and orphan slots: claims C21, C22, C23, C30 -/

/-- C21. `buildDay` returns the empty list whenever the template name it looks up for the
day, after the Wednesday substitution, is not a key of the catalog's templates, whatever the
catalog holds under the day's own template name. -/
theorem buildDay_empty_without_template (mData : SchoolPeriodsData)
    (mSettings : SettingsData) (referenceDate : Int) (weekKey dayName : String)
    (h : mData.templates.contains
      (buildDayTemplateName mSettings ((mData.weeks.value weekKey).days.value dayName))
        = false) :
    buildDay mData mSettings referenceDate weekKey dayName = [] := by
  unfold buildDay
  by_cases hw : mData.weeks.contains weekKey = true
  · by_cases hd : (mData.weeks.value weekKey).days.contains dayName = true
    · simp [hw, hd, h]
    · simp [hw, hd]
  · simp [hw]

/-- Witness of C21: with year level 12 the Wednesday of `wednesdayBaseCatalog` is looked up
under "wednesday_year11", which the catalog lacks, although it holds "wednesday_base". -/
theorem buildDay_empty_without_template_witness :
    wednesdayBaseCatalog.templates.contains "wednesday_base" = true ∧
    buildDayTemplateName year12Settings
      ((wednesdayBaseCatalog.weeks.value "A").days.value "Wednesday") = "wednesday_year11" ∧
    wednesdayBaseCatalog.templates.contains "wednesday_year11" = false ∧
    buildDay wednesdayBaseCatalog year12Settings 6 "A" "Wednesday" = [] :=
  ⟨by decide, by decide, by decide,
    buildDay_empty_without_template wednesdayBaseCatalog year12Settings 6 "A" "Wednesday"
      (by decide)⟩

/-- C22. When the slot bound to an entry's label (the one `slotLookup` holds for it) names a
subject of the catalog, the period `buildDay` resolves for the entry, and every period
`upcomingPeriods` returns for such an entry, has the slot's subject name and room and the
subject's teacher and colour, and is not special. -/
theorem bound_slot_populates_period (data : SchoolPeriodsData) (settings : SettingsData)
    (referenceDate : Int) (weekKey dayName : String) (from_ to_ : Int) (fuel : Nat) :
    (∀ week day templ, data.weeks.find weekKey = some week →
      week.days.find dayName = some day →
      data.templates.find (buildDayTemplateName settings day) = some templ →
      ∀ p e, (p, e) ∈ (buildDay data settings referenceDate weekKey dayName).zip templ.periods →
      ∀ slot subject, (slotLookup day.slots).find e.label = some slot →
        data.subjects.find slot.subjectName = some subject →
        p.periodKey = e.label ∧ p.subjectName = slot.subjectName ∧ p.room = slot.room ∧
        p.teacher = subject.teacher ∧ p.color = subject.color ∧ p.isSpecial = false) ∧
    (walkFuel from_ to_ ≤ fuel →
      ∃ r, upcomingPeriods fuel data settings from_ to_ = some r ∧
        ∀ p ∈ r, ∃ d day templ e,
          (data.weeks.value (toUpper settings.currentWeek)).days.find (QDate.longDayName d)
            = some day ∧
          data.templates.find day.templateName = some templ ∧ e ∈ templ.periods ∧
          p.periodKey = e.label ∧ p.startTime = QDateTime.ofDateTime d e.start ∧
          ∀ slot subject, (slotLookup day.slots).find e.label = some slot →
            data.subjects.find slot.subjectName = some subject →
            p.subjectName = slot.subjectName ∧ p.room = slot.room ∧
            p.teacher = subject.teacher ∧ p.color = subject.color ∧ p.isSpecial = false) ∧
    (∀ (slots : List TimetableSubjectSlot) (label : String) (slot : TimetableSubjectSlot),
      (slotLookup slots).find label = some slot → slot ∈ slots ∧ slot.periodKey = label) ∧
    (buildDay sampleCatalog sampleSettings 4 "A" "Monday").map
        (fun p => (p.periodKey, p.subjectName, p.room, p.teacher, p.color))
      = [("p1", "Maths", "R1", "Ms A", QColor.rgb 1 2 3),
         ("p2", "p2", "", "", QColor.rgb 239 239 239)] := by
  refine ⟨?_, ?_, slotLookup_find_mem, by decide⟩
  · intro week day templ hw hd ht p e hpe slot subject hslot hsubj
    rw [buildDay_found data settings referenceDate weekKey dayName week day templ hw hd ht]
      at hpe
    obtain ⟨hp, _⟩ := zip_map_mem _ _ p e hpe
    rw [hp, buildDayPeriod_bound data _ referenceDate e slot subject hslot hsubj]
    exact ⟨rfl, rfl, rfl, rfl, rfl, rfl⟩
  · intro hfuel
    obtain ⟨r, hr, hmem⟩ := upcomingPeriods_mem data settings from_ to_ fuel hfuel
    refine ⟨r, hr, ?_⟩
    intro p hp
    obtain ⟨d, day, templ, e, h1, h2, h3, h4⟩ := hmem p hp
    refine ⟨d, day, templ, e, h1, h2, h3, by rw [h4, upcomingPeriod_periodKey],
      by rw [h4, upcomingPeriod_startTime], ?_⟩
    intro slot subject hslot hsubj
    rw [h4, upcomingPeriod_bound data _ _ _ e slot subject hslot hsubj]
    exact ⟨rfl, rfl, rfl, rfl, rfl⟩

/-- C23, the code at the failing input: on the Monday of `sampleCatalog` the entry "p2" has
no bound slot, and the special period `buildDay` returns for it has the subject name "p2", not
the upper-cased "P2", and the colour (239, 239, 239), not the (224, 224, 224) of #E0E0E0. -/
theorem buildDay_special_not_upper_cased :
    buildDay sampleCatalog sampleSettings 4 "A" "Monday"
      = [{ subjectName := "Maths", room := "R1", teacher := "Ms A", color := QColor.rgb 1 2 3,
           startTime := 378000000, endTime := 381600000, periodKey := "p1",
           isSpecial := false },
         { subjectName := "p2", room := "", teacher := "", color := QColor.rgb 239 239 239,
           startTime := 381600000, endTime := 385200000, periodKey := "p2",
           isSpecial := true }] ∧
    sampleMonday.slots.all (fun s => s.periodKey != "p2") = true ∧
    "p2" ≠ toUpper "p2" ∧
    QColor.rgb 239 239 239 ≠ QColor.ofName "#E0E0E0" := by
  decide

/-- C30. When the slot bound to an entry's label names a subject the catalog lacks, the
period `buildDay` resolves for the entry, and every period `upcomingPeriods` returns for such
an entry, is not special and has the slot's subject name and room, an empty teacher and an
invalid colour; and adding the subject to the catalog leaves the period of every entry whose
slot does not name it unchanged, in both resolvers. -/
theorem orphan_slot_keeps_period (data : SchoolPeriodsData) (settings : SettingsData)
    (referenceDate : Int) (weekKey dayName : String) (from_ to_ : Int) (fuel : Nat) :
    (∀ week day templ, data.weeks.find weekKey = some week →
      week.days.find dayName = some day →
      data.templates.find (buildDayTemplateName settings day) = some templ →
      (buildDay data settings referenceDate weekKey dayName).length = templ.periods.length ∧
      ∀ p e, (p, e) ∈ (buildDay data settings referenceDate weekKey dayName).zip templ.periods →
      ∀ slot, (slotLookup day.slots).find e.label = some slot →
        data.subjects.contains slot.subjectName = false →
        p.periodKey = e.label ∧ p.isSpecial = false ∧ p.subjectName = slot.subjectName ∧
        p.room = slot.room ∧ p.teacher = "" ∧ p.color = QColor.invalid ∧
        p.color.isValid = false) ∧
    (walkFuel from_ to_ ≤ fuel →
      ∃ r, upcomingPeriods fuel data settings from_ to_ = some r ∧
        ∀ p ∈ r, ∃ d day templ e,
          (data.weeks.value (toUpper settings.currentWeek)).days.find (QDate.longDayName d)
            = some day ∧
          data.templates.find day.templateName = some templ ∧ e ∈ templ.periods ∧
          p.periodKey = e.label ∧ p.startTime = QDateTime.ofDateTime d e.start ∧
          ∀ slot, (slotLookup day.slots).find e.label = some slot →
            data.subjects.contains slot.subjectName = false →
            p.isSpecial = false ∧ p.subjectName = slot.subjectName ∧ p.room = slot.room ∧
            p.teacher = "" ∧ p.color = QColor.invalid) ∧
    (∀ (name : String) (subject : SubjectDefinition) (lookup : QMap TimetableSubjectSlot)
      (start «end» : Int) (e : PeriodTime),
      (∀ slot, lookup.find e.label = some slot → slot.subjectName ≠ name) →
      buildDayPeriod { data with subjects := data.subjects.insert name subject } lookup
          referenceDate e = buildDayPeriod data lookup referenceDate e ∧
      upcomingPeriod { data with subjects := data.subjects.insert name subject } lookup
          start «end» e = upcomingPeriod data lookup start «end» e) ∧
    buildDay orphanCatalog sampleSettings 4 "A" "Monday"
      = [{ subjectName := "Maths", room := "R1", teacher := "Ms A", color := QColor.rgb 1 2 3,
           startTime := 378000000, endTime := 381600000, periodKey := "p1",
           isSpecial := false },
         { subjectName := "Ghost", room := "R9", teacher := "", color := QColor.invalid,
           startTime := 381600000, endTime := 385200000, periodKey := "p2",
           isSpecial := false }] ∧
    upcomingPeriods 3 orphanCatalog sampleSettings 345600000 388800000
      = some (buildDay orphanCatalog sampleSettings 4 "A" "Monday") := by
  refine ⟨?_, ?_, ?_, by decide, by decide⟩
  · intro week day templ hw hd ht
    rw [buildDay_found data settings referenceDate weekKey dayName week day templ hw hd ht]
    refine ⟨by simp, ?_⟩
    intro p e hpe slot hslot hsubj
    obtain ⟨hp, _⟩ := zip_map_mem _ _ p e hpe
    rw [hp, buildDayPeriod_orphan data _ referenceDate e slot hslot hsubj]
    exact ⟨rfl, rfl, rfl, rfl, rfl, rfl, rfl⟩
  · intro hfuel
    obtain ⟨r, hr, hmem⟩ := upcomingPeriods_mem data settings from_ to_ fuel hfuel
    refine ⟨r, hr, ?_⟩
    intro p hp
    obtain ⟨d, day, templ, e, h1, h2, h3, h4⟩ := hmem p hp
    refine ⟨d, day, templ, e, h1, h2, h3, by rw [h4, upcomingPeriod_periodKey],
      by rw [h4, upcomingPeriod_startTime], ?_⟩
    intro slot hslot hsubj
    rw [h4, upcomingPeriod_orphan data _ _ _ e slot hslot hsubj]
    exact ⟨rfl, rfl, rfl, rfl, rfl⟩
  · intro name subject lookup start end_ e hne
    exact ⟨buildDayPeriod_insert_other data name subject lookup referenceDate e hne,
      upcomingPeriod_insert_other data name subject lookup start end_ e hne⟩

/-! ## The loader and the intervals of periods: claims C24, C25 -/

/-- C24. `parseSchoolPeriods` loads each map member by member: the subjects, templates and
weeks of the catalog are what `subjectOfMember`, `templateOfMember` and `weekOfMember` make of
the members of their objects (days and slots likewise), so a member never changes what is
found under another key.  A subject whose teacher is not a string gets the empty teacher, a
subject without a colour gets #E0E0E0, and a slot without subject or room gets the empty
string there. -/
theorem parseSchoolPeriods_degrades (doc : QJsonDocument) :
    (parseSchoolPeriods doc).subjects
      = loadedEach (fun m => m.1) subjectOfMember
          (QJsonObject.value doc.object "subjects").toObject ∧
    (parseSchoolPeriods doc).templates
      = loadedEach (fun m => m.1) templateOfMember
          (QJsonObject.value doc.object "period_times").toObject ∧
    (parseSchoolPeriods doc).weeks
      = loadedEach (fun m => toUpper m.1) weekOfMember
          (QJsonObject.value doc.object "schedule").toObject ∧
    (∀ (β : Type) (key : String × QJsonValue → String) (load : String × QJsonValue → β)
      (before after : QJsonObject) (member : String × QJsonValue) (k : String),
      k ≠ key member →
      (loadedEach key load (before ++ member :: after)).find k
        = (loadedEach key load (before ++ after)).find k) ∧
    (∀ member : String × QJsonValue,
      (∀ s, QJsonObject.value member.2.toObject "teacher" ≠ QJsonValue.string s) →
      (subjectOfMember member).teacher = "") ∧
    (∀ member : String × QJsonValue,
      List.lookup "color" member.2.toObject = none →
      (subjectOfMember member).color = QColor.rgb 224 224 224) ∧
    (∀ member : String × QJsonValue,
      List.lookup "subject" member.2.toObject = none →
      (slotOfMember member).subjectName = "") ∧
    (∀ member : String × QJsonValue,
      List.lookup "room" member.2.toObject = none →
      (slotOfMember member).room = "") ∧
    QColor.ofName "#E0E0E0" = QColor.rgb 224 224 224 := by
  refine ⟨parseSubjects_eq _, parseTemplates_eq _, parseWeeks_eq _, ?_, ?_, ?_, ?_, ?_,
    by decide⟩
  · intro β key load before after member k h
    exact loadedEach_find_other key load before after member k h
  · intro member h
    unfold subjectOfMember
    dsimp only
    cases hv : QJsonObject.value member.2.toObject "teacher" with
    | string s => exact absurd hv (h s)
    | _ => rfl
  · intro member h
    unfold subjectOfMember QJsonObject.value
    dsimp only
    rw [h]
    decide
  · intro member h
    unfold slotOfMember QJsonObject.value
    dsimp only
    rw [h]
    rfl
  · intro member h
    unfold slotOfMember QJsonObject.value
    dsimp only
    rw [h]
    rfl

/-- C25, the claim as written fails: `reversedDocument` writes the entry "back" from 10:00
to 09:00 and the entry "void" with unparsable times; on the catalog `parseSchoolPeriods`
makes of it, `buildDay` returns "void" with start equal to end and "back" with its end
before its start, and `upcomingPeriods` returns "back" for the window 08:00-11:00. -/
theorem parsed_period_end_not_after_start :
    (buildDay (parseSchoolPeriods reversedDocument) sampleSettings 4 "A" "Monday").map
        (fun p => (p.periodKey, p.startTime, p.endTime))
      = [("void", 345600000, 345600000), ("back", 381600000, 378000000)] ∧
    (upcomingPeriods 3 (parseSchoolPeriods reversedDocument) sampleSettings
        374400000 385200000).map (List.map (fun p => (p.periodKey, p.startTime, p.endTime)))
      = some [("back", 381600000, 378000000)] ∧
    ¬ ((381600000 : Int) < 378000000) := by
  decide

/-- C25, amended. Every period `buildDay` returns, and every period `upcomingPeriods`
returns, carries the start and the end of its template entry on its date; so its start is
strictly before its end whenever the entry's start and end are valid times of day with the
start before the end. -/
theorem period_interval_of_entry (data : SchoolPeriodsData) (settings : SettingsData)
    (referenceDate : Int) (weekKey dayName : String) (from_ to_ : Int) (fuel : Nat) :
    (∀ week day templ, data.weeks.find weekKey = some week →
      week.days.find dayName = some day →
      data.templates.find (buildDayTemplateName settings day) = some templ →
      ∀ p e, (p, e) ∈ (buildDay data settings referenceDate weekKey dayName).zip templ.periods →
        p.startTime = QDateTime.ofDateTime referenceDate e.start ∧
        p.endTime = QDateTime.ofDateTime referenceDate e.«end» ∧
        (e.start.isValid = true → e.«end».isValid = true → e.start.mds < e.«end».mds →
          p.startTime < p.endTime)) ∧
    (walkFuel from_ to_ ≤ fuel →
      ∃ r, upcomingPeriods fuel data settings from_ to_ = some r ∧
        ∀ p ∈ r, ∃ d day templ e,
          (data.weeks.value (toUpper settings.currentWeek)).days.find (QDate.longDayName d)
            = some day ∧
          data.templates.find day.templateName = some templ ∧ e ∈ templ.periods ∧
          p.startTime = QDateTime.ofDateTime d e.start ∧
          p.endTime = QDateTime.ofDateTime d e.«end» ∧
          (e.start.isValid = true → e.«end».isValid = true → e.start.mds < e.«end».mds →
            p.startTime < p.endTime)) ∧
    (buildDay sampleCatalog sampleSettings 4 "A" "Monday").all
        (fun p => decide (p.startTime < p.endTime)) = true := by
  refine ⟨?_, ?_, by decide⟩
  · intro week day templ hw hd ht p e hpe
    rw [buildDay_found data settings referenceDate weekKey dayName week day templ hw hd ht]
      at hpe
    obtain ⟨hp, _⟩ := zip_map_mem _ _ p e hpe
    rw [hp, buildDayPeriod_startTime, buildDayPeriod_endTime]
    exact ⟨rfl, rfl, ofDateTime_lt referenceDate e.start e.«end»⟩
  · intro hfuel
    obtain ⟨r, hr, hmem⟩ := upcomingPeriods_mem data settings from_ to_ fuel hfuel
    refine ⟨r, hr, ?_⟩
    intro p hp
    obtain ⟨d, day, templ, e, h1, h2, h3, h4⟩ := hmem p hp
    refine ⟨d, day, templ, e, h1, h2, h3, ?_⟩
    rw [h4, upcomingPeriod_startTime, upcomingPeriod_endTime]
    exact ⟨rfl, rfl, ofDateTime_lt d e.start e.«end»⟩

/-! ## Subtask weights and completion: claims C26, C29 -/

/-- C29, the claim as written fails: with a completed subtask of weight 1e20 and an open
subtask of weight 1 the total absorbs the 1 and `computeProgress` is exactly 100 although a
subtask of positive weight is open; and marking the second subtask of `hugeHalfDoneTask`
completed turns the result from 0 into NaN, which is not at least 0. -/
theorem computeProgress_full_with_open_subtask :
    computeProgress absorbedTask = 100 ∧
    (∃ x ∈ absorbedTask.subtasks, 0 < x.weighting ∧ x.completed = false) ∧
    0 < clampedTotal absorbedTask ∧
    hugeDoneTask
      = { hugeHalfDoneTask with
          subtasks := [{ weighting := 10 ^ 308, completed := true }]
            ++ { ({ weighting := 10 ^ 308 } : Subtask) with completed := true } :: [] } ∧
    computeProgress hugeHalfDoneTask = 0 ∧
    computeProgress hugeDoneTask = Double.nan ∧
    ¬ (computeProgress hugeHalfDoneTask ≤ computeProgress hugeDoneTask) := by
  refine ⟨by decide!, ⟨{ weighting := 1 }, by decide!, by norm_num, rfl⟩, by decide!, rfl,
    by decide!, by decide!, by decide!⟩

/-- C29, amended. Marking a subtask completed, with every weight and every other flag
unchanged, never decreases `computeProgress` as long as the completed weight afterwards has
not overflowed to +inf; `computeProgress` is 100 whenever the total weight is positive and
finite and every subtask of positive weight is completed; and it is 100 only if the total
weight is positive. -/
theorem computeProgress_monotone_unless_overflow (task : Task) (before after : List Subtask)
    (s : Subtask) :
    ((progressWeights
        { task with subtasks := before ++ { s with completed := true } :: after }).1
        ≠ Double.posInf →
      computeProgress { task with subtasks := before ++ s :: after }
        ≤ computeProgress
            { task with subtasks := before ++ { s with completed := true } :: after }) ∧
    ((progressWeights task).2 ≠ Double.posInf → 0 < (progressWeights task).2 →
      (∀ x ∈ task.subtasks, 0 < x.weighting → x.completed = true) →
      computeProgress task = 100) ∧
    (computeProgress task = 100 → 0 < (progressWeights task).2) := by
  refine ⟨?_, ?_, ?_⟩
  · intro hfin
    obtain ⟨hT, hC⟩ := progressWeights_mark_completed task before after s
    obtain ⟨a1, a2, _⟩ := progressWeights_invariant { task with subtasks := before ++ s :: after }
    obtain ⟨b1, _, _⟩ := progressWeights_invariant
      { task with subtasks := before ++ { s with completed := true } :: after }
    unfold computeProgress
    dsimp only
    rw [hT]
    by_cases h : (progressWeights { task with subtasks := before ++ s :: after }).2 ≤ 0
    · rw [if_pos h, if_pos h]
      exact Double.isWeight_le_refl Double.zero_isWeight
    · rw [if_neg h, if_neg h]
      exact progressValue_mono _ _ _ a1 b1 a2 hC hfin h
  · intro hfin hpos hall
    obtain ⟨_, hT, _⟩ := progressWeights_invariant task
    have hCT : (progressWeights task).1 = (progressWeights task).2 := by
      rw [progressWeights_eq]
      exact completedSum_eq_totalSum task.subtasks 0 Double.zero_isWeight hall
    rcases hT with hT | ⟨y, hT, hy, _⟩
    · exact absurd hT hfin
    · have hypos : 0 < y := by
        rw [hT, Double.zero_eq] at hpos
        exact Double.finite_lt_finite.1 hpos
      have hn : ¬ (progressWeights task).2 ≤ 0 := by
        rw [hT, Double.zero_eq, Double.finite_le_finite]
        exact not_le.2 hypos
      unfold computeProgress
      dsimp only
      rw [if_neg hn, hCT, hT, Double.finite_div_finite y y (ne_of_gt hypos),
        div_self (ne_of_gt hypos), Double.round_one]
      decide!
  · intro h
    obtain ⟨_, hT, _⟩ := progressWeights_invariant task
    apply Double.isWeight_pos_of_not_le hT
    intro hle
    have h0 : computeProgress task = 0 := by
      unfold computeProgress
      dsimp only
      rw [if_pos hle]
    rw [h0] at h
    revert h
    decide!

/-! ## Termination of the day walk: claim C27 -/

/-- C27. For every catalog, settings and pair of instants the day walk of `upcomingPeriods`
ends: with one unit of fuel for every calendar date from the date of `from` to the date of
`to`, plus one for the last test of the loop condition, the loop returns, and more fuel
gives the same list.  Each round either ends the loop or goes on with the cursor at midnight
of the next calendar date, which is strictly later than the cursor. -/
theorem upcomingLoop_terminates (data : SchoolPeriodsData) (settings : SettingsData)
    (from_ to_ : Int) :
    walkFuel from_ to_ = (QDateTime.date to_ - QDateTime.date from_).toNat + 1 + 1 ∧
    (∃ l, upcomingLoop data settings from_ to_ (walkFuel from_ to_) from_ [] = some l) ∧
    (∀ fuel, walkFuel from_ to_ ≤ fuel →
      upcomingLoop data settings from_ to_ fuel from_ []
        = upcomingLoop data settings from_ to_ (walkFuel from_ to_) from_ []) ∧
    (∀ (fuel : Nat) (cursor : Int) (result : List TimetablePeriod),
      upcomingLoop data settings from_ to_ (fuel + 1) cursor result = some result ∨
      ∃ result', upcomingLoop data settings from_ to_ (fuel + 1) cursor result
        = upcomingLoop data settings from_ to_ fuel (nextDay cursor) result') ∧
    (∀ cursor : Int, cursor < nextDay cursor ∧
      nextDay cursor = midnight (QDateTime.date cursor + 1) ∧
      QDateTime.date (nextDay cursor) = QDateTime.date cursor + 1) := by
  refine ⟨rfl, ?_, ?_, ?_, nextDay_later⟩
  · obtain ⟨l, hl, _⟩ := upcomingLoop_returns data settings from_ to_ _ (le_refl _)
    exact ⟨l, hl⟩
  · intro fuel hfuel
    exact upcomingLoop_fuel_irrelevant data settings from_ to_ fuel hfuel
  · intro fuel cursor result
    exact upcomingLoop_stop_or_advance data settings from_ to_ cursor fuel result

/-! ## The drawn angles: claim C28 -/

/-- C28, the claim as written fails: at instant 0 the activity of `briefActivityWidget` ends
half a second later; `rebuildArcs` keeps its arc, and the span in minutes that `drawArcs`
computes for it from whole seconds is 0, which is not in (0, 720], with a sweep of 0.  And
for the arc of `lateActivityWidget`, which ends at the end of the window, offset + span is
720 and `minutesToAngle 720` is 270, but the start angle plus the sweep is another double,
which exceeds 270. -/
theorem brief_arc_has_zero_span :
    (rebuildArcs 0 briefActivityWidget).mActivityArcs = [briefArc] ∧
    (rebuildArcs 0 briefActivityWidget).mNow = some 0 ∧
    arcSpanMinutes briefArc = 0 ∧ arcSpanAngle briefArc = 0 ∧
    ¬ (0 < arcSpanMinutes briefArc) ∧
    (rebuildArcs 0 lateActivityWidget).mActivityArcs = [lateArc] ∧
    arcStartMinutes 0 lateArc + arcSpanMinutes lateArc = 720 ∧
    minutesToAngle (arcStartMinutes 0 lateArc + arcSpanMinutes lateArc) = 270 ∧
    minutesToAngle (arcStartMinutes 0 lateArc) + arcSpanAngle lateArc
      = Double.finite (4749890231992321 / 17592186044416) ∧
    ¬ (minutesToAngle (arcStartMinutes 0 lateArc) + arcSpanAngle lateArc ≤ 270) := by
  decide!

/-- C28, amended. For every arc `rebuildArcs` produces, with `now` the instant it worked
with, `drawArcs` at the same `now` measures a start offset of at least 0 and less than 43200
whole seconds and a span of at least 0 and at most 43200 whole seconds, with offset + span at
most 43200; so, as doubles, the start offset in minutes lies in [0, 720), the span in minutes
lies in [0, 720] and is positive when the arc lasts at least one second, the start angle lies
in [-90, 270) and the sweep in [0, 360], the integers passed to `drawArc` lie in
[-1440, 4319] and [-5760, 0], and the start angle plus the sweep, taken as numbers, is at
most `270 + 2 ^ (-41)`: no arc is drawn with more than a full revolution.  The calls
`drawArcList` makes carry these angles, times 16 and cast to `int`; the arc that starts 5580 s
after `now` and lasts 195 s is drawn with -695 and -25. -/
theorem drawn_arc_within_revolution (currentDateTime : Int) (w : DonutChartWidget) :
    (rebuildArcs currentDateTime w).mNow = some (effectiveNow currentDateTime w) ∧
    (∀ arc ∈ (rebuildArcs currentDateTime w).mActivityArcs
        ++ (rebuildArcs currentDateTime w).mPeriodArcs,
      0 ≤ QDateTime.secsTo (effectiveNow currentDateTime w) arc.startTime ∧
      QDateTime.secsTo (effectiveNow currentDateTime w) arc.startTime < 43200 ∧
      0 ≤ QDateTime.secsTo arc.startTime arc.endTime ∧
      QDateTime.secsTo arc.startTime arc.endTime ≤ 43200 ∧
      QDateTime.secsTo (effectiveNow currentDateTime w) arc.startTime
        + QDateTime.secsTo arc.startTime arc.endTime ≤ 43200 ∧
      0 ≤ arcStartMinutes (effectiveNow currentDateTime w) arc ∧
      arcStartMinutes (effectiveNow currentDateTime w) arc < 720 ∧
      0 ≤ arcSpanMinutes arc ∧ arcSpanMinutes arc ≤ 720 ∧
      (arc.startTime + 1000 ≤ arc.endTime → 0 < arcSpanMinutes arc) ∧
      -90 ≤ minutesToAngle (arcStartMinutes (effectiveNow currentDateTime w) arc) ∧
      minutesToAngle (arcStartMinutes (effectiveNow currentDateTime w) arc) < 270 ∧
      0 ≤ arcSpanAngle arc ∧ arcSpanAngle arc ≤ 360 ∧
      -1440 ≤ castToInt
        (minutesToAngle (arcStartMinutes (effectiveNow currentDateTime w) arc) * 16) ∧
      castToInt
        (minutesToAngle (arcStartMinutes (effectiveNow currentDateTime w) arc) * 16) ≤ 4319 ∧
      -5760 ≤ castToInt (-arcSpanAngle arc * 16) ∧
      castToInt (-arcSpanAngle arc * 16) ≤ 0 ∧
      ∃ s v : ℚ,
        minutesToAngle (arcStartMinutes (effectiveNow currentDateTime w) arc)
          = Double.finite s ∧
        arcSpanAngle arc = Double.finite v ∧ s + v ≤ 270 + 1 / 2 ^ 41) ∧
    (∀ (mNow : Int) (bandThickness : Double) (outerRect : QRectF) (arcs : List DonutArc)
      (widthFactor inset : Double),
      (drawArcList mNow bandThickness outerRect arcs widthFactor inset).map
          (fun call => (call.startAngle, call.spanAngle))
        = arcs.map (fun arc =>
            (castToInt (minutesToAngle (arcStartMinutes mNow arc) * 16),
             castToInt (-arcSpanAngle arc * 16)))) ∧
    (∀ (bandThickness : Double) (outerRect : QRectF) (widthFactor inset : Double),
      (drawArcList 0 bandThickness outerRect [roundedArc] widthFactor inset).map
          (fun call => (call.startAngle, call.spanAngle)) = [(-695, -25)]) := by
  refine ⟨rebuildArcs_mNow currentDateTime w, ?_, ?_, ?_⟩
  · intro arc harc
    obtain ⟨h1, h2, h3⟩ := rebuildArcs_arc_bounds currentDateTime w arc harc
    obtain ⟨a1, a2, a3, a4, a5, _⟩ := arc_seconds_bounds _ arc h1 h2 h3
    obtain ⟨b1, b2, b3, b4, b5, b6, b7, b8, b9, b10, b11, b12, b13⟩ :=
      arc_angle_bounds _ arc h1 h2 h3
    exact ⟨a1, a2, a3, a4, a5, b1, b2, b3, b4, b5, b6, b7, b8, b9, b10, b11, b12, b13,
      arc_end_angle_bound _ arc h1 h2 h3⟩
  · intro mNow bandThickness outerRect arcs widthFactor inset
    rw [drawArcList_eq, List.map_map]
    rfl
  · intro bandThickness outerRect widthFactor inset
    rw [drawArcList_eq, List.map_map]
    have h : (castToInt (minutesToAngle (arcStartMinutes 0 roundedArc) * 16),
        castToInt (-arcSpanAngle roundedArc * 16)) = ((-695 : Int), (-25 : Int)) := by
      decide!
    simp only [List.map_cons, List.map_nil, Function.comp_apply, h]

end Timetable
